import Mathlib

/-!
# XrdCl operation pipelines and the replay driver

A shallow embedding of `src/XrdCl/XrdClOperations.hh` and
`src/XrdCl/XrdClOperations.cc`: the operation objects, the composition
operators, `Operation::Run` and `PipelineHandler::HandleResponseImpl`; and of
`src/XrdApps/XrdClRecordPlugin/XrdClReplay.cc`: the parser of the trace, the
registry of durations, the argument parsers of the actions and `main`.

Conventions of the embedding.

* A C++ object that a method mutates is passed in and its new state is
  returned next to the method's result.
* `std::unique_ptr<T>` is `Option T`; a raw pointer argument that may be null
  is `Option T` as well.
* An exception is a value: methods that may throw return `Except Exception _`.
* Callbacks that belong to the user (the response handler, the final callback,
  the promise) are identified by a number; what they do is recorded as an
  `Event` of the run. What the outside world answers (the result of `RunImpl`,
  the status a callback is fired with, the signal a user handler raises) is
  read from a `World`, indexed by the number of operations submitted before.
* Deallocation is not modelled.
-/

namespace XrdCl

/-! ## Statuses -/

/-- Modelled from the spec: the status class `XRootDStatus` lives in
`XrdClXRootDResponses.hh`, which is not part of the sources at hand. The spec
describes it as a pair (OK-or-kind, numeric code). -/
structure XRootDStatus where
  status : Nat
  code : Nat
  deriving DecidableEq, Repr

/-- Modelled from the spec: status kind of a successful call (`stOK`). -/
def stOK : Nat := 0

/-- Modelled from the spec: status kind of a failed call (`stError`). -/
def stError : Nat := 1

/-- Modelled from the spec: the numeric code of an expired operation
(`errOperationExpired`). -/
def errOperationExpired : Nat := 206

/-- Modelled from the spec: a status is OK when its kind is `stOK`. -/
def XRootDStatus.IsOK (s : XRootDStatus) : Bool := s.status == stOK

/-- The default constructed status, `XRootDStatus()`. -/
def XRootDStatus.default : XRootDStatus := ⟨stOK, 0⟩

/-! ## Operations and their handlers -/

/-- The kind of an operation together with its argument tuple
(`std::tuple<Args...> args` of `ConcreteOperation`). -/
structure OpArgs where
  kind : String
  values : List Nat
  deriving DecidableEq, Repr

mutual
/-- The class `Operation<HasHndl>` with the members `ConcreteOperation` adds:
the template flag, `args`, `recovery`, `timeout`, and from the base class
`handler` and `valid`. A recovery function returns `none` when it throws. -/
inductive Operation where
  | mk (hasHndl : Bool) (args : OpArgs)
       (recovery : Option (XRootDStatus → Option Operation))
       (timeout : Nat) (handler : Option PipelineHandler) (valid : Bool)
/-- The class `PipelineHandler`. The member `currentOperation` points back to the
operation that owns the handler and is carried separately by the functions
below. -/
inductive PipelineHandler where
  | mk (responseHandler : Option Nat) (nextOperation : Option Operation)
       (timeout : Nat) (prms : Nat) (final : Option Nat)
       (recovery : Option (XRootDStatus → Option Operation))
end

/-- The type `rcvry_func`; `none` as a result stands for a thrown exception. -/
abbrev rcvry_func := XRootDStatus → Option Operation

namespace Operation

def hasHndl : Operation → Bool
  | .mk hh _ _ _ _ _ => hh

def args : Operation → OpArgs
  | .mk _ a _ _ _ _ => a

def recovery : Operation → Option rcvry_func
  | .mk _ _ r _ _ _ => r

def timeout : Operation → Nat
  | .mk _ _ _ t _ _ => t

def handler : Operation → Option PipelineHandler
  | .mk _ _ _ _ h _ => h

def valid : Operation → Bool
  | .mk _ _ _ _ _ v => v

def setRecovery : Operation → Option rcvry_func → Operation
  | .mk hh a _ t h v, r => .mk hh a r t h v

def setTimeout : Operation → Nat → Operation
  | .mk hh a r _ h v, t => .mk hh a r t h v

def setHandler : Operation → Option PipelineHandler → Operation
  | .mk hh a r t _ v, h => .mk hh a r t h v

def setValid : Operation → Bool → Operation
  | .mk hh a r t h _, v => .mk hh a r t h v

end Operation

namespace PipelineHandler

def responseHandler : PipelineHandler → Option Nat
  | .mk rh _ _ _ _ _ => rh

def nextOperation : PipelineHandler → Option Operation
  | .mk _ n _ _ _ _ => n

def timeout : PipelineHandler → Nat
  | .mk _ _ t _ _ _ => t

def prms : PipelineHandler → Nat
  | .mk _ _ _ p _ _ => p

def final : PipelineHandler → Option Nat
  | .mk _ _ _ _ f _ => f

def recovery : PipelineHandler → Option rcvry_func
  | .mk _ _ _ _ _ r => r

/-- The constructor `PipelineHandler( ResponseHandler *handler, rcvry_func
&&recovery )`; the remaining members are default constructed. -/
def create (handler : Option Nat) (recovery : Option rcvry_func) : PipelineHandler :=
  .mk handler none 0 0 none recovery

/-- The constructor `PipelineHandler( rcvry_func &&recovery )`. -/
def createDefault (recovery : Option rcvry_func) : PipelineHandler :=
  .mk none none 0 0 none recovery

/-- The method `PipelineHandler::Assign`: stores the pipeline timeout, the promise
and the final callback (and the back pointer, which is carried separately). -/
def Assign : PipelineHandler → Nat → Nat → Option Nat → PipelineHandler
  | .mk rh n _ _ _ r, t, p, f => .mk rh n t p f r

end PipelineHandler

mutual
/-- The method `Operation::AddOperation`: forwards to the handler when there is one. -/
def Operation.AddOperation : Operation → Option Operation → Operation
  | .mk hh a r t (some h) v, op => .mk hh a r t (some (h.AddOperation op)) v
  | .mk hh a r t none v, _ => .mk hh a r t none v
/-- The method `PipelineHandler::AddOperation`: forwards to the next operation when
there is one, otherwise stores the operation as the next one. -/
def PipelineHandler.AddOperation : PipelineHandler → Option Operation → PipelineHandler
  | .mk rh (some n) t p f r, op => .mk rh (some (n.AddOperation op)) t p f r
  | .mk rh none t p f r, op => .mk rh op t p f r
end

/-! ## Running a pipeline -/

/-- What a user response handler does when it is invoked: it returns, or it
throws `StopPipeline`, `RepeatOpeation`, or something else. -/
inductive Signal where
  | returned
  | StopPipeline (status : XRootDStatus)
  | RepeatOpeation
  | other
  deriving DecidableEq, Repr

/-- What `RunImpl` does: it returns a status or throws `operation_expired`. -/
inductive RunImplResult where
  | returned (st : XRootDStatus)
  | operation_expired
  deriving DecidableEq, Repr

/-- The answers of everything outside the two files, for the submission number
`n` (counted from 0): the result of `RunImpl` for given arguments, operation
timeout and pipeline timeout; the status the callback is fired with when the
call was accepted; the signal of user handler `h` on a status. -/
structure World where
  RunImpl : Nat → OpArgs → Nat → Nat → RunImplResult
  response : Nat → XRootDStatus
  userHandler : Nat → Nat → XRootDStatus → Signal

/-- The observable actions of a run: `RunImpl` is called (whatever it answers),
the handler is entered with a status, the user handler or the recovery function
is invoked with a status, the final callback is called, the promise is
fulfilled. -/
inductive Event where
  | RunImpl (args : OpArgs) (timeout : Nat)
  | HandleResponse (status : XRootDStatus)
  | userHandler (handler : Nat) (status : XRootDStatus)
  | recovery (status : XRootDStatus)
  | final (callback : Nat) (status : XRootDStatus)
  | set_value (prms : Nat) (status : XRootDStatus)
  deriving DecidableEq, Repr

/-- How a call of `Run` or `HandleResponseImpl` ends: with a call
`opr->Run( timeout, prms, final )`, with the handler handed to the I/O layer
until the callback fires, with a plain return, or with an escaping exception or
a null dereference. -/
inductive Next where
  | Run (opr : Operation) (timeout : Nat) (prms : Nat) (final : Option Nat)
  | await (handler : PipelineHandler) (currentOperation : Operation)
  | done
  | abort

/-- The statement `if( final ) final( st );`. -/
def callFinal (final : Option Nat) (st : XRootDStatus) : List Event :=
  match final with
  | some f => [Event.final f st]
  | none => []

/-- The method `PipelineHandler::HandleResponseImpl`, for the handler `this`
whose `currentOperation` is given, in submission `n`. -/
def PipelineHandler.HandleResponseImpl (w : World) (n : Nat) (currentOperation : Operation) :
    PipelineHandler → XRootDStatus → List Event × Next
  | .mk responseHandler nextOperation timeout prms final recovery, status =>
    let myself := PipelineHandler.mk responseHandler nextOperation timeout prms final recovery
    let st := status
    let entry := [Event.HandleResponse status]
    let afterHandler (called : List Event) : List Event × Next :=
      let attempt : List Event × Option Operation :=
        if !st.IsOK then
          match recovery with
          | some rcv => ([Event.recovery st], rcv st)
          | none => ([], none)
        else ([], none)
      match attempt.2 with
      | some op =>
        (entry ++ called ++ attempt.1,
          Next.Run (op.AddOperation nextOperation) timeout prms final)
      | none =>
        if !st.IsOK || nextOperation.isNone then
          (entry ++ called ++ attempt.1 ++ callFinal final st ++ [Event.set_value prms st],
            Next.done)
        else
          match nextOperation with
          | some opr => (entry ++ called ++ attempt.1, Next.Run opr timeout prms final)
          | none => (entry ++ called ++ attempt.1, Next.abort)
    match responseHandler with
    | some rh =>
      match w.userHandler rh n status with
      | Signal.StopPipeline stop =>
        (entry ++ [Event.userHandler rh status] ++ callFinal final stop
          ++ [Event.set_value prms stop], Next.done)
      | Signal.RepeatOpeation =>
        (entry ++ [Event.userHandler rh status],
          Next.Run (currentOperation.setHandler (some myself)) timeout prms final)
      | Signal.other => (entry ++ [Event.userHandler rh status], Next.abort)
      | Signal.returned => afterHandler [Event.userHandler rh status]
    | none => afterHandler []

/-- The method `Operation::ForceHandler`. -/
def Operation.ForceHandler (w : World) (n : Nat) (this : Operation) (handler : PipelineHandler)
    (status : XRootDStatus) : List Event × Next :=
  handler.HandleResponseImpl w n this status

/-- The method `Operation::Run`, as submission `n`. -/
def Operation.Run (w : World) (n : Nat) (this : Operation) (timeout : Nat) (prms : Nat)
    (final : Option Nat) : List Event × Next :=
  match this.handler with
  | none => ([], Next.abort)
  | some h =>
    let handler := h.Assign timeout prms final
    let released := this.setHandler none
    let st : XRootDStatus :=
      match w.RunImpl n this.args this.timeout timeout with
      | RunImplResult.returned s => s
      | RunImplResult.operation_expired => ⟨stError, errOperationExpired⟩
    if st.IsOK then ([Event.RunImpl this.args timeout], Next.await handler released)
    else
      let r := released.ForceHandler w n handler st
      (Event.RunImpl this.args timeout :: r.1, r.2)

/-- How far a run has come. -/
inductive Outcome where
  | finished
  | aborted
  | running
  deriving DecidableEq, Repr

/-- One submission: `Run`, and the callback when the call was accepted. -/
def submit (w : World) (n : Nat) (opr : Operation) (timeout : Nat) (prms : Nat)
    (final : Option Nat) : List Event × Next :=
  match opr.Run w n timeout prms final with
  | (e, Next.await h cur) =>
    let r := h.HandleResponseImpl w n cur (w.response n)
    (e ++ r.1, r.2)
  | r => r

/-- The run of a pipeline from submission `n` on, for at most `fuel` submissions. -/
def exec (w : World) : Nat → Nat → Operation → Nat → Nat → Option Nat → List Event × Outcome
  | 0, _, _, _, _, _ => ([], Outcome.running)
  | fuel + 1, n, opr, timeout, prms, final =>
    match submit w n opr timeout prms final with
    | (e, Next.Run opr' timeout' prms' final') =>
      let r := exec w fuel (n + 1) opr' timeout' prms' final'
      (e ++ r.1, r.2)
    | (e, Next.done) => (e, Outcome.finished)
    | (e, _) => (e, Outcome.aborted)

/-- The status the handler of submission `n` is invoked with: the status of the
callback when `RunImpl` accepted the call, the status `RunImpl` returned when it
is not OK, and the synthesized expiry status when `RunImpl` threw. -/
def delivered (w : World) (n : Nat) (opr : Operation) (timeout : Nat) : XRootDStatus :=
  match w.RunImpl n opr.args opr.timeout timeout with
  | RunImplResult.returned s => if s.IsOK then w.response n else s
  | RunImplResult.operation_expired => ⟨stError, errOperationExpired⟩

/-- The events of invoking the user handler, when there is one. -/
def handlerCall (responseHandler : Option Nat) (st : XRootDStatus) : List Event :=
  match responseHandler with
  | some rh => [Event.userHandler rh st]
  | none => []

/-- The events of invoking the recovery function, when there is one. -/
def recoveryCall (recovery : Option rcvry_func) (st : XRootDStatus) : List Event :=
  match recovery with
  | some _ => [Event.recovery st]
  | none => []

/-- Whether an event fulfils a promise. -/
def Event.isSetValue : Event → Bool
  | Event.set_value _ _ => true
  | _ => false

/-- Whether an event is a call of a final callback. -/
def Event.isFinal : Event → Bool
  | Event.final _ _ => true
  | _ => false

/-- The underlying call an event issues, if it issues one. -/
def Event.issued : Event → Option (OpArgs × Nat)
  | Event.RunImpl a t => some (a, t)
  | _ => none

/-- No event of the list fulfils a promise or calls a final callback. -/
def quiet (ev : List Event) : Bool :=
  ev.all (fun e => !e.isSetValue && !e.isFinal)

/-- The shape of what one call of the handler, or one submission, does: when it
returns with nothing scheduled, it has called the final callback (if set) and
then fulfilled the promise, with one status, as its last two actions and not
before; otherwise it has done neither, and an operation it runs gets the same
timeout, promise and final callback. -/
def stepShape (timeout prms : Nat) (final : Option Nat) (r : List Event × Next) : Prop :=
  match r.2 with
  | Next.done => ∃ pre s, r.1 = pre ++ callFinal final s ++ [Event.set_value prms s] ∧
      quiet pre = true
  | Next.Run _ T p f => quiet r.1 = true ∧ T = timeout ∧ p = prms ∧ f = final
  | _ => quiet r.1 = true

/-- The shape of a run: when it has finished, it has called the final callback (if
set) and then fulfilled the promise, with one status, as its last two actions
and not before; otherwise it has done neither. -/
def runShape (prms : Nat) (final : Option Nat) (r : List Event × Outcome) : Prop :=
  match r.2 with
  | Outcome.finished => ∃ pre s, r.1 = pre ++ callFinal final s ++ [Event.set_value prms s] ∧
      quiet pre = true
  | _ => quiet r.1 = true

/-! ## The chain of a handled operation -/

/-- One element of a pipeline as the handler sees it: the call, the user handler
and the recovery function. -/
structure Link where
  args : OpArgs
  responseHandler : Option Nat
  recovery : Option rcvry_func

mutual
/-- The operations reachable from a handled operation through `nextOperation`,
in order, starting with the operation itself. -/
def Operation.chain : Operation → List Link
  | .mk _ a _ _ (some h) _ => ⟨a, h.responseHandler, h.recovery⟩ :: h.chain
  | .mk _ a _ _ none _ => [⟨a, none, none⟩]
/-- The operations that follow the one a handler belongs to. -/
def PipelineHandler.chain : PipelineHandler → List Link
  | .mk _ (some n) _ _ _ _ => n.chain
  | .mk _ none _ _ _ _ => []
end

/-- The chain behind a possibly null operation pointer. -/
def chainOf : Option Operation → List Link
  | some op => op.chain
  | none => []

mutual
/-- Every operation of the chain owns a handler. -/
def Operation.Handled : Operation → Bool
  | .mk _ _ _ _ (some h) _ => h.Handled
  | .mk _ _ _ _ none _ => false
/-- Every operation behind the handler owns a handler. -/
def PipelineHandler.Handled : PipelineHandler → Bool
  | .mk _ (some n) _ _ _ _ => n.Handled
  | .mk _ none _ _ _ _ => true
end

/-- The chain an operand of a composition stands for: that of its handler when
it is handled, the operation alone with its own recovery when it is not. -/
def Operation.links (op : Operation) : List Link :=
  if op.hasHndl then op.chain else [⟨op.args, none, op.recovery⟩]

/-! ## Construction and composition -/

/-- The exceptions thrown in the sources: by the operations, by the replay driver
and by the conversions of the standard library it calls. -/
inductive Exception where
  | invalid_argument (what : String)
  | logic_error (what : String)
  | out_of_range (what : String)
  deriving DecidableEq, Repr

namespace ConcreteOperation

/-- The constructor `ConcreteOperation( Args&&... args )`, on top of
`Operation() : valid( true )`: an operation without handler. -/
def create (args : OpArgs) : Operation :=
  .mk false args none 0 none true

/-- The constructor template `ConcreteOperation( ConcreteOperation<..., from, ...> &&op )`,
the "move constructor from other states", on top of `Operation( Operation<from> &&op )`:
it builds an operation whose template flag is `toHndl` from one in the other
state. The handler is moved out of `op` before the validity test, `args` is
moved, `timeout` is set to 0 and `recovery` is not taken over. Returns the new
object, or the exception, and `op` afterwards. -/
def move (toHndl : Bool) (op : Operation) : Except Exception Operation × Operation :=
  let handler := op.handler
  let op1 := op.setHandler none
  if !op1.valid then
    (.error (.invalid_argument "Cannot construct Operation from an invalid Operation!"), op1)
  else
    (.ok (.mk toHndl op1.args none 0 handler true), op1.setValid false)

/-- The move constructor of `ConcreteOperation`, for a source in the same state.
The class declares no copy or move operation and no destructor, and a
constructor template is never the move constructor, so it is the one the
compiler writes: the base is built by `Operation( Operation<from> &&op )`, with
the validity test, and `args`, `recovery` and `timeout` are moved member by
member. The moved-from `recovery` is left empty. -/
def moveSame (op : Operation) : Except Exception Operation × Operation :=
  let handler := op.handler
  let op1 := op.setHandler none
  if !op1.valid then
    (.error (.invalid_argument "Cannot construct Operation from an invalid Operation!"), op1)
  else
    (.ok (.mk op.hasHndl op1.args op1.recovery op1.timeout handler true),
      (op1.setRecovery none).setValid false)

/-- Modelled from the spec: the classes `Derived<HasHndl>` are not part of the
sources at hand. The construction `Derived<to>( std::move( *me ) )` is taken to
run the constructor of `ConcreteOperation` for its argument and to add nothing:
the move constructor when `me` is in the state `to`, the constructor template
when it is in the other state. -/
def Derived (toHndl : Bool) (me : Operation) : Except Exception Operation × Operation :=
  if toHndl = me.hasHndl then moveSame me else move toHndl me

/-- Modelled from the spec: in `Timeout` the statement `return std::move( *this )`
makes the `Derived<HasHndl>` to return from the `ConcreteOperation` itself, by a
constructor of `Derived` that is not part of the sources at hand; it is taken to
move the object in its own state. -/
def Derived.ofBase (this : Operation) : Except Exception Operation × Operation :=
  moveSame this

/-- The object the constructors build from a valid operation for the state
`toHndl`: `recovery` and `timeout` are kept in the same state and reset in the
other one. -/
def moved (toHndl : Bool) (op : Operation) : Operation :=
  .mk toHndl op.args (if toHndl = op.hasHndl then op.recovery else none)
    (if toHndl = op.hasHndl then op.timeout else 0) op.handler true

/-- The method `Transform<to>()`. -/
def Transform (toHndl : Bool) (this : Operation) : Except Exception Operation × Operation :=
  Derived toHndl this

/-- The method `Move()`. -/
def Move (this : Operation) : Except Exception Operation × Operation :=
  Derived this.hasHndl this

/-- The statement `handler.reset( new PipelineHandler( std::move( recovery ) ) )`;
the moved-from `recovery` is left empty. -/
def resetHandler (this : Operation) : Operation :=
  (this.setHandler (some (PipelineHandler.createDefault this.recovery))).setRecovery none

/-- The method `ToHandled()`. -/
def ToHandled (this : Operation) : Except Exception Operation × Operation :=
  Derived true (resetHandler this)

/-- The method `Timeout( uint16_t timeout )`. -/
def Timeout (this : Operation) (timeout : Nat) : Except Exception Operation × Operation :=
  Derived.ofBase (this.setTimeout timeout)

/-- The method `Recovery( rcvry_func recovery )`. -/
def Recovery (this : Operation) (recovery : Option rcvry_func) :
    Except Exception Operation × Operation :=
  Transform this.hasHndl (this.setRecovery recovery)

/-- The method `StreamImpl( ResponseHandler *handler )`, available only for an
operation without handler. -/
def StreamImpl (this : Operation) (handler : Option Nat) :
    Except Exception Operation × Operation :=
  Transform true
    ((this.setHandler (some (PipelineHandler.create handler this.recovery))).setRecovery none)

/-- The operand of `|` once it owns a handler: itself when it is handled, and
after `handler.reset( new PipelineHandler( std::move( recovery ) ) )` when it is
not. -/
def withHandler (op : Operation) : Operation :=
  if op.hasHndl then op else resetHandler op

/-- The four overloads of `PipeImpl( me, op )`, selected by the template flags of
the two operands. Returns the result, `me` afterwards and `op` afterwards. -/
def PipeImpl (me op : Operation) : Except Exception Operation × Operation × Operation :=
  let me1 := if me.hasHndl then me else resetHandler me
  let moved := if op.hasHndl then Move op else ToHandled op
  match moved.1 with
  | .error e => (.error e, me1, moved.2)
  | .ok o =>
    let r := Transform true (me1.AddOperation (some o))
    (r.1, r.2, moved.2)

end ConcreteOperation

/-- The class `Pipeline`: the first operation and the future, which is valid once
it has been obtained from a promise. -/
structure Pipeline where
  operation : Option Operation
  ftr : Option Nat

namespace Pipeline

/-- The constructors `Pipeline( Operation<true> ... )` and
`Pipeline( Operation<false> ... )`. Returns the pipeline, or the exception, and
the operation afterwards. -/
def create (op : Operation) : Except Exception Pipeline × Operation :=
  let moved := if op.hasHndl then ConcreteOperation.Move op else ConcreteOperation.ToHandled op
  match moved.1 with
  | .error e => (.error e, moved.2)
  | .ok o => (.ok ⟨some o, none⟩, moved.2)

/-- The method `Pipeline::Run`, with `prms` the promise it creates. Returns the
pipeline afterwards and the call of `Run` it ends with. -/
def Run (this : Pipeline) (timeout : Nat) (final : Option Nat) (prms : Nat) :
    Except Exception (Pipeline × Next) :=
  if this.ftr.isSome then .error (.logic_error "Pipeline is already running")
  else
    match this.operation with
    | some opr => .ok (⟨none, some prms⟩, Next.Run opr timeout prms final)
    | none => .ok (⟨none, some prms⟩, Next.abort)

end Pipeline

/-- The move constructor `Pipeline( Pipeline &&pipe )`: the operation is moved, the
future of the new pipeline is default constructed. Returns the new pipeline and
`pipe` afterwards. -/
def Pipeline.move (pipe : Pipeline) : Pipeline × Pipeline :=
  (⟨pipe.operation, none⟩, ⟨none, pipe.ftr⟩)

/-- The conversion `operator bool()` of a pipeline. -/
def Pipeline.toBool (this : Pipeline) : Bool :=
  this.operation.isSome

/-- The function `Async( Pipeline pipeline, uint16_t timeout )`, called with the
caller's pipeline moved into the parameter, with `prms` the promise `Run`
creates. Returns the future handed back and the call of `Run` the pipeline ends
with, or the exception, and the caller's pipeline afterwards. -/
def Async (pipe : Pipeline) (timeout : Nat) (prms : Nat) :
    Except Exception (Option Nat × Next) × Pipeline :=
  let moved := Pipeline.move pipe
  match moved.1.Run timeout none prms with
  | .error e => (.error e, moved.2)
  | .ok r => (.ok (r.1.ftr, r.2), moved.2)

/-- The expression `op1 | op2 | ... | opn`, which associates to the left. -/
def pipeAll : Operation → List Operation → Except Exception Operation
  | acc, [] => .ok acc
  | acc, o :: os =>
    match (ConcreteOperation.PipeImpl acc o).1 with
    | .ok r => pipeAll r os
    | .error e => .error e

/-- The operator `|`: the result of `PipeImpl`. -/
def compose (x y : Operation) : Except Exception Operation :=
  (ConcreteOperation.PipeImpl x y).1

/-- The ways of consuming one operation: attaching a handler, `Timeout`,
`Recovery`, `Move`, `ToHandled` and `Transform`. -/
inductive Consumer where
  | attach (handler : Option Nat)
  | timeout (t : Nat)
  | recovery (r : Option rcvry_func)
  | move
  | toHandled
  | transform (toHndl : Bool)

/-- The result of a consumer and the consumed operation afterwards. -/
def Consumer.apply : Consumer → Operation → Except Exception Operation × Operation
  | .attach handler, op => ConcreteOperation.StreamImpl op handler
  | .timeout t, op => ConcreteOperation.Timeout op t
  | .recovery r, op => ConcreteOperation.Recovery op r
  | .move, op => ConcreteOperation.Move op
  | .toHandled, op => ConcreteOperation.ToHandled op
  | .transform toHndl, op => ConcreteOperation.Transform toHndl op

/-- The exception of the move constructor. -/
def invalidComposition : Exception :=
  .invalid_argument "Cannot construct Operation from an invalid Operation!"

/-- A single valid operation as an operand of `|`: an unhandled operation, or a
handled one whose handler has no next operation. -/
def Operation.single (o : Operation) : Prop :=
  o.valid = true ∧ (o.hasHndl = true → ∃ h, o.handler = some h ∧ h.nextOperation = none)

/-- The run of a chain in a world where every call is accepted and answered OK
and no user handler raises a signal, from submission `n` on: each operation is
called and its callback handled before the next one is called; the last
callback ends with the final callback and the promise. -/
def smoothRun (w : World) (T p : Nat) (f : Option Nat) : Nat → List Link → List Event
  | _, [] => []
  | n, [l] =>
    [Event.RunImpl l.args T, Event.HandleResponse (w.response n)]
      ++ handlerCall l.responseHandler (w.response n)
      ++ callFinal f (w.response n) ++ [Event.set_value p (w.response n)]
  | n, l :: l1 :: ls =>
    [Event.RunImpl l.args T, Event.HandleResponse (w.response n)]
      ++ handlerCall l.responseHandler (w.response n)
      ++ smoothRun w T p f (n + 1) (l1 :: ls)

/-! ## Sample operations and worlds -/

namespace Sample

def ok : XRootDStatus := ⟨stOK, 0⟩

def failed : XRootDStatus := ⟨stError, 3⟩

def other : XRootDStatus := ⟨stOK, 7⟩

def read : Operation := ConcreteOperation.create ⟨"Read", [0, 16]⟩

def write : Operation := ConcreteOperation.create ⟨"Write", [0, 16]⟩

def close : Operation := ConcreteOperation.create ⟨"Close", []⟩

def openBad : Operation := ConcreteOperation.create ⟨"Open", [0]⟩

/-- A handled operation with the given user handler, recovery and successor. -/
def handled (args : OpArgs) (rh : Option Nat) (rcv : Option rcvry_func)
    (next : Option Operation) : Operation :=
  .mk true args none 0 (some (.mk rh next 0 0 none rcv)) true

/-- The chain `Read | Write | Close`, the first with user handler 1. -/
def readWriteClose : Operation :=
  handled ⟨"Read", [0, 16]⟩ (some 1) none
    (some (handled ⟨"Write", [0, 16]⟩ none none (some (handled ⟨"Close", []⟩ none none none))))

/-- Every call is accepted and answered OK, no user handler raises a signal. -/
def calm : World :=
  ⟨fun _ _ _ _ => .returned ok, fun _ => ok, fun _ _ _ => .returned⟩

/-- Every call is accepted and answered OK, every user handler throws
`StopPipeline` with the status `other`. -/
def stopping : World :=
  ⟨fun _ _ _ _ => .returned ok, fun _ => ok, fun _ _ _ => .StopPipeline other⟩

/-- Every call is accepted and answered OK, user handlers throw `RepeatOpeation`
in submission 0 and return afterwards. -/
def repeating : World :=
  ⟨fun _ _ _ _ => .returned ok, fun _ => ok,
    fun _ n _ => if n = 0 then .RepeatOpeation else .returned⟩

/-- Every call is accepted; the first is answered with a failure, the later ones
OK; no user handler raises a signal. -/
def failing : World :=
  ⟨fun _ _ _ _ => .returned ok, fun n => if n = 0 then failed else ok, fun _ _ _ => .returned⟩

/-- The first call is refused by `RunImpl` with a failure, the later ones are
accepted and answered OK; no user handler raises a signal. -/
def refusing : World :=
  ⟨fun n _ _ _ => if n = 0 then .returned failed else .returned ok, fun _ => ok,
    fun _ _ _ => .returned⟩

/-- The first call expires in `RunImpl`, the later ones are accepted and answered
OK; no user handler raises a signal. -/
def expiring : World :=
  ⟨fun n _ _ _ => if n = 0 then .operation_expired else .returned ok, fun _ => ok,
    fun _ _ _ => .returned⟩

/-- A recovery function that always throws. -/
def throwing : rcvry_func := fun _ => none

/-- A recovery function that returns `Open` of the good url followed by `Stat`. -/
def reopen : rcvry_func := fun _ =>
  some (handled ⟨"Open", [1]⟩ none none (some (handled ⟨"Stat", []⟩ none none none)))

end Sample

/-! ## The replay driver: text and numbers

The functions of `src/XrdApps/XrdClRecordPlugin/XrdClReplay.cc`. The trace is
given as the list of its lines; a `File*` is identified with the file id it was
created for. Unsigned 64-bit arithmetic is arithmetic modulo `2 ^ 64`. -/

namespace Utils

/-- Cutting a list of characters at every delimiter, `cur` being the piece read
so far, in reverse; pieces of length zero are not stored. -/
def splitChars (delimiter : Char) : List Char → List Char → List (List Char)
  | [], cur => if cur.isEmpty then [] else [cur.reverse]
  | c :: cs, cur =>
    if c = delimiter then
      if cur.isEmpty then splitChars delimiter cs []
      else cur.reverse :: splitChars delimiter cs []
    else splitChars delimiter cs (c :: cur)

/-- Modelled from the spec: the helper `Utils::splitString` of `XrdClUtils.hh` is
not part of the sources at hand. It cuts the input at every occurrence of the
delimiter, here always one character, into the fields between them; pieces of
length zero are not stored, so a line that ends in a delimiter has no last
field (the missing seventh field of a trace line). -/
def splitString (input : String) (delimiter : Char) : List String :=
  (splitChars delimiter input.toList []).map String.mk

end Utils

/-- The white space `strtoull` skips: space, tab, line feed, vertical tab, form
feed, carriage return. -/
def isspace (c : Char) : Bool :=
  c = ' ' || c = Char.ofNat 9 || c = Char.ofNat 10 || c = Char.ofNat 11 ||
    c = Char.ofNat 12 || c = Char.ofNat 13

/-- The value of a sequence of decimal digits. -/
def digitsValue (ds : List Char) : Nat :=
  ds.foldl (fun a c => 10 * a + (c.toNat - 48)) 0

/-- The conversion behind `std::stoull( str )` and `std::stoul( str )` (base 10,
`unsigned long` being 64 bits wide): white space is skipped, a sign is
accepted, the longest run of digits is converted and what follows is ignored.
Without a digit the function throws `std::invalid_argument`, with a value of
`2 ^ 64` or more `std::out_of_range`; the value after a minus sign is negated
modulo `2 ^ 64`. -/
def strtoull (name : String) (str : String) : Except Exception Nat :=
  let cs := str.toList.dropWhile isspace
  let signed : Bool × List Char :=
    match cs with
    | '-' :: r => (true, r)
    | '+' :: r => (false, r)
    | r => (false, r)
  let digits := signed.2.takeWhile Char.isDigit
  if digits.isEmpty then .error (.invalid_argument name)
  else if 2 ^ 64 ≤ digitsValue digits then .error (.out_of_range name)
  else .ok (if signed.1 then (2 ^ 64 - digitsValue digits) % 2 ^ 64 else digitsValue digits)

/-- The function `std::stoull`. -/
def stoull (str : String) : Except Exception Nat := strtoull "stoull" str

/-- The function `std::stoul`. -/
def stoul (str : String) : Except Exception Nat := strtoull "stoul" str

/-- The conversion `static_cast<uint16_t>`. -/
def toUInt16 (v : Nat) : Nat := v % 2 ^ 16

/-- The conversion to `uint32_t`. -/
def toUInt32 (v : Nat) : Nat := v % 2 ^ 32

/-- Modelled from the spec: the types `OpenFlags::Flags` and `Access::Mode` are
declared outside the sources at hand; the spec calls both `uint`, and the
conversion to them keeps the low 32 bits. -/
def toFlags (v : Nat) : Nat := v % 2 ^ 32

/-! ## The replay driver: statistics -/

/-- The class `ActionStatistics`: the two maps from an action name to the
cumulated duration and the number of samples (no entry: `none`). -/
structure ActionStatistics where
  orgstats : String → Option (Nat × Nat)
  actstats : String → Option (Nat × Nat)

namespace ActionStatistics

/-- The registry before the first update. -/
def empty : ActionStatistics := ⟨fun _ => none, fun _ => none⟩

/-- The statements `auto &tpl = map[action]; std::get<0>( tpl ) += duration;
++std::get<1>( tpl );` on one of the maps. -/
def bump (map : String → Option (Nat × Nat)) (action : String) (duration : Nat) :
    String → Option (Nat × Nat) :=
  Function.update map action
    (some ((((map action).getD (0, 0)).1 + duration) % 2 ^ 64,
      (((map action).getD (0, 0)).2 + 1) % 2 ^ 64))

/-- The method `UpdateOrg`. -/
def UpdateOrg (this : ActionStatistics) (action : String) (duration : Nat) :
    ActionStatistics :=
  { this with orgstats := bump this.orgstats action duration }

/-- The method `UpdateAct`. -/
def UpdateAct (this : ActionStatistics) (action : String) (duration : Nat) :
    ActionStatistics :=
  { this with actstats := bump this.actstats action duration }

end ActionStatistics

/-! ## The replay driver: parsing the trace -/

/-- The class `ActionExecutor`: the members its constructor stores. -/
structure ActionExecutor where
  file : Nat
  action : String
  args : String
  orgststr : String
  orgstart : Nat
  orgstop : Nat

/-- The constructor of `ActionExecutor`; the response is not stored. -/
def ActionExecutor.create (file : Nat) (action args orgststr _resp : String)
    (start stop : Nat) : ActionExecutor :=
  ⟨file, action, args, orgststr, start, stop⟩

/-- The type `action_list`, a `std::multimap` from the start time to the action:
its elements in iteration order. -/
abbrev action_list := List (Nat × ActionExecutor)

/-- The method `emplace` of a `std::multimap`: the new element goes behind the
elements whose key is not greater. -/
def emplace (l : action_list) (start : Nat) (a : ActionExecutor) : action_list :=
  match l with
  | [] => [(start, a)]
  | (k, b) :: r => if start < k then (start, a) :: (k, b) :: r else (k, b) :: emplace r start a

/-- The local variables of the loop of `ParseInput` for one line. -/
structure Row where
  id : Nat
  action : String
  start : Nat
  args : String
  stop : Nat
  status : String
  resp : String

/-- The tokens of a line: `splitString` on the comma, and an empty seventh token
when there are six. -/
def ParseInput.tokens (line : String) : List String :=
  if (Utils.splitString line ',').length = 6 then Utils.splitString line ',' ++ [""]
  else Utils.splitString line ','

/-- The body of the loop of `ParseInput` from the tokens to the local variables:
the test of the number of tokens and the conversion of file id, start and
stop. -/
def ParseInput.fields : List String → Except Exception Row
  | [t0, t1, t2, t3, t4, t5, t6] => do
    let id ← stoull t0
    let start ← stoull t2
    let stop ← stoull t4
    pure ⟨id, t1, start, t3, stop, t5, t6⟩
  | _ => .error (.invalid_argument "Invalid input file format.")

/-- The body of the loop of `ParseInput` for one line, up to the local variables. -/
def ParseInput.line (line : String) : Except Exception Row :=
  ParseInput.fields (ParseInput.tokens line)

/-- The statement `result[files[id]].emplace( start, ActionExecutor( ... ) )`, the
file being created when the id is new. -/
def ParseInput.add (result : List (Nat × action_list)) (file start : Nat)
    (a : ActionExecutor) : List (Nat × action_list) :=
  match result with
  | [] => [(file, emplace [] start a)]
  | (f, l) :: r =>
    if f = file then (f, emplace l start a) :: r else (f, l) :: ParseInput.add r file start a

/-- The end of the loop body of `ParseInput`: the entry of the row is added to the
stream of its file. -/
def ParseInput.store (result : List (Nat × action_list)) (row : Row) :
    List (Nat × action_list) :=
  ParseInput.add result row.id row.start
    (ActionExecutor.create row.id row.action row.args row.status row.resp row.start row.stop)

/-- The duration `stop - start` of a row, in unsigned 64-bit arithmetic. -/
def Row.duration (row : Row) : Nat :=
  (row.stop + 2 ^ 64 - row.start) % 2 ^ 64

/-- The loop of `ParseInput` over the lines that are left, with the registry and
the result so far. Returns the result or the exception, and the registry. -/
def ParseInput.loop : List String → ActionStatistics → List (Nat × action_list) →
    Except Exception (List (Nat × action_list)) × ActionStatistics
  | [], stats, result => (.ok result, stats)
  | line :: rest, stats, result =>
    if line.isEmpty then ParseInput.loop rest stats result
    else
      match ParseInput.line line with
      | .error e => (.error e, stats)
      | .ok row =>
        ParseInput.loop rest (stats.UpdateOrg row.action row.duration)
          (ParseInput.store result row)

/-- The function `ParseInput` on the lines of the input file, with the registry
before the call. -/
def ParseInput (lines : List String) (stats : ActionStatistics) :
    Except Exception (List (Nat × action_list)) × ActionStatistics :=
  ParseInput.loop lines stats []

/-- The rows of a trace: the local variables of the loop for every line that is
not empty, when every such line is accepted. -/
def ParseInput.rows : List String → Except Exception (List Row)
  | [] => .ok []
  | line :: rest =>
    if line.isEmpty then ParseInput.rows rest
    else
      match ParseInput.line line with
      | .error e => .error e
      | .ok row =>
        match ParseInput.rows rest with
        | .error e => .error e
        | .ok rows => .ok (row :: rows)

/-- The entry of the multimap a row is stored as. -/
def Row.entry (row : Row) : Nat × ActionExecutor :=
  (row.start,
    ActionExecutor.create row.id row.action row.args row.status row.resp row.start row.stop)

/-- The stream of a file in the result of `ParseInput`, empty when the file has
none. -/
def streamOf : List (Nat × action_list) → Nat → action_list
  | [], _ => []
  | (f, l) :: r, file => if f = file then l else streamOf r file

/-! ## The replay driver: arguments and execution -/

/-- An element of a `ChunkList`: offset, length and the buffer. -/
structure ChunkInfo where
  offset : Nat
  length : Nat
  buffer : List Char

/-- The operation `Execute` submits to the I/O client, with its typed arguments. -/
inductive Call where
  | Open (url : String) (flags mode timeout : Nat)
  | Close (timeout : Nat)
  | Stat (force : Bool) (timeout : Nat)
  | Read (offset : Nat) (buffer : List Char) (timeout : Nat)
  | PgRead (offset : Nat) (buffer : List Char) (timeout : Nat)
  | Write (offset : Nat) (buffer : List Char) (timeout : Nat)
  | PgWrite (offset : Nat) (buffer : List Char) (timeout : Nat)
  | Sync (timeout : Nat)
  | Truncate (size timeout : Nat)
  | VectorRead (chunks : List ChunkInfo) (timeout : Nat)
  | VectorWrite (chunks : List ChunkInfo) (timeout : Nat)

namespace ActionExecutor

/-- The method `GetOpenArgs`. -/
def GetOpenArgs (this : ActionExecutor) : Except Exception (String × Nat × Nat × Nat) :=
  match Utils.splitString this.args ';' with
  | [t0, t1, t2, t3] => do
    let flags ← stoul t1
    let mode ← stoul t2
    let timeout ← stoul t3
    pure (t0, toFlags flags, toFlags mode, toUInt16 timeout)
  | _ => .error (.invalid_argument "Failed to parse open arguments.")

/-- The method `GetCloseArgs`. -/
def GetCloseArgs (this : ActionExecutor) : Except Exception Nat := do
  let timeout ← stoul this.args
  pure (toUInt16 timeout)

/-- The method `GetStatArgs`. -/
def GetStatArgs (this : ActionExecutor) : Except Exception (Bool × Nat) :=
  match Utils.splitString this.args ';' with
  | [t0, t1] => do
    let timeout ← stoul t1
    pure (t0 == "true", toUInt16 timeout)
  | _ => .error (.invalid_argument "Failed to parse stat arguments.")

/-- The method `GetReadArgs`; the buffer has the given length and is filled with
the character `A`. -/
def GetReadArgs (this : ActionExecutor) : Except Exception (Nat × List Char × Nat) :=
  match Utils.splitString this.args ';' with
  | [t0, t1, t2] => do
    let offset ← stoull t0
    let length ← stoul t1
    let timeout ← stoul t2
    pure (offset, List.replicate (toUInt32 length) 'A', toUInt16 timeout)
  | _ => .error (.invalid_argument "Failed to parse read arguments.")

/-- The method `GetPgReadArgs`. -/
def GetPgReadArgs (this : ActionExecutor) : Except Exception (Nat × List Char × Nat) :=
  this.GetReadArgs

/-- The method `GetWriteArgs`. -/
def GetWriteArgs (this : ActionExecutor) : Except Exception (Nat × List Char × Nat) :=
  this.GetReadArgs

/-- The method `GetPgWriteArgs`. -/
def GetPgWriteArgs (this : ActionExecutor) : Except Exception (Nat × List Char × Nat) :=
  this.GetReadArgs

/-- The method `GetSyncArgs`. -/
def GetSyncArgs (this : ActionExecutor) : Except Exception Nat := do
  let timeout ← stoul this.args
  pure (toUInt16 timeout)

/-- The method `GetTruncateArgs`. -/
def GetTruncateArgs (this : ActionExecutor) : Except Exception (Nat × Nat) :=
  match Utils.splitString this.args ';' with
  | [t0, t1] => do
    let size ← stoull t0
    let timeout ← stoul t1
    pure (size, toUInt16 timeout)
  | _ => .error (.invalid_argument "Failed to parse truncate arguments.")

/-- The loop of `GetVectorReadArgs` over the tokens from index `i` on: it goes on
while `i < tokens.size() - 1`, that is while two tokens or more are left. -/
def chunkLoop : List String → Except Exception (List ChunkInfo)
  | t0 :: t1 :: rest => do
    let offset ← stoull t0
    let length ← stoul t1
    let chunks ← chunkLoop rest
    pure (⟨offset, toUInt32 length, List.replicate (toUInt32 length) 'A'⟩ :: chunks)
  | _ => .ok []

/-- The method `GetVectorReadArgs`. Without any token `tokens.size() - 1` wraps
around and the loop reads behind the end of the vector; this is reported as
`std::out_of_range` with the text `undefined`. -/
def GetVectorReadArgs (this : ActionExecutor) : Except Exception (List ChunkInfo × Nat) :=
  match Utils.splitString this.args ';' with
  | [] => .error (.out_of_range "undefined")
  | tokens => do
    let chunks ← chunkLoop tokens
    let timeout ← stoul (tokens.getLast?.getD "")
    pure (chunks, toUInt16 timeout)

/-- The method `GetVectorWriteArgs`. -/
def GetVectorWriteArgs (this : ActionExecutor) : Except Exception (List ChunkInfo × Nat) :=
  this.GetVectorReadArgs

/-- The method `Execute` up to the submission: the arguments are parsed and the
operation of the action is submitted; for an unknown action nothing is
submitted (`none`). An exception of the argument parser escapes. -/
def Execute (this : ActionExecutor) : Except Exception (Option Call) :=
  if this.action = "Open" then do
    let r ← this.GetOpenArgs
    pure (some (Call.Open r.1 r.2.1 r.2.2.1 r.2.2.2))
  else if this.action = "Close" then do
    let timeout ← this.GetCloseArgs
    pure (some (Call.Close timeout))
  else if this.action = "Stat" then do
    let r ← this.GetStatArgs
    pure (some (Call.Stat r.1 r.2))
  else if this.action = "Read" then do
    let r ← this.GetReadArgs
    pure (some (Call.Read r.1 r.2.1 r.2.2))
  else if this.action = "PgRead" then do
    let r ← this.GetPgReadArgs
    pure (some (Call.PgRead r.1 r.2.1 r.2.2))
  else if this.action = "Write" then do
    let r ← this.GetWriteArgs
    pure (some (Call.Write r.1 r.2.1 r.2.2))
  else if this.action = "PgWrite" then do
    let r ← this.GetPgWriteArgs
    pure (some (Call.PgWrite r.1 r.2.1 r.2.2))
  else if this.action = "Sync" then do
    let timeout ← this.GetSyncArgs
    pure (some (Call.Sync timeout))
  else if this.action = "Truncate" then do
    let r ← this.GetTruncateArgs
    pure (some (Call.Truncate r.1 r.2))
  else if this.action = "VectorRead" then do
    let r ← this.GetVectorReadArgs
    pure (some (Call.VectorRead r.1 r.2))
  else if this.action = "VectorWrite" then do
    let r ← this.GetVectorWriteArgs
    pure (some (Call.VectorWrite r.1 r.2))
  else pure none

end ActionExecutor

/-- The operations the worker of `ExecuteActions` submits for its stream, in
order, and the exception that escapes from `Execute` and ends the worker, if
there is one. -/
def ExecuteActions.calls : action_list → List Call × Option Exception
  | [] => ([], none)
  | (_, a) :: rest =>
    match a.Execute with
    | .error e => ([], some e)
    | .ok c => (c.toList ++ (ExecuteActions.calls rest).1, (ExecuteActions.calls rest).2)

/-- How the program ends: `main` returns a code, or `std::terminate` is called for
an exception nobody catches. -/
inductive ExitStatus where
  | returned (code : Nat)
  | terminate
  deriving DecidableEq, Repr

/-- The function `main` for `argc` arguments and the lines of the file named by
`argv[1]`: how the program ends, and per file the operations submitted. An
exception in a worker thread is caught by nobody. -/
def main (argc : Nat) (input : List String) (stats : ActionStatistics) :
    ExitStatus × List (Nat × List Call) :=
  if argc ≠ 2 then (ExitStatus.returned 1, [])
  else
    match (ParseInput input stats).1 with
    | .error (.invalid_argument _) => (ExitStatus.returned 1, [])
    | .error _ => (ExitStatus.terminate, [])
    | .ok actions =>
      (if actions.all (fun fa => (ExecuteActions.calls fa.2).2.isNone)
        then ExitStatus.returned 0 else ExitStatus.terminate,
        actions.map (fun fa => (fa.1, (ExecuteActions.calls fa.2).1)))

/-- A token is the decimal numeral of `v`, below `bound`: digits only, at least
one. -/
def decimal (token : String) (bound v : Nat) : Prop :=
  token.toList ≠ [] ∧ (∀ c ∈ token.toList, c.isDigit = true) ∧
    digitsValue token.toList = v ∧ v < bound

namespace Sample

/-- The trace of scenario S1. -/
def s1 : List String :=
  ["1,Open,100,srv://h/a;0;0;10,100,\"[SUCCESS] \",",
   "1,Close,101,10,101,\"[SUCCESS] \","]

/-- Two reads that each last `2 ^ 63` seconds. -/
def longReads : List String :=
  ["1,Read,0,0;16;10,9223372036854775808,ok",
   "1,Read,0,0;16;10,9223372036854775808,ok"]

/-- A trace whose second action has one argument too few. -/
def badRead : List String :=
  ["1,Open,100,srv://h/a;0;0;10,100,ok",
   "1,Read,101,0;16,101,ok"]

/-- A trace of two files with equal start times on file 1. -/
def twoFiles : List String :=
  ["1,Read,7,0;16;10,8,ok",
   "2,Read,5,0;16;10,6,ok",
   "1,Write,3,0;16;10,4,ok",
   "1,Sync,7,10,9,ok"]

end Sample

/-! ## The replay driver: the status of a response -/

/-- The function `HandleStatus`: the warnings it writes to the log. The string
form `rspstr` of the response, `response.ToString()`, is made outside these
sources and is passed in; the test of the source is `rspstr == orgstr`. -/
def ActionExecutor.HandleStatus (rspstr orgstr : String) : List String :=
  if rspstr = orgstr then
    ["We were expecting status: " ++ orgstr ++ ", but received: " ++ rspstr]
  else []

/-- The tokens of an argument string of `VectorRead` or `VectorWrite`: the
offset and the length of every chunk, then the timeout. -/
def chunkTokens : List (String × String) → String → List String
  | [], timeout => [timeout]
  | (offset, length) :: rest, timeout => offset :: length :: chunkTokens rest timeout
/-! ## The default `readv` and `writev` of `XrdSfsFile`

The types `XrdSfsXferSize` and `XrdSfsFileOffset`, the structure `XrdOucIOVec`,
the class `XrdOucErrInfo` and the constants `SFS_ERROR` and `ESPIPE` are
declared outside these sources. Sizes and offsets are integers here, the two
constants are parameters. The elementary `read` and `write` are pure virtual:
they are a function of the state `σ` of the file. -/

/-- Modelled from the spec: an element of the request array, `offset` and `size`
(the buffer `data` is left out). -/
structure XrdOucIOVec where
  offset : Int
  size : Int
  deriving DecidableEq, Repr

/-- Modelled from the spec: what `setErrInfo` leaves in the error object, the code
and the text. -/
structure XrdOucErrInfo where
  code : Int
  text : String
  deriving DecidableEq, Repr

namespace XrdSfsFile

/-- The loop of the default `readv` and `writev` over the requests not yet done:
`xfer` is the elementary `read` or `write`, `totbytes` the bytes counted so far,
`text` the text of the error. The result is the returned value, the state of the
file and the error object. -/
def xferLoop {σ : Type} (xfer : σ → Int → Int → Int × σ) (SFS_ERROR ESPIPE : Int)
    (text : String) : List XrdOucIOVec → σ → XrdOucErrInfo → Int → Int × σ × XrdOucErrInfo
  | [], s, error, totbytes => (totbytes, s, error)
  | v :: rest, s, error, totbytes =>
    let r := xfer s v.offset v.size
    if r.1 ≠ v.size then
      if r.1 < 0 then (r.1, r.2, error)
      else (SFS_ERROR, r.2, ⟨ESPIPE, text⟩)
    else xferLoop xfer SFS_ERROR ESPIPE text rest r.2 error (totbytes + r.1)

/-- The default `readv`: the first `rdvCnt` elements of `readV` are read in
order. -/
def readv {σ : Type} (read : σ → Int → Int → Int × σ) (SFS_ERROR ESPIPE : Int)
    (readV : List XrdOucIOVec) (rdvCnt : Int) (s : σ) (error : XrdOucErrInfo) :
    Int × σ × XrdOucErrInfo :=
  xferLoop read SFS_ERROR ESPIPE "read past eof" (readV.take rdvCnt.toNat) s error 0

/-- The default `writev`. -/
def writev {σ : Type} (write : σ → Int → Int → Int × σ) (SFS_ERROR ESPIPE : Int)
    (writeV : List XrdOucIOVec) (wdvCnt : Int) (s : σ) (error : XrdOucErrInfo) :
    Int × σ × XrdOucErrInfo :=
  xferLoop write SFS_ERROR ESPIPE "write past eof" (writeV.take wdvCnt.toNat) s error 0

end XrdSfsFile

/-- Every request of the list, done in order from the state `s`, transfers
exactly the size asked for. -/
def allExact {σ : Type} (xfer : σ → Int → Int → Int × σ) : σ → List XrdOucIOVec → Prop
  | _, [] => True
  | s, v :: rest => (xfer s v.offset v.size).1 = v.size ∧
      allExact xfer (xfer s v.offset v.size).2 rest

/-- The state of the file after the requests of the list were done once each,
in order. -/
def stateAfter {σ : Type} (xfer : σ → Int → Int → Int × σ) : σ → List XrdOucIOVec → σ
  | s, [] => s
  | s, v :: rest => stateAfter xfer (xfer s v.offset v.size).2 rest

namespace Sample

/-- A file of 100 bytes: a read gives the bytes up to the end of the file, a
negative size is an error; the state is the list of the requests seen. -/
def hundred (seen : List XrdOucIOVec) (offset size : Int) : Int × List XrdOucIOVec :=
  (if size < 0 then -5 else if offset + size ≤ 100 then size else max 0 (100 - offset),
    seen ++ [⟨offset, size⟩])

end Sample
/-! ## The url of `XrdClientUrlInfo`

The class `XrdClientString` and the constant `STR_NPOS` are declared outside
these sources. -/

namespace XrdClientString

/-- The search of `Find` in the characters from position `i` on. -/
def findIn (str : List Char) : List Char → Nat → Option Nat
  | [], _ => none
  | c :: cs, i => if str.isPrefixOf (c :: cs) then some i else findIn str cs (i + 1)

/-- Modelled from the spec: `Find( str, start )` is the position of the first
occurrence of `str` at or behind `start`; `none` stands for `STR_NPOS`, no
occurrence. -/
def Find (s str : String) (start : Nat) : Option Nat :=
  findIn str.toList (s.toList.drop start) start

/-- Modelled from the spec: `GetSize()` is the number of characters. -/
def GetSize (s : String) : Int := s.length

end XrdClientString

/-- Modelled from the spec: what `TakeUrl` uses and these sources do not define.
`Substr s start stop` is `XrdClientString::Substr( start, stop )`, `STR_NPOS` the
default of `stop`, and `strtol s` the value `strtol( s, 0, 10 )` as an `int`. -/
structure StringOps where
  STR_NPOS : Int
  Substr : String → Int → Int → String
  strtol : String → Int

/-- The members of `XrdClientUrlInfo`. -/
structure XrdClientUrlInfo where
  Proto : String
  Passwd : String
  User : String
  Host : String
  Port : Int
  HostAddr : String
  HostWPort : String
  File : String
  Url : String
  deriving DecidableEq, Repr

namespace XrdClientUrlInfo

/-- The method `Clear`: the defaults. -/
def Clear (_this : XrdClientUrlInfo) : XrdClientUrlInfo :=
  { Proto := "", User := "", Passwd := "", Host := "", HostWPort := "", HostAddr := "",
    Port := -1, File := "/", Url := "" }

/-- The last part of `TakeUrl`, which resolves user, password, host and port from
`HostWPort`. The variable `left` is written there and never read again. -/
def TakeUrl.hostPart (ops : StringOps) (this : XrdClientUrlInfo) : XrdClientUrlInfo :=
  let hwp := this.HostWPort
  let r : XrdClientUrlInfo × Nat :=
    match XrdClientString.Find hwp "@" 0 with
    | some p2 =>
      match XrdClientString.Find hwp ":" 0 with
      | some p3 =>
        if p3 < p2 then
          ({ this with User := ops.Substr hwp 0 p3, Passwd := ops.Substr hwp (p3 + 1) p2 },
            p2 + 1)
        else ({ this with User := ops.Substr hwp 0 p2 }, p2 + 1)
      | none => ({ this with User := ops.Substr hwp 0 p2 }, p2 + 1)
    | none => (this, 0)
  match XrdClientString.Find hwp ":" r.2 with
  | some p2 =>
    { r.1 with Host := ops.Substr hwp r.2 p2, Port := ops.strtol (hwp.drop (p2 + 1)) }
  | none => { r.1 with Host := ops.Substr hwp r.2 ops.STR_NPOS, Port := 0 }

/-- The method `TakeUrl`. -/
def TakeUrl (ops : StringOps) (this : XrdClientUrlInfo) (u : String) : XrdClientUrlInfo :=
  let this := this.Clear
  if XrdClientString.GetSize u ≤ 0 then this
  else
    let this := { this with Url := u }
    -- the protocol: `this`, `p1`, `left`
    let a : XrdClientUrlInfo × Nat × Int :=
      match XrdClientString.Find u "://" 0 with
      | some p2 =>
        ({ this with Proto := ops.Substr u 0 ((p2 : Int) - 1) }, p2 + 3,
          XrdClientString.GetSize u - ((p2 + 3 : Nat) : Int))
      | none => (this, 0, XrdClientString.GetSize u)
    if a.2.2 ≤ 0 then a.1.Clear
    else
      -- the part `[user[:passwd]@]host:port`
      let b : XrdClientUrlInfo × Nat × Int :=
        match XrdClientString.Find u "/" a.2.1 with
        | some p2 =>
          ({ a.1 with HostWPort := ops.Substr u a.2.1 p2 }, p2 + 1,
            a.2.2 - ((p2 + 1 : Nat) : Int))
        | none => ({ a.1 with HostWPort := ops.Substr u a.2.1 ops.STR_NPOS }, a.2.1, 0)
      -- the path of the file
      let this := if b.2.2 > 0 then { b.1 with File := ops.Substr u b.2.1 ops.STR_NPOS } else b.1
      TakeUrl.hostPart ops this

end XrdClientUrlInfo

/-! ## The replay driver: the pace of a worker

The clock of the worker counts ticks, `hz` of them in a second. -/

/-- What the environment decides in one turn of the loop of the worker: `first`
is the recorded start `p.first` of the action, `elapsed` the ticks the call of
`Execute` takes, and `delay` the ticks the turn takes besides, by which the
sleep is longer than asked for. -/
structure Lap where
  first : Nat
  delay : Nat
  elapsed : Nat
  deriving DecidableEq, Repr

/-- The method `mytimer_t::elapsed` after `ticks` ticks: the whole seconds, as a
`uint64_t`. -/
def mytimer_t.elapsed (hz ticks : Nat) : Nat := (ticks / hz) % 2 ^ 64

/-- The loop of the worker of `ExecuteActions` from the values of `prevstop` and
of the clock: for every action the seconds of sleep asked for before it (0 when
`sleep_for` is not called) and the time at which `Execute` is called. -/
def ExecuteActions.pace (hz : Nat) : Nat → Nat → List Lap → List (Nat × Nat)
  | _, _, [] => []
  | prevstop, now, p :: rest =>
    let sleep := if p.first > prevstop then p.first - prevstop else 0
    let start := now + sleep * hz + p.delay
    let duration := mytimer_t.elapsed hz p.elapsed
    (sleep, start) ::
      ExecuteActions.pace hz ((p.first + duration) % 2 ^ 64) (start + p.elapsed) rest

/-- The lambda given to a submitted operation: the number of the submission, the
name it reports to `UpdateAct`, the recorded status, and whether its copies of
`ending` and of `closing` hold a barrier (the lambda of `Close` captures no
`closing`). -/
structure Callback where
  index : Nat
  action : String
  orgststr : String
  ending : Bool
  closing : Bool
  deriving DecidableEq, Repr

/-- What can be seen of a worker: a submission to the I/O client with the number
of callbacks that have not run yet, the run of a callback, a warning in the log,
the post of one of the two semaphores, and `file.reset()`. -/
inductive ReplayEvent where
  | submitted (index : Nat) (action : String) (call : Call) (outstanding : Nat)
  | completed (index : Nat)
  | warning (message : String)
  | postedEnding
  | postedClosing
  | released

/-- Where the thread of the worker is: before an element of the stream (or behind
the last one), in `WaitFor` of an `Open`, in `sem.Wait()` of a `Close`, in
`endsem.Wait()`, behind `file.reset()`, or ended by an exception. -/
inductive Worker where
  | loop (rest : action_list)
  | inOpen (index : Nat) (rest : action_list)
  | inClose (this : ActionExecutor) (call : Call) (rest : action_list)
  | atEnd
  | done
  | terminated (e : Exception)

/-- The state of a worker: its two pointers `ending` and `closing` (true while
they hold the barrier), the callbacks that have not run, the two semaphores, the
number of submissions, the statistics and the events so far. -/
structure Replay where
  worker : Worker
  ending : Bool
  closing : Bool
  callbacks : List Callback
  endsem : Nat
  closesem : Nat
  issued : Nat
  stats : ActionStatistics
  log : List ReplayEvent

/-- One turn: the worker goes on, or the callback of the submission `index` runs,
with the string form of the response and the duration `get_time() - start`. -/
inductive Tick where
  | worker
  | callback (index : Nat) (rspstr : String) (duration : Nat)

namespace Replay

/-- The use count of the barrier `ending`. -/
def endingCount (s : Replay) : Nat :=
  (if s.ending then 1 else 0) + s.callbacks.countP (·.ending)

/-- The use count of the barrier `closing`. -/
def closingCount (s : Replay) : Nat :=
  (if s.closing then 1 else 0) + s.callbacks.countP (·.closing)

/-- The end of `ending.reset()`, in the state without the pointer: when the pointer
held the barrier and no other one does, `~barrier_t` posts `endsem`. -/
def dropEnding (s : Replay) (held : Bool) : Replay :=
  if held = true ∧ s.endingCount = 0 then
    { s with endsem := s.endsem + 1, log := s.log ++ [ReplayEvent.postedEnding] }
  else s

/-- The end of `closing.reset()`, in the same way. -/
def dropClosing (s : Replay) (held : Bool) : Replay :=
  if held = true ∧ s.closingCount = 0 then
    { s with closesem := s.closesem + 1, log := s.log ++ [ReplayEvent.postedClosing] }
  else s

/-- The call `Async( operation >> lambda )`: the operation is submitted, and the
lambda holds copies of the pointer `ending` of the worker and of `closing`. -/
def Async (s : Replay) (this : ActionExecutor) (call : Call) (closing : Bool) : Replay :=
  { s with
    callbacks := s.callbacks ++ [⟨s.issued, this.action, this.orgststr, s.ending, closing⟩],
    issued := s.issued + 1,
    log := s.log ++ [ReplayEvent.submitted s.issued this.action call s.callbacks.length] }

end Replay

/-- The method `Execute` with the two barriers, up to its return or to the place
where it waits; `rest` is what the worker has to do after it. The arguments are
parsed first. An `Open` is run with `WaitFor`; a `Close` resets the pointer
`closing` of the worker, when it holds the barrier, and waits for `closesem`
before it submits; an unknown action writes a warning. -/
def ActionExecutor.Execute.start (this : ActionExecutor) (rest : action_list) (s : Replay) :
    Replay :=
  match this.Execute with
  | .error e => { s with worker := Worker.terminated e }
  | .ok none =>
    { s with worker := Worker.loop rest,
             log := s.log ++ [ReplayEvent.warning ("Cannot replyt " ++ this.action ++ " action.")] }
  | .ok (some call) =>
    if this.action = "Open" then
      { s.Async this call s.closing with worker := Worker.inOpen s.issued rest }
    else if this.action = "Close" then
      if s.closing = true then
        { ({ s with closing := false }).dropClosing true with
          worker := Worker.inClose this call rest }
      else { s.Async this call false with worker := Worker.loop rest }
    else { s.Async this call s.closing with worker := Worker.loop rest }

/-- The callback of a submitted action: `UpdateAct`, `HandleStatus`,
`ending.reset()` and `closing.reset()`; the lambda is gone after it. -/
def Callback.run (cb : Callback) (rspstr : String) (duration : Nat) (s : Replay) : Replay :=
  let s1 : Replay :=
    { s with callbacks := s.callbacks.erase cb,
             stats := s.stats.UpdateAct cb.action duration,
             log := s.log ++ [ReplayEvent.completed cb.index] ++
               (ActionExecutor.HandleStatus rspstr cb.orgststr).map ReplayEvent.warning }
  (s1.dropEnding cb.ending).dropClosing cb.closing

/-- One turn of the worker of `ExecuteActions` and of the callbacks of its
actions. A turn that cannot be taken (a wait that has to go on, a callback that
is not there) leaves the state as it is; nothing runs after `std::terminate`. -/
def ExecuteActions.step (s : Replay) : Tick → Replay
  | Tick.worker =>
    match s.worker with
    | Worker.loop [] =>
      let s1 := ({ s with ending := false }).dropEnding s.ending
      let s2 := ({ s1 with closing := false }).dropClosing s1.closing
      { s2 with worker := Worker.atEnd }
    | Worker.loop ((_, a) :: rest) => ActionExecutor.Execute.start a rest s
    | Worker.inOpen i rest =>
      if s.callbacks.any (fun c => c.index == i) then s
      else { s with worker := Worker.loop rest }
    | Worker.inClose a call rest =>
      if s.closesem = 0 then s
      else { ({ s with closesem := s.closesem - 1 }).Async a call false with
             worker := Worker.loop rest }
    | Worker.atEnd =>
      if s.endsem = 0 then s
      else { s with endsem := s.endsem - 1, worker := Worker.done,
                    log := s.log ++ [ReplayEvent.released] }
    | Worker.done => s
    | Worker.terminated _ => s
  | Tick.callback i rspstr duration =>
    match s.worker with
    | Worker.terminated _ => s
    | _ =>
      match s.callbacks.find? (fun c => c.index == i) with
      | none => s
      | some cb => cb.run rspstr duration s

/-- The worker at its start: both barriers made, nothing submitted. -/
def ExecuteActions.init (actions : action_list) (stats : ActionStatistics) : Replay :=
  { worker := Worker.loop actions, ending := true, closing := true, callbacks := [],
    endsem := 0, closesem := 0, issued := 0, stats := stats, log := [] }

/-- The state of the worker after the turns `ticks`. -/
def ExecuteActions.run (actions : action_list) (stats : ActionStatistics)
    (ticks : List Tick) : Replay :=
  ticks.foldl ExecuteActions.step (ExecuteActions.init actions stats)

/-- The number of outstanding callbacks at the first submission of a `Close`. -/
def firstClose : List ReplayEvent → Option Nat
  | [] => none
  | ReplayEvent.submitted _ a _ n :: rest => if a = "Close" then some n else firstClose rest
  | _ :: rest => firstClose rest

/-- The event is a post of the semaphore `endsem`. -/
def ReplayEvent.isPostedEnding : ReplayEvent → Bool
  | ReplayEvent.postedEnding => true
  | _ => false

/-- The event is `file.reset()`. -/
def ReplayEvent.isReleased : ReplayEvent → Bool
  | ReplayEvent.released => true
  | _ => false

/-- The thread of the worker has not left its loop. -/
def Worker.inLoop : Worker → Bool
  | Worker.atEnd => false
  | Worker.done => false
  | _ => true

/-- What holds of the barrier `closing` in every state of a worker. -/
structure InvC (s : Replay) : Prop where
  held : s.closing = true →
    (∀ cb ∈ s.callbacks, cb.closing = true) ∧ firstClose s.log = none ∧ s.closesem = 0
  waiting : ∀ a c r, s.worker = Worker.inClose a c r →
    a.action = "Close" ∧ s.closing = false ∧ (∀ cb ∈ s.callbacks, cb.closing = true) ∧
      firstClose s.log = none ∧ (s.closesem ≠ 0 → s.callbacks = []) ∧
      (s.callbacks = [] → s.closesem ≠ 0)
  first : ∀ n, firstClose s.log = some n → n = 0
  seen : s.closing = false → s.worker.inLoop = true →
    (∀ a c r, s.worker ≠ Worker.inClose a c r) → firstClose s.log ≠ none

/-- The thread of the worker is behind `file.reset()`. -/
def Worker.isDone : Worker → Bool
  | Worker.done => true
  | _ => false

/-- In the log `file.reset()` comes behind the post of `endsem`. -/
def Ordered (log : List ReplayEvent) : Prop :=
  ∀ pre post, log = pre ++ ReplayEvent.released :: post → ReplayEvent.postedEnding ∈ pre

/-- What holds of the barrier `ending` in every state of a worker. -/
structure InvE (s : Replay) : Prop where
  captured : ∀ cb ∈ s.callbacks, cb.ending = true
  closeCb : ∀ cb ∈ s.callbacks, cb.action = "Close" → cb.closing = false
  holds : s.ending = s.worker.inLoop
  posted : s.log.countP ReplayEvent.isPostedEnding =
    if s.ending = false ∧ s.callbacks = [] then 1 else 0
  sem : s.endsem + (if s.worker.isDone = true then 1 else 0) =
    s.log.countP ReplayEvent.isPostedEnding
  answered : ∀ i a c n, ReplayEvent.submitted i a c n ∈ s.log →
    ReplayEvent.completed i ∈ s.log ∨ ∃ cb ∈ s.callbacks, cb.index = i
  order : Ordered s.log
  once : s.log.countP ReplayEvent.isReleased = if s.worker.isDone = true then 1 else 0

/-- The turns the thread of the worker takes at most from where it is, its own
callbacks not counted: three for every action of the stream that is left, and
what is left of the action at hand and of the end. -/
def Worker.weight : Worker → Nat
  | Worker.loop rest => 3 * rest.length + 2
  | Worker.inOpen _ rest => 3 * rest.length + 3
  | Worker.inClose _ _ rest => 3 * rest.length + 4
  | Worker.atEnd => 1
  | Worker.done => 0
  | Worker.terminated _ => 0

/-- A bound of the turns that change the state: those of the worker and one for
every callback that has not run. -/
def Replay.turnsLeft (s : Replay) : Nat := s.worker.weight + s.callbacks.length

/-- The actions the worker has not come to yet. -/
def Worker.rest : Worker → action_list
  | Worker.loop rest => rest
  | Worker.inOpen _ rest => rest
  | Worker.inClose _ _ rest => rest
  | _ => []

/-- The arguments of every action of the stream can be parsed. -/
def Parses (l : action_list) : Prop := ∀ p ∈ l, ∃ c, p.2.Execute = .ok c

/-- The worker has come to its end or was ended by an exception. -/
def Worker.final : Worker → Bool
  | Worker.done => true
  | Worker.terminated _ => true
  | _ => false

/-- No `Close` is submitted in the events. -/
def noClose (l : List ReplayEvent) : Prop :=
  ∀ j c m, ReplayEvent.submitted j "Close" c m ∉ l

/-- At the first submission of a `Close` in the log the callback of every action
submitted before it has run. -/
def Waited (log : List ReplayEvent) : Prop :=
  ∀ pre post i c n, log = pre ++ ReplayEvent.submitted i "Close" c n :: post → noClose pre →
    ∀ j a c1 m, ReplayEvent.submitted j a c1 m ∈ pre → ReplayEvent.completed j ∈ pre

namespace Sample

/-- A `Read` of file 1 recorded at the time `t`. -/
def readAt (t : Nat) : Nat × ActionExecutor := (t, ⟨1, "Read", "0;16;10", "ok", t, t⟩)

/-- A `Close` of file 1 recorded at the time `t`. -/
def closeAt (t : Nat) : Nat × ActionExecutor := (t, ⟨1, "Close", "10", "ok", t, t⟩)

/-- An `Open` of file 1 recorded at the time `t`. -/
def openAt (t : Nat) : Nat × ActionExecutor :=
  (t, ⟨1, "Open", "srv://h/a;0;0;10", "ok", t, t⟩)

/-- An action of a kind the replay does not know. -/
def fsyncAt (t : Nat) : Nat × ActionExecutor := (t, ⟨1, "Fsync", "10", "ok", t, t⟩)

end Sample

/-! ## One submission -/

/-- The handler never ends by waiting for a callback. -/
theorem HandleResponseImpl_ne_await (w : World) (n : Nat) (cur : Operation)
    (h : PipelineHandler) (st : XRootDStatus) (h1 : PipelineHandler) (c1 : Operation) :
    (h.HandleResponseImpl w n cur st).2 ≠ Next.await h1 c1 := by
  cases h with
  | mk rh nx t p f r =>
    simp only [PipelineHandler.HandleResponseImpl]
    repeat (first | split | simp)

/-- A submission is the call of `RunImpl` followed by the handler, invoked with the
delivered status. -/
theorem submit_eq (w : World) (n : Nat) (opr : Operation) (h : PipelineHandler)
    (T p : Nat) (f : Option Nat) (hop : opr.handler = some h) :
    submit w n opr T p f =
      (Event.RunImpl opr.args T ::
          ((h.Assign T p f).HandleResponseImpl w n (opr.setHandler none)
            (delivered w n opr T)).1,
        ((h.Assign T p f).HandleResponseImpl w n (opr.setHandler none)
            (delivered w n opr T)).2) := by
  unfold submit Operation.Run delivered Operation.ForceHandler
  rw [hop]
  cases hr : w.RunImpl n opr.args opr.timeout T with
  | returned s =>
    by_cases hs : s.IsOK = true
    · simp [hs]
    · simp [hs]
      split
      · rename_i e h1 cur heq
        exact absurd (congrArg Prod.snd heq) (HandleResponseImpl_ne_await _ _ _ _ _ _ _)
      · rfl
  | operation_expired =>
    have : XRootDStatus.IsOK ⟨stError, errOperationExpired⟩ = false := by decide
    simp [this]
    split
    · rename_i e h1 cur heq
      exact absurd (congrArg Prod.snd heq) (HandleResponseImpl_ne_await _ _ _ _ _ _ _)
    · rfl

/-- The handler when the user handler throws `StopPipeline`. -/
theorem HandleResponseImpl_stop (w : World) (n : Nat) (cur : Operation) (h : PipelineHandler)
    (st stop : XRootDStatus) (rh : Nat) (hrh : h.responseHandler = some rh)
    (hsig : w.userHandler rh n st = Signal.StopPipeline stop) :
    h.HandleResponseImpl w n cur st =
      ([Event.HandleResponse st, Event.userHandler rh st] ++ callFinal h.final stop
        ++ [Event.set_value h.prms stop], Next.done) := by
  cases h with
  | mk rh0 nx t p f r =>
    simp only [PipelineHandler.responseHandler] at hrh
    subst hrh
    simp [PipelineHandler.HandleResponseImpl, hsig, PipelineHandler.final, PipelineHandler.prms]

/-- The handler when the user handler throws `RepeatOpeation`. -/
theorem HandleResponseImpl_repeat (w : World) (n : Nat) (cur : Operation) (h : PipelineHandler)
    (st : XRootDStatus) (rh : Nat) (hrh : h.responseHandler = some rh)
    (hsig : w.userHandler rh n st = Signal.RepeatOpeation) :
    h.HandleResponseImpl w n cur st =
      ([Event.HandleResponse st, Event.userHandler rh st],
        Next.Run (cur.setHandler (some h)) h.timeout h.prms h.final) := by
  cases h with
  | mk rh0 nx t p f r =>
    simp only [PipelineHandler.responseHandler] at hrh
    subst hrh
    simp [PipelineHandler.HandleResponseImpl, hsig, PipelineHandler.final, PipelineHandler.prms,
      PipelineHandler.timeout]

/-- The handler when the user handler is absent or returns, the status is not OK
and recovery is absent or throws. -/
theorem HandleResponseImpl_failed (w : World) (n : Nat) (cur : Operation) (h : PipelineHandler)
    (st : XRootDStatus)
    (hsig : ∀ rh, h.responseHandler = some rh → w.userHandler rh n st = Signal.returned)
    (hst : st.IsOK = false) (hrec : ∀ rcv, h.recovery = some rcv → rcv st = none) :
    h.HandleResponseImpl w n cur st =
      ([Event.HandleResponse st] ++ handlerCall h.responseHandler st
        ++ recoveryCall h.recovery st ++ callFinal h.final st
        ++ [Event.set_value h.prms st], Next.done) := by
  cases h with
  | mk rh nx t p f r =>
    simp only [PipelineHandler.responseHandler, PipelineHandler.recovery] at hsig hrec
    cases rh with
    | none =>
      cases r with
      | none => simp [PipelineHandler.HandleResponseImpl, hst, handlerCall, recoveryCall,
          PipelineHandler.final, PipelineHandler.prms, PipelineHandler.responseHandler,
          PipelineHandler.recovery]
      | some rcv => simp [PipelineHandler.HandleResponseImpl, hst, handlerCall, recoveryCall,
          PipelineHandler.final, PipelineHandler.prms, PipelineHandler.responseHandler,
          PipelineHandler.recovery, hrec rcv rfl]
    | some rh =>
      cases r with
      | none => simp [PipelineHandler.HandleResponseImpl, hst, handlerCall, recoveryCall,
          PipelineHandler.final, PipelineHandler.prms, PipelineHandler.responseHandler,
          PipelineHandler.recovery, hsig rh rfl]
      | some rcv => simp [PipelineHandler.HandleResponseImpl, hst, handlerCall, recoveryCall,
          PipelineHandler.final, PipelineHandler.prms, PipelineHandler.responseHandler,
          PipelineHandler.recovery, hrec rcv rfl, hsig rh rfl]

/-- The handler when the user handler is absent or returns, the status is not OK
and recovery returns an operation. -/
theorem HandleResponseImpl_recovered (w : World) (n : Nat) (cur : Operation)
    (h : PipelineHandler) (st : XRootDStatus) (rcv : rcvry_func) (op : Operation)
    (hsig : ∀ rh, h.responseHandler = some rh → w.userHandler rh n st = Signal.returned)
    (hst : st.IsOK = false) (hrec : h.recovery = some rcv) (hop : rcv st = some op) :
    h.HandleResponseImpl w n cur st =
      ([Event.HandleResponse st] ++ handlerCall h.responseHandler st ++ [Event.recovery st],
        Next.Run (op.AddOperation h.nextOperation) h.timeout h.prms h.final) := by
  cases h with
  | mk rh nx t p f r =>
    simp only [PipelineHandler.responseHandler, PipelineHandler.recovery] at hsig hrec
    subst hrec
    cases rh with
    | none => simp [PipelineHandler.HandleResponseImpl, hst, handlerCall,
          PipelineHandler.final, PipelineHandler.prms, PipelineHandler.responseHandler,
          PipelineHandler.timeout, PipelineHandler.nextOperation, hop]
    | some rh => simp [PipelineHandler.HandleResponseImpl, hst, handlerCall,
          PipelineHandler.final, PipelineHandler.prms, PipelineHandler.responseHandler,
          PipelineHandler.timeout, PipelineHandler.nextOperation, hop, hsig rh rfl]

/-- The handler when the user handler is absent or returns and the status is OK. -/
theorem HandleResponseImpl_ok (w : World) (n : Nat) (cur : Operation) (h : PipelineHandler)
    (st : XRootDStatus)
    (hsig : ∀ rh, h.responseHandler = some rh → w.userHandler rh n st = Signal.returned)
    (hst : st.IsOK = true) :
    h.HandleResponseImpl w n cur st =
      match h.nextOperation with
      | some opr =>
        ([Event.HandleResponse st] ++ handlerCall h.responseHandler st,
          Next.Run opr h.timeout h.prms h.final)
      | none =>
        ([Event.HandleResponse st] ++ handlerCall h.responseHandler st
          ++ callFinal h.final st ++ [Event.set_value h.prms st], Next.done) := by
  cases h with
  | mk rh nx t p f r =>
    simp only [PipelineHandler.responseHandler] at hsig
    cases rh with
    | none =>
      cases nx <;> simp [PipelineHandler.HandleResponseImpl, hst, handlerCall,
          PipelineHandler.final, PipelineHandler.prms, PipelineHandler.responseHandler,
          PipelineHandler.timeout, PipelineHandler.nextOperation]
    | some rh =>
      cases nx <;> simp [PipelineHandler.HandleResponseImpl, hst, handlerCall,
          PipelineHandler.final, PipelineHandler.prms, PipelineHandler.responseHandler,
          PipelineHandler.timeout, PipelineHandler.nextOperation, hsig rh rfl]

theorem Assign_fields (h : PipelineHandler) (T p : Nat) (f : Option Nat) :
    (h.Assign T p f).responseHandler = h.responseHandler ∧
    (h.Assign T p f).nextOperation = h.nextOperation ∧
    (h.Assign T p f).recovery = h.recovery ∧
    (h.Assign T p f).timeout = T ∧ (h.Assign T p f).prms = p ∧ (h.Assign T p f).final = f := by
  cases h; exact ⟨rfl, rfl, rfl, rfl, rfl, rfl⟩

/-! ## The run of a pipeline -/

theorem exec_succ (w : World) (fuel n : Nat) (opr : Operation) (T p : Nat) (f : Option Nat) :
    exec w (fuel + 1) n opr T p f =
      match submit w n opr T p f with
      | (e, Next.Run opr' timeout' prms' final') =>
        (e ++ (exec w fuel (n + 1) opr' timeout' prms' final').1,
          (exec w fuel (n + 1) opr' timeout' prms' final').2)
      | (e, Next.done) => (e, Outcome.finished)
      | (e, _) => (e, Outcome.aborted) := by
  rw [exec]

/-- A run that ends in its first submission. -/
theorem exec_of_done (w : World) (fuel n : Nat) (opr : Operation) (T p : Nat) (f : Option Nat)
    (e : List Event) (h : submit w n opr T p f = (e, Next.done)) :
    exec w (fuel + 1) n opr T p f = (e, Outcome.finished) := by
  rw [exec_succ, h]

/-- A run whose first submission schedules another operation. -/
theorem exec_of_run (w : World) (fuel n : Nat) (opr : Operation) (T p : Nat) (f : Option Nat)
    (e : List Event) (opr' : Operation) (T' p' : Nat) (f' : Option Nat)
    (h : submit w n opr T p f = (e, Next.Run opr' T' p' f')) :
    exec w (fuel + 1) n opr T p f =
      (e ++ (exec w fuel (n + 1) opr' T' p' f').1, (exec w fuel (n + 1) opr' T' p' f').2) := by
  rw [exec_succ, h]

/-- Running an operation whose handler already holds the pipeline data is running the
operation. -/
theorem Run_assigned (w : World) (n : Nat) (opr : Operation) (h : PipelineHandler)
    (T p : Nat) (f : Option Nat) (hop : opr.handler = some h) :
    (opr.setHandler (some (h.Assign T p f))).Run w n T p f = opr.Run w n T p f := by
  cases opr with
  | mk hh a r t h0 v =>
    cases h with
    | mk rh nx t0 p0 f0 r0 =>
      simp only [Operation.handler] at hop
      subst hop
      rfl

theorem exec_assigned (w : World) (fuel n : Nat) (opr : Operation) (h : PipelineHandler)
    (T p : Nat) (f : Option Nat) (hop : opr.handler = some h) :
    exec w fuel n (opr.setHandler (some (h.Assign T p f))) T p f = exec w fuel n opr T p f := by
  cases fuel with
  | zero => rfl
  | succ k =>
    rw [exec_succ, exec_succ]
    unfold submit
    rw [Run_assigned w n opr h T p f hop]

/-- A run whose first submission delivers a failure that is not recovered. -/
theorem exec_failed (w : World) (fuel n : Nat) (opr : Operation)
    (h : PipelineHandler) (T p : Nat) (f : Option Nat)
    (hop : opr.handler = some h)
    (hsig : ∀ rh, h.responseHandler = some rh →
      w.userHandler rh n (delivered w n opr T) = Signal.returned)
    (hst : (delivered w n opr T).IsOK = false)
    (hrec : ∀ rcv, h.recovery = some rcv → rcv (delivered w n opr T) = none) :
    exec w (fuel + 1) n opr T p f =
      ([Event.RunImpl opr.args T, Event.HandleResponse (delivered w n opr T)]
        ++ handlerCall h.responseHandler (delivered w n opr T)
        ++ recoveryCall h.recovery (delivered w n opr T)
        ++ callFinal f (delivered w n opr T)
        ++ [Event.set_value p (delivered w n opr T)], Outcome.finished) := by
  apply exec_of_done
  obtain ⟨a1, _, a3, _, a5, a6⟩ := Assign_fields h T p f
  rw [submit_eq w n opr h T p f hop,
    HandleResponseImpl_failed w n _ (h.Assign T p f) _ (by rw [a1]; exact hsig) hst
      (by rw [a3]; exact hrec)]
  simp [a1, a3, a5, a6]

/-- **C2.** When the user handler of a step throws `StopPipeline( s )`, whatever the
status delivered to the step, its recovery function and its successors, the
run stops in this step: after the call and the user handler, the final callback
(if set) is invoked with `s` and the promise is fulfilled with `s`; recovery is
not invoked and no further call is issued, however much fuel is left. -/
theorem stop_ends_pipeline (w : World) (fuel n : Nat) (opr : Operation)
    (h : PipelineHandler) (rh : Nat) (T p : Nat) (f : Option Nat) (s : XRootDStatus)
    (hop : opr.handler = some h) (hrh : h.responseHandler = some rh)
    (hsig : w.userHandler rh n (delivered w n opr T) = Signal.StopPipeline s) :
    exec w (fuel + 1) n opr T p f =
      ([Event.RunImpl opr.args T, Event.HandleResponse (delivered w n opr T),
          Event.userHandler rh (delivered w n opr T)] ++ callFinal f s
        ++ [Event.set_value p s], Outcome.finished) := by
  apply exec_of_done
  rw [submit_eq w n opr h T p f hop,
    HandleResponseImpl_stop w n _ (h.Assign T p f) _ s rh
      ((Assign_fields h T p f).1.trans hrh) hsig]
  simp [(Assign_fields h T p f).2.2.2.2.1, (Assign_fields h T p f).2.2.2.2.2]

/-- Witness of C2: `Read | Write | Close` whose first handler stops the pipeline
with another status; neither `Write` nor `Close` is called. -/
theorem stop_ends_pipeline_witness :
    Sample.readWriteClose.handler =
        some (.mk (some 1) (some (Sample.handled ⟨"Write", [0, 16]⟩ none none
          (some (Sample.handled ⟨"Close", []⟩ none none none)))) 0 0 none none) ∧
      exec Sample.stopping 3 0 Sample.readWriteClose 30 5 (some 9) =
        ([Event.RunImpl ⟨"Read", [0, 16]⟩ 30, Event.HandleResponse Sample.ok,
          Event.userHandler 1 Sample.ok, Event.final 9 Sample.other,
          Event.set_value 5 Sample.other], Outcome.finished) :=
  ⟨rfl, stop_ends_pipeline Sample.stopping 2 0 Sample.readWriteClose _ 1 30 5 (some 9)
    Sample.other rfl rfl rfl⟩

/-- **C3.** When the user handler of a step throws `RepeatOpeation`, the step
issues nothing but the call and the user handler (no final callback, no promise
fulfilment, no recovery), and ends by running the same operation again with the
same pipeline timeout, promise and final callback. The operation run again has
the arguments and timeout of the original one and owns the same handler, whose
user handler, recovery function and next operation are unchanged; running it is
the same as running the original operation, so the rest of the run is the run of
the original operation as the next submission. -/
theorem repeat_reruns_same_operation (w : World) (fuel n : Nat) (opr : Operation)
    (h : PipelineHandler) (rh : Nat) (T p : Nat) (f : Option Nat)
    (hop : opr.handler = some h) (hrh : h.responseHandler = some rh)
    (hsig : w.userHandler rh n (delivered w n opr T) = Signal.RepeatOpeation) :
    submit w n opr T p f =
        ([Event.RunImpl opr.args T, Event.HandleResponse (delivered w n opr T),
            Event.userHandler rh (delivered w n opr T)],
          Next.Run (opr.setHandler (some (h.Assign T p f))) T p f) ∧
      (opr.setHandler (some (h.Assign T p f))).args = opr.args ∧
      (opr.setHandler (some (h.Assign T p f))).timeout = opr.timeout ∧
      (h.Assign T p f).responseHandler = h.responseHandler ∧
      (h.Assign T p f).recovery = h.recovery ∧
      (h.Assign T p f).nextOperation = h.nextOperation ∧
      (∀ (w1 : World) (m : Nat),
        (opr.setHandler (some (h.Assign T p f))).Run w1 m T p f = opr.Run w1 m T p f) ∧
      exec w (fuel + 1) n opr T p f =
        ([Event.RunImpl opr.args T, Event.HandleResponse (delivered w n opr T),
            Event.userHandler rh (delivered w n opr T)] ++ (exec w fuel (n + 1) opr T p f).1,
          (exec w fuel (n + 1) opr T p f).2) := by
  have hs : submit w n opr T p f =
        ([Event.RunImpl opr.args T, Event.HandleResponse (delivered w n opr T),
            Event.userHandler rh (delivered w n opr T)],
          Next.Run (opr.setHandler (some (h.Assign T p f))) T p f) := by
    rw [submit_eq w n opr h T p f hop,
      HandleResponseImpl_repeat w n _ (h.Assign T p f) _ rh
        ((Assign_fields h T p f).1.trans hrh) hsig]
    have e1 : (opr.setHandler none).setHandler (some (h.Assign T p f)) =
        opr.setHandler (some (h.Assign T p f)) := by cases opr; rfl
    simp [(Assign_fields h T p f).2.2.2.1, (Assign_fields h T p f).2.2.2.2.1,
      (Assign_fields h T p f).2.2.2.2.2, e1]
  refine ⟨hs, ?_, ?_, (Assign_fields h T p f).1, (Assign_fields h T p f).2.2.1,
    (Assign_fields h T p f).2.1, ?_, ?_⟩
  · cases opr; rfl
  · cases opr; rfl
  · intro w1 m
    exact Run_assigned w1 m opr h T p f hop
  · rw [exec_of_run w fuel n opr T p f _ _ _ _ _ hs, exec_assigned w fuel (n + 1) opr h T p f hop]

/-- Witness of C3: the handler of `Read` repeats in submission 0; the run goes
on as the run of the same pipeline from submission 1. -/
theorem repeat_reruns_same_operation_witness :
    exec Sample.repeating 4 0 Sample.readWriteClose 30 5 (some 9) =
      ([Event.RunImpl ⟨"Read", [0, 16]⟩ 30, Event.HandleResponse Sample.ok,
          Event.userHandler 1 Sample.ok]
        ++ (exec Sample.repeating 3 1 Sample.readWriteClose 30 5 (some 9)).1,
        (exec Sample.repeating 3 1 Sample.readWriteClose 30 5 (some 9)).2) :=
  (repeat_reruns_same_operation Sample.repeating 3 0 Sample.readWriteClose
    (.mk (some 1) (some (Sample.handled ⟨"Write", [0, 16]⟩ none none
          (some (Sample.handled ⟨"Close", []⟩ none none none)))) 0 0 none none)
    1 30 5 (some 9) rfl rfl rfl).2.2.2.2.2.2.2

/-- **C5.** When the status delivered to a step is not OK, its user handler is
absent or returns without a signal, and no recovery function is registered, the
run ends in this step: the final callback (if set) is invoked with that status
and the promise is fulfilled with it; no further call is issued, whatever
operations follow in the chain and however much fuel is left. -/
theorem unrecovered_failure_terminates (w : World) (fuel n : Nat) (opr : Operation)
    (h : PipelineHandler) (T p : Nat) (f : Option Nat)
    (hop : opr.handler = some h)
    (hsig : ∀ rh, h.responseHandler = some rh →
      w.userHandler rh n (delivered w n opr T) = Signal.returned)
    (hst : (delivered w n opr T).IsOK = false) (hrec : h.recovery = none) :
    exec w (fuel + 1) n opr T p f =
      ([Event.RunImpl opr.args T, Event.HandleResponse (delivered w n opr T)]
        ++ handlerCall h.responseHandler (delivered w n opr T)
        ++ callFinal f (delivered w n opr T)
        ++ [Event.set_value p (delivered w n opr T)], Outcome.finished) := by
  have key := exec_failed w fuel n opr h T p f hop hsig hst
    (by rw [hrec]; intro rcv hr; cases hr)
  rw [key, hrec]
  simp [recoveryCall]

/-- Witness of C5: `Read` of `Read | Write | Close` fails and nothing else is
called. -/
theorem unrecovered_failure_terminates_witness :
    exec Sample.failing 3 0 Sample.readWriteClose 30 5 (some 9) =
      ([Event.RunImpl ⟨"Read", [0, 16]⟩ 30, Event.HandleResponse Sample.failed,
          Event.userHandler 1 Sample.failed, Event.final 9 Sample.failed,
          Event.set_value 5 Sample.failed], Outcome.finished) :=
  unrecovered_failure_terminates Sample.failing 2 0 Sample.readWriteClose
    (.mk (some 1) (some (Sample.handled ⟨"Write", [0, 16]⟩ none none
          (some (Sample.handled ⟨"Close", []⟩ none none none)))) 0 0 none none)
    30 5 (some 9) rfl (fun _ _ => rfl) rfl rfl

/-! ## Appending to a chain -/

mutual
theorem Operation.chain_AddOperation : ∀ (a : Operation) (b : Option Operation),
    a.Handled = true → (a.AddOperation b).chain = a.chain ++ chainOf b
  | .mk _ _ _ _ (some h) _, b, ha => by
    have ih := PipelineHandler.chain_AddOperation_handler h b (by simpa [Operation.Handled] using ha)
    have e1 : (h.AddOperation b).responseHandler = h.responseHandler := by
      cases h with
      | mk rh nx t p f r => cases nx <;> rfl
    have e2 : (h.AddOperation b).recovery = h.recovery := by
      cases h with
      | mk rh nx t p f r => cases nx <;> rfl
    simp [Operation.AddOperation, Operation.chain, ih, e1, e2]
  | .mk _ _ _ _ none _, _, ha => by simp [Operation.Handled] at ha
theorem PipelineHandler.chain_AddOperation_handler : ∀ (h : PipelineHandler) (b : Option Operation),
    h.Handled = true → (h.AddOperation b).chain = h.chain ++ chainOf b
  | .mk _ (some n) _ _ _ _, b, hh => by
    have ih := Operation.chain_AddOperation n b (by simpa [PipelineHandler.Handled] using hh)
    simp [PipelineHandler.AddOperation, PipelineHandler.chain, ih]
  | .mk _ none _ _ _ _, b, _ => by
    cases b <;> simp [PipelineHandler.AddOperation, PipelineHandler.chain, chainOf]
end

/-- **C4.** When the status delivered to a step is not OK, its user handler is
absent or returns without a signal, and its recovery function returns a handled
operation, the step invokes neither the final callback nor the promise and ends
by running the returned operation with the original next operation added to it,
with the same pipeline timeout, promise and final callback. The chain of the
operation run is the chain of the returned operation followed by the original
tail, whatever their lengths (the tail may be empty). -/
theorem recovery_splices_chain (w : World) (fuel n : Nat) (opr : Operation)
    (h : PipelineHandler) (rcv : rcvry_func) (op : Operation) (T p : Nat) (f : Option Nat)
    (hop : opr.handler = some h)
    (hsig : ∀ rh, h.responseHandler = some rh →
      w.userHandler rh n (delivered w n opr T) = Signal.returned)
    (hst : (delivered w n opr T).IsOK = false) (hrec : h.recovery = some rcv)
    (hret : rcv (delivered w n opr T) = some op) (hwf : op.Handled = true) :
    submit w n opr T p f =
        ([Event.RunImpl opr.args T, Event.HandleResponse (delivered w n opr T)]
          ++ handlerCall h.responseHandler (delivered w n opr T)
          ++ [Event.recovery (delivered w n opr T)],
          Next.Run (op.AddOperation h.nextOperation) T p f) ∧
      (op.AddOperation h.nextOperation).chain = op.chain ++ chainOf h.nextOperation ∧
      exec w (fuel + 1) n opr T p f =
        ([Event.RunImpl opr.args T, Event.HandleResponse (delivered w n opr T)]
          ++ handlerCall h.responseHandler (delivered w n opr T)
          ++ [Event.recovery (delivered w n opr T)]
          ++ (exec w fuel (n + 1) (op.AddOperation h.nextOperation) T p f).1,
          (exec w fuel (n + 1) (op.AddOperation h.nextOperation) T p f).2) := by
  obtain ⟨a1, a2, a3, a4, a5, a6⟩ := Assign_fields h T p f
  have hs : submit w n opr T p f =
        ([Event.RunImpl opr.args T, Event.HandleResponse (delivered w n opr T)]
          ++ handlerCall h.responseHandler (delivered w n opr T)
          ++ [Event.recovery (delivered w n opr T)],
          Next.Run (op.AddOperation h.nextOperation) T p f) := by
    rw [submit_eq w n opr h T p f hop,
      HandleResponseImpl_recovered w n _ (h.Assign T p f) _ rcv op (by rw [a1]; exact hsig) hst
        (by rw [a3, hrec]) hret]
    simp [a1, a2, a4, a5, a6]
  refine ⟨hs, Operation.chain_AddOperation op h.nextOperation hwf, ?_⟩
  rw [exec_of_run w fuel n opr T p f _ _ _ _ _ hs]

/-- Witness of C4: recovery returns `Open | Stat` and the tail is `Write |
Close`; the operation run next has the chain `Open, Stat, Write, Close`. -/
theorem recovery_splices_chain_witness :
    ((Sample.handled ⟨"Open", [1]⟩ none none
          (some (Sample.handled ⟨"Stat", []⟩ none none none))).AddOperation
        (some (Sample.handled ⟨"Write", [0, 16]⟩ none none
          (some (Sample.handled ⟨"Close", []⟩ none none none))))).chain.map Link.args =
      [⟨"Open", [1]⟩, ⟨"Stat", []⟩, ⟨"Write", [0, 16]⟩, ⟨"Close", []⟩] :=
  (congrArg (List.map Link.args)
    (recovery_splices_chain Sample.failing 0 0
      (Sample.handled ⟨"Open", [0]⟩ (some 1) (some Sample.reopen)
        (some (Sample.handled ⟨"Write", [0, 16]⟩ none none
          (some (Sample.handled ⟨"Close", []⟩ none none none)))))
      (.mk (some 1) (some (Sample.handled ⟨"Write", [0, 16]⟩ none none
          (some (Sample.handled ⟨"Close", []⟩ none none none)))) 0 0 none (some Sample.reopen))
      Sample.reopen
      (Sample.handled ⟨"Open", [1]⟩ none none
          (some (Sample.handled ⟨"Stat", []⟩ none none none)))
      30 5 (some 9) rfl (fun _ _ => rfl) rfl rfl rfl rfl).2.1).trans rfl

/-- **C7.** When the status delivered to a step is not OK, its user handler is
absent or returns without a signal, and its recovery function throws, the run
stops in this step: the final callback (if set) is invoked with the delivered
status and the promise is fulfilled with it, and no further call is issued. The
same operation with no recovery function registered gives the same run except
for the one invocation of the recovery function. -/
theorem throwing_recovery_is_ignored (w : World) (fuel n : Nat) (opr : Operation)
    (h : PipelineHandler) (rcv : rcvry_func) (T p : Nat) (f : Option Nat)
    (hop : opr.handler = some h)
    (hsig : ∀ rh, h.responseHandler = some rh →
      w.userHandler rh n (delivered w n opr T) = Signal.returned)
    (hst : (delivered w n opr T).IsOK = false) (hrec : h.recovery = some rcv)
    (hthrow : rcv (delivered w n opr T) = none) :
    exec w (fuel + 1) n opr T p f =
        ([Event.RunImpl opr.args T, Event.HandleResponse (delivered w n opr T)]
          ++ handlerCall h.responseHandler (delivered w n opr T)
          ++ [Event.recovery (delivered w n opr T)]
          ++ callFinal f (delivered w n opr T)
          ++ [Event.set_value p (delivered w n opr T)], Outcome.finished) ∧
      exec w (fuel + 1) n
          (opr.setHandler (some (PipelineHandler.mk h.responseHandler h.nextOperation
            h.timeout h.prms h.final none))) T p f =
        ([Event.RunImpl opr.args T, Event.HandleResponse (delivered w n opr T)]
          ++ handlerCall h.responseHandler (delivered w n opr T)
          ++ callFinal f (delivered w n opr T)
          ++ [Event.set_value p (delivered w n opr T)], Outcome.finished) := by
  constructor
  · have key := exec_failed w fuel n opr h T p f hop hsig hst
      (by rw [hrec]; intro r hr; cases hr; exact hthrow)
    rw [key, hrec]
    simp [recoveryCall]
  · have hd : delivered w n (opr.setHandler (some (PipelineHandler.mk h.responseHandler
        h.nextOperation h.timeout h.prms h.final none))) T = delivered w n opr T := by
      cases opr; rfl
    have ha : (opr.setHandler (some (PipelineHandler.mk h.responseHandler
        h.nextOperation h.timeout h.prms h.final none))).args = opr.args := by
      cases opr; rfl
    have hh : (opr.setHandler (some (PipelineHandler.mk h.responseHandler
        h.nextOperation h.timeout h.prms h.final none))).handler =
        some (PipelineHandler.mk h.responseHandler h.nextOperation h.timeout h.prms h.final
          none) := by
      cases opr; rfl
    have key := exec_failed w fuel n _ _ T p f hh
      (by rw [hd]; exact hsig) (by rw [hd]; exact hst) (by intro r hr; cases hr)
    rw [key, hd, ha]
    simp [recoveryCall, PipelineHandler.responseHandler, PipelineHandler.recovery]

/-- Witness of C7: `Open | Close` whose `Open` fails and whose recovery throws. -/
theorem throwing_recovery_is_ignored_witness :
    exec Sample.failing 3 0
        (Sample.handled ⟨"Open", [0]⟩ (some 1) (some Sample.throwing)
          (some (Sample.handled ⟨"Close", []⟩ none none none))) 30 5 (some 9) =
      ([Event.RunImpl ⟨"Open", [0]⟩ 30, Event.HandleResponse Sample.failed,
          Event.userHandler 1 Sample.failed, Event.recovery Sample.failed,
          Event.final 9 Sample.failed, Event.set_value 5 Sample.failed], Outcome.finished) :=
  (throwing_recovery_is_ignored Sample.failing 2 0
    (Sample.handled ⟨"Open", [0]⟩ (some 1) (some Sample.throwing)
      (some (Sample.handled ⟨"Close", []⟩ none none none)))
    (.mk (some 1) (some (Sample.handled ⟨"Close", []⟩ none none none)) 0 0 none
      (some Sample.throwing))
    Sample.throwing 30 5 (some 9) rfl (fun _ _ => rfl) rfl rfl rfl).1

/-! ## The promise is fulfilled once -/

/-- The handler when the user handler throws something else. -/
theorem HandleResponseImpl_other (w : World) (n : Nat) (cur : Operation) (h : PipelineHandler)
    (st : XRootDStatus) (rh : Nat) (hrh : h.responseHandler = some rh)
    (hsig : w.userHandler rh n st = Signal.other) :
    h.HandleResponseImpl w n cur st =
      ([Event.HandleResponse st, Event.userHandler rh st], Next.abort) := by
  cases h with
  | mk rh0 nx t p f r =>
    simp only [PipelineHandler.responseHandler] at hrh
    subst hrh
    simp [PipelineHandler.HandleResponseImpl, hsig]

theorem quiet_handlerCall (rh : Option Nat) (st : XRootDStatus) :
    quiet (handlerCall rh st) = true := by
  cases rh <;> simp [quiet, handlerCall, Event.isSetValue, Event.isFinal]

theorem quiet_recoveryCall (r : Option rcvry_func) (st : XRootDStatus) :
    quiet (recoveryCall r st) = true := by
  cases r <;> simp [quiet, recoveryCall, Event.isSetValue, Event.isFinal]

theorem quiet_append (a b : List Event) : quiet (a ++ b) = (quiet a && quiet b) := by
  simp [quiet, List.all_append]

theorem quiet_nil : quiet [] = true := rfl

theorem quiet_cons (e : Event) (l : List Event) :
    quiet (e :: l) = ((!e.isSetValue && !e.isFinal) && quiet l) := by
  simp [quiet]

theorem HandleResponseImpl_quiet_case (w : World) (n : Nat) (cur : Operation)
    (h : PipelineHandler) (st : XRootDStatus)
    (hsig : ∀ rh, h.responseHandler = some rh → w.userHandler rh n st = Signal.returned) :
    stepShape h.timeout h.prms h.final (h.HandleResponseImpl w n cur st) := by
  cases hst : st.IsOK with
  | true =>
    rw [HandleResponseImpl_ok w n cur h st hsig hst]
    cases hn : h.nextOperation with
    | some opr =>
      simp [stepShape, quiet_append, quiet_cons, quiet_nil, quiet_handlerCall,
        Event.isSetValue, Event.isFinal]
    | none =>
      exact ⟨_, st, rfl, by
        simp [quiet_append, quiet_cons, quiet_nil, quiet_handlerCall, Event.isSetValue,
          Event.isFinal]⟩
  | false =>
    cases hr : h.recovery with
    | none =>
      rw [HandleResponseImpl_failed w n cur h st hsig hst (by rw [hr]; intro r h1; cases h1)]
      exact ⟨_, st, rfl, by
        simp [quiet_append, quiet_cons, quiet_nil, quiet_handlerCall, quiet_recoveryCall,
          Event.isSetValue, Event.isFinal]⟩
    | some rcv =>
      cases ho : rcv st with
      | none =>
        rw [HandleResponseImpl_failed w n cur h st hsig hst
          (by rw [hr]; intro r h1; cases h1; exact ho)]
        exact ⟨_, st, rfl, by
          simp [quiet_append, quiet_cons, quiet_nil, quiet_handlerCall, quiet_recoveryCall,
            Event.isSetValue, Event.isFinal]⟩
      | some op =>
        rw [HandleResponseImpl_recovered w n cur h st rcv op hsig hst hr ho]
        simp [stepShape, quiet_append, quiet_cons, quiet_nil, quiet_handlerCall,
          Event.isSetValue, Event.isFinal]

theorem HandleResponseImpl_shape (w : World) (n : Nat) (cur : Operation)
    (h : PipelineHandler) (st : XRootDStatus) :
    stepShape h.timeout h.prms h.final (h.HandleResponseImpl w n cur st) := by
  cases hrh : h.responseHandler with
  | none =>
    exact HandleResponseImpl_quiet_case w n cur h st (by rw [hrh]; intro rh h1; cases h1)
  | some rh =>
    cases hsig : w.userHandler rh n st with
    | returned =>
      exact HandleResponseImpl_quiet_case w n cur h st
        (by rw [hrh]; intro rh1 h1; cases h1; exact hsig)
    | StopPipeline stop =>
      rw [HandleResponseImpl_stop w n cur h st stop rh hrh hsig]
      exact ⟨_, stop, rfl, by simp [quiet, Event.isSetValue, Event.isFinal]⟩
    | RepeatOpeation =>
      rw [HandleResponseImpl_repeat w n cur h st rh hrh hsig]
      simp [stepShape, quiet, Event.isSetValue, Event.isFinal]
    | other =>
      rw [HandleResponseImpl_other w n cur h st rh hrh hsig]
      simp [stepShape, quiet, Event.isSetValue, Event.isFinal]

theorem stepShape_cons (T p : Nat) (f : Option Nat) (x : Event) (r : List Event × Next)
    (hx : quiet [x] = true) (hr : stepShape T p f r) : stepShape T p f (x :: r.1, r.2) := by
  have hx1 : (!x.isSetValue && !x.isFinal) = true := by simpa [quiet_cons, quiet_nil] using hx
  unfold stepShape at hr ⊢
  cases h2 : r.2 with
  | done =>
    rw [h2] at hr
    obtain ⟨pre, s, e, q⟩ := hr
    exact ⟨x :: pre, s, by simp [e], by rw [quiet_cons, hx1, q]; rfl⟩
  | Run o T1 p1 f1 =>
    rw [h2] at hr
    exact ⟨by rw [quiet_cons, hx1, hr.1]; rfl, hr.2⟩
  | await h1 c1 =>
    rw [h2] at hr
    show quiet (x :: r.1) = true
    rw [quiet_cons, hx1]; exact hr
  | abort =>
    rw [h2] at hr
    show quiet (x :: r.1) = true
    rw [quiet_cons, hx1]; exact hr

theorem submit_shape (w : World) (n : Nat) (opr : Operation) (T p : Nat) (f : Option Nat) :
    stepShape T p f (submit w n opr T p f) := by
  cases hop : opr.handler with
  | none =>
    have : submit w n opr T p f = ([], Next.abort) := by
      unfold submit Operation.Run
      rw [hop]
    rw [this]
    exact quiet_nil
  | some h =>
    rw [submit_eq w n opr h T p f hop]
    obtain ⟨_, _, _, a4, a5, a6⟩ := Assign_fields h T p f
    have key := HandleResponseImpl_shape w n (opr.setHandler none) (h.Assign T p f)
      (delivered w n opr T)
    rw [a4, a5, a6] at key
    exact stepShape_cons T p f _ _ (by simp [quiet_cons, quiet_nil, Event.isSetValue,
      Event.isFinal]) key

theorem exec_shape (w : World) : ∀ (fuel n : Nat) (opr : Operation) (T p : Nat)
    (f : Option Nat), runShape p f (exec w fuel n opr T p f)
  | 0, _, _, _, _, _ => quiet_nil
  | fuel + 1, n, opr, T, p, f => by
    have hs := submit_shape w n opr T p f
    rw [exec_succ]
    cases hsub : submit w n opr T p f with
    | mk e nx =>
      rw [hsub] at hs
      cases nx with
      | done => exact hs
      | abort => exact hs
      | await h1 c1 => exact hs
      | Run o T1 p1 f1 =>
        obtain ⟨q, rfl, rfl, rfl⟩ := hs
        have ih := exec_shape w fuel (n + 1) o T1 p1 f1
        unfold runShape at ih ⊢
        simp only
        cases ho : (exec w fuel (n + 1) o T1 p1 f1).2 with
        | finished =>
          rw [ho] at ih
          obtain ⟨pre, s, e1, q1⟩ := ih
          exact ⟨e ++ pre, s, by simp [e1], by rw [quiet_append, q, q1]; rfl⟩
        | aborted =>
          rw [ho] at ih
          show quiet (e ++ _) = true
          rw [quiet_append, q, ih]; rfl
        | running =>
          rw [ho] at ih
          show quiet (e ++ _) = true
          rw [quiet_append, q, ih]; rfl

theorem countP_isSetValue_of_quiet (ev : List Event) (h : quiet ev = true) :
    ev.countP Event.isSetValue = 0 := by
  rw [List.countP_eq_zero]
  intro e he
  have := (List.all_eq_true.mp h) e he
  simp at this
  simp [this.1]

theorem countP_isFinal_of_quiet (ev : List Event) (h : quiet ev = true) :
    ev.countP Event.isFinal = 0 := by
  rw [List.countP_eq_zero]
  intro e he
  have := (List.all_eq_true.mp h) e he
  simp at this
  simp [this.2]

/-- **C1.** For every pipeline, world and amount of fuel: a run that has finished
consists of actions that neither fulfil a promise nor call a final callback,
followed by the call of the final callback (if set) and the fulfilment of the
pipeline's promise, both with the same status; so the promise is fulfilled
exactly once and the final callback, if set, is called exactly once, right
before. A run that has not finished or was aborted has done neither. No call of
`HandleResponseImpl` that ends by running an operation has fulfilled a promise
or called a final callback. -/
theorem promise_fulfilled_exactly_once (w : World) (fuel n : Nat) (opr : Operation)
    (T p : Nat) (f : Option Nat) :
    (∀ ev, exec w fuel n opr T p f = (ev, Outcome.finished) →
      (∃ pre st, ev = pre ++ callFinal f st ++ [Event.set_value p st] ∧ quiet pre = true) ∧
      ev.countP Event.isSetValue = 1 ∧
      ev.countP Event.isFinal = (if f.isSome then 1 else 0)) ∧
    (∀ ev o, exec w fuel n opr T p f = (ev, o) → o ≠ Outcome.finished → quiet ev = true) ∧
    (∀ (cur : Operation) (h : PipelineHandler) (st : XRootDStatus) (opr1 : Operation)
      (T1 p1 : Nat) (f1 : Option Nat),
      (h.HandleResponseImpl w n cur st).2 = Next.Run opr1 T1 p1 f1 →
      quiet (h.HandleResponseImpl w n cur st).1 = true) := by
  have hs := exec_shape w fuel n opr T p f
  refine ⟨?_, ?_, ?_⟩
  · intro ev he
    rw [he] at hs
    obtain ⟨pre, st, e1, q⟩ := hs
    refine ⟨⟨pre, st, e1, q⟩, ?_, ?_⟩
    · simp only at e1
      subst e1
      cases f <;> simp [callFinal, countP_isSetValue_of_quiet pre q, List.countP_cons,
        Event.isSetValue]
    · simp only at e1
      subst e1
      cases f <;> simp [callFinal, countP_isFinal_of_quiet pre q, List.countP_cons,
        Event.isFinal]
  · intro ev o he ho
    rw [he] at hs
    cases o with
    | finished => exact absurd rfl ho
    | aborted => exact hs
    | running => exact hs
  · intro cur h st opr1 T1 p1 f1 he
    have key := HandleResponseImpl_shape w n cur h st
    unfold stepShape at key
    rw [he] at key
    exact key.1

/-- Witness of C1: the run of `Read | Write | Close` with every call succeeding;
its last two actions are the final callback and the one fulfilment of the
promise. -/
theorem promise_fulfilled_exactly_once_witness :
    exec Sample.calm 3 0 Sample.readWriteClose 30 5 (some 9) =
        ([Event.RunImpl ⟨"Read", [0, 16]⟩ 30, Event.HandleResponse Sample.ok,
          Event.userHandler 1 Sample.ok,
          Event.RunImpl ⟨"Write", [0, 16]⟩ 30, Event.HandleResponse Sample.ok,
          Event.RunImpl ⟨"Close", []⟩ 30, Event.HandleResponse Sample.ok,
          Event.final 9 Sample.ok, Event.set_value 5 Sample.ok], Outcome.finished) ∧
      List.countP Event.isSetValue (exec Sample.calm 3 0 Sample.readWriteClose 30 5 (some 9)).1
        = 1 :=
  ⟨rfl, ((promise_fulfilled_exactly_once Sample.calm 3 0 Sample.readWriteClose 30 5
    (some 9)).1 _ rfl).2.1⟩

/-! ## Synchronous failure of `RunImpl` -/

/-- **C8, as stated, fails.** `RunImpl` refuses the first call with a failure
status, and the operation has a recovery function: `Run` passes the failure to
the handler, which invokes the recovery function and runs the operation it
returns. Two more calls are issued and the promise is fulfilled with the OK
status of the last one, not with the failure status. -/
theorem sync_failure_is_recovered :
    Sample.refusing.RunImpl 0 ⟨"Open", [0]⟩ 0 30 = RunImplResult.returned Sample.failed ∧
      Sample.failed.IsOK = false ∧
      exec Sample.refusing 3 0
          (Sample.handled ⟨"Open", [0]⟩ none (some Sample.reopen) none) 30 5 (some 9) =
        ([Event.RunImpl ⟨"Open", [0]⟩ 30, Event.HandleResponse Sample.failed,
          Event.recovery Sample.failed,
          Event.RunImpl ⟨"Open", [1]⟩ 30, Event.HandleResponse Sample.ok,
          Event.RunImpl ⟨"Stat", []⟩ 30, Event.HandleResponse Sample.ok,
          Event.final 9 Sample.ok, Event.set_value 5 Sample.ok], Outcome.finished) ∧
      ¬ (∀ (w : World) (opr : Operation) (h : PipelineHandler) (T p : Nat) (f : Option Nat)
          (st : XRootDStatus), opr.handler = some h →
          w.RunImpl 0 opr.args opr.timeout T = RunImplResult.returned st → st.IsOK = false →
          exec w 3 0 opr T p f =
            ([Event.RunImpl opr.args T, Event.HandleResponse st]
              ++ handlerCall h.responseHandler st ++ callFinal f st
              ++ [Event.set_value p st], Outcome.finished)) := by
  refine ⟨rfl, rfl, rfl, ?_⟩
  intro H
  have h1 := H Sample.refusing (Sample.handled ⟨"Open", [0]⟩ none (some Sample.reopen) none)
    (.mk none none 0 0 none (some Sample.reopen)) 30 5 (some 9) Sample.failed rfl rfl rfl
  have h2 := congrArg (fun r => r.1.length) h1
  revert h2
  decide

/-- **C8, amended.** When `RunImpl` returns a status that is not OK, or throws
`operation_expired`, `Run` does not wait for a callback: it invokes the handler
itself, with the returned status, respectively with the status
`(stError, errOperationExpired)`. When, on that status, the user handler is
absent or returns without a signal and the recovery function is absent or
throws, `Run` ends with the final callback (if set) invoked with that status
and the promise fulfilled with it, and no further call is issued. -/
theorem sync_failure_short_circuits (w : World) (fuel n : Nat) (opr : Operation)
    (h : PipelineHandler) (T p : Nat) (f : Option Nat) (st : XRootDStatus)
    (hop : opr.handler = some h)
    (hfail : (w.RunImpl n opr.args opr.timeout T = RunImplResult.returned st ∧
        st.IsOK = false) ∨
      (w.RunImpl n opr.args opr.timeout T = RunImplResult.operation_expired ∧
        st = ⟨stError, errOperationExpired⟩))
    (hsig : ∀ rh, h.responseHandler = some rh → w.userHandler rh n st = Signal.returned)
    (hrec : ∀ rcv, h.recovery = some rcv → rcv st = none) :
    opr.Run w n T p f =
        ([Event.RunImpl opr.args T, Event.HandleResponse st]
          ++ handlerCall h.responseHandler st ++ recoveryCall h.recovery st
          ++ callFinal f st ++ [Event.set_value p st], Next.done) ∧
      exec w (fuel + 1) n opr T p f =
        ([Event.RunImpl opr.args T, Event.HandleResponse st]
          ++ handlerCall h.responseHandler st ++ recoveryCall h.recovery st
          ++ callFinal f st ++ [Event.set_value p st], Outcome.finished) := by
  have hbad : st.IsOK = false := by
    rcases hfail with ⟨_, h2⟩ | ⟨_, h2⟩
    · exact h2
    · rw [h2]; decide
  have hd : delivered w n opr T = st := by
    unfold delivered
    rcases hfail with ⟨h1, h2⟩ | ⟨h1, h2⟩
    · rw [h1]; simp [h2]
    · rw [h1, h2]
  obtain ⟨a1, _, a3, _, a5, a6⟩ := Assign_fields h T p f
  constructor
  · have hst : (match w.RunImpl n opr.args opr.timeout T with
        | RunImplResult.returned s => s
        | RunImplResult.operation_expired => (⟨stError, errOperationExpired⟩ : XRootDStatus))
        = st := by
      rcases hfail with ⟨h1, _⟩ | ⟨h1, h2⟩
      · rw [h1]
      · rw [h1, h2]
    unfold Operation.Run Operation.ForceHandler
    rw [hop]
    simp only [hst, hbad]
    rw [HandleResponseImpl_failed w n _ (h.Assign T p f) st (by rw [a1]; exact hsig) hbad
      (by rw [a3]; exact hrec)]
    simp [a1, a3, a5, a6]
  · have key := exec_failed w fuel n opr h T p f hop (by rw [hd]; exact hsig)
      (by rw [hd]; exact hbad) (by rw [hd]; exact hrec)
    rw [key, hd]

/-- Witness of C8 as amended: `RunImpl` of `Read` throws `operation_expired`;
the handler returns and there is no recovery. -/
theorem sync_failure_short_circuits_witness :
    exec Sample.expiring 3 0 Sample.readWriteClose 30 5 (some 9) =
      ([Event.RunImpl ⟨"Read", [0, 16]⟩ 30,
          Event.HandleResponse ⟨stError, errOperationExpired⟩,
          Event.userHandler 1 ⟨stError, errOperationExpired⟩,
          Event.final 9 ⟨stError, errOperationExpired⟩,
          Event.set_value 5 ⟨stError, errOperationExpired⟩], Outcome.finished) :=
  (sync_failure_short_circuits Sample.expiring 2 0 Sample.readWriteClose
    (.mk (some 1) (some (Sample.handled ⟨"Write", [0, 16]⟩ none none
          (some (Sample.handled ⟨"Close", []⟩ none none none)))) 0 0 none none)
    30 5 (some 9) ⟨stError, errOperationExpired⟩ rfl (Or.inr ⟨rfl, rfl⟩) (fun _ _ => rfl)
    (fun _ hr => by cases hr)).2

/-! ## Validity -/

theorem move_valid (t : Bool) (op : Operation) (hv : op.valid = true) :
    ConcreteOperation.move t op =
      (.ok (.mk t op.args none 0 op.handler true), (op.setHandler none).setValid false) := by
  cases op with
  | mk hh a r t0 h v =>
    simp only [Operation.valid] at hv
    subst hv
    rfl

theorem move_invalid (t : Bool) (op : Operation) (hv : op.valid = false) :
    ConcreteOperation.move t op = (.error invalidComposition, op.setHandler none) := by
  cases op with
  | mk hh a r t0 h v =>
    simp only [Operation.valid] at hv
    subst hv
    rfl

theorem moveSame_valid (op : Operation) (hv : op.valid = true) :
    ConcreteOperation.moveSame op =
      (.ok (.mk op.hasHndl op.args op.recovery op.timeout op.handler true),
        ((op.setHandler none).setRecovery none).setValid false) := by
  cases op with
  | mk hh a r t0 h v =>
    simp only [Operation.valid] at hv
    subst hv
    rfl

theorem moveSame_invalid (op : Operation) (hv : op.valid = false) :
    ConcreteOperation.moveSame op = (.error invalidComposition, op.setHandler none) := by
  cases op with
  | mk hh a r t0 h v =>
    simp only [Operation.valid] at hv
    subst hv
    rfl

theorem valid_setHandler (op : Operation) (h : Option PipelineHandler) :
    (op.setHandler h).valid = op.valid := by cases op; rfl

theorem valid_setRecovery (op : Operation) (r : Option rcvry_func) :
    (op.setRecovery r).valid = op.valid := by cases op; rfl

theorem valid_setTimeout (op : Operation) (t : Nat) :
    (op.setTimeout t).valid = op.valid := by cases op; rfl

theorem valid_setValid (op : Operation) (v : Bool) : (op.setValid v).valid = v := by
  cases op; rfl

theorem valid_resetHandler (op : Operation) :
    (ConcreteOperation.resetHandler op).valid = op.valid := by cases op; rfl

theorem valid_AddOperation (op : Operation) (b : Option Operation) :
    (op.AddOperation b).valid = op.valid := by
  cases op with
  | mk hh a r t h v => cases h <;> rfl

/-- The construction of a `Derived<to>` from a valid operation. -/
theorem Derived_valid (t : Bool) (op : Operation) (hv : op.valid = true) :
    (ConcreteOperation.Derived t op).1 = .ok (ConcreteOperation.moved t op) ∧
      (ConcreteOperation.Derived t op).2.valid = false := by
  unfold ConcreteOperation.Derived ConcreteOperation.moved
  by_cases h : t = op.hasHndl
  · rw [if_pos h, if_pos h, if_pos h, moveSame_valid op hv, h]
    exact ⟨rfl, valid_setValid _ _⟩
  · rw [if_neg h, if_neg h, if_neg h, move_valid t op hv]
    exact ⟨rfl, valid_setValid _ _⟩

/-- The construction of a `Derived<to>` from an invalid operation. -/
theorem Derived_invalid (t : Bool) (op : Operation) (hv : op.valid = false) :
    ConcreteOperation.Derived t op = (.error invalidComposition, op.setHandler none) := by
  unfold ConcreteOperation.Derived
  split
  · exact moveSame_invalid op hv
  · exact move_invalid t op hv

theorem Derived_source_invalid (t : Bool) (op : Operation) :
    (ConcreteOperation.Derived t op).2.valid = false := by
  cases hv : op.valid with
  | true => exact (Derived_valid t op hv).2
  | false =>
    rw [Derived_invalid t op hv, valid_setHandler]
    exact hv

theorem valid_moved (t : Bool) (op : Operation) : (ConcreteOperation.moved t op).valid = true :=
  rfl

theorem hasHndl_moved (t : Bool) (op : Operation) : (ConcreteOperation.moved t op).hasHndl = t :=
  rfl

theorem args_moved (t : Bool) (op : Operation) : (ConcreteOperation.moved t op).args = op.args :=
  rfl

theorem handler_moved (t : Bool) (op : Operation) :
    (ConcreteOperation.moved t op).handler = op.handler := rfl

/-- Every consumer is the construction of a `Derived` from the operation after a
change that leaves its validity alone. -/
theorem Consumer.apply_eq_Derived (c : Consumer) (op : Operation) :
    ∃ (t : Bool) (op1 : Operation), op1.valid = op.valid ∧
      c.apply op = ConcreteOperation.Derived t op1 := by
  cases c with
  | attach handler =>
    exact ⟨true, _, by rw [valid_setRecovery, valid_setHandler], rfl⟩
  | timeout t =>
    refine ⟨op.hasHndl, op.setTimeout t, valid_setTimeout op t, ?_⟩
    cases op with
    | mk hh a r t0 h v =>
      simp [Consumer.apply, ConcreteOperation.Timeout, ConcreteOperation.Derived.ofBase,
        ConcreteOperation.Derived, Operation.setTimeout, Operation.hasHndl]
  | recovery r =>
    refine ⟨op.hasHndl, op.setRecovery r, valid_setRecovery op r, ?_⟩
    cases op with
    | mk hh a r0 t0 h v => rfl
  | move => exact ⟨op.hasHndl, op, rfl, rfl⟩
  | toHandled => exact ⟨true, _, valid_resetHandler op, rfl⟩
  | transform t => exact ⟨t, op, rfl, rfl⟩

theorem Consumer.apply_valid (c : Consumer) (op : Operation) (hv : op.valid = true) :
    ∃ r, (c.apply op).1 = .ok r ∧ r.valid = true ∧ (c.apply op).2.valid = false := by
  obtain ⟨t, op1, h1, h2⟩ := Consumer.apply_eq_Derived c op
  rw [h2]
  obtain ⟨k1, k2⟩ := Derived_valid t op1 (h1.trans hv)
  exact ⟨_, k1, rfl, k2⟩

theorem Consumer.apply_invalid (c : Consumer) (op : Operation) (hv : op.valid = false) :
    (c.apply op).1 = .error invalidComposition ∧ (c.apply op).2.valid = false := by
  obtain ⟨t, op1, h1, h2⟩ := Consumer.apply_eq_Derived c op
  rw [h2, Derived_invalid t op1 (h1.trans hv)]
  exact ⟨rfl, by rw [valid_setHandler]; exact h1.trans hv⟩

theorem Consumer.apply_source (c : Consumer) (op : Operation) :
    (c.apply op).2.valid = false := by
  obtain ⟨t, op1, _, h2⟩ := Consumer.apply_eq_Derived c op
  rw [h2]
  exact Derived_source_invalid t op1

theorem hasHndl_withHandler (op : Operation) :
    (ConcreteOperation.withHandler op).hasHndl = op.hasHndl := by
  cases op with
  | mk hh a r t h v => cases hh <;> rfl

theorem valid_withHandler (op : Operation) :
    (ConcreteOperation.withHandler op).valid = op.valid := by
  cases op with
  | mk hh a r t h v => cases hh <;> rfl

/-- The right operand of `PipeImpl` is consumed by `Move` or `ToHandled`: both are
the construction of a `Derived<true>` from the operand with its handler. -/
theorem right_eq_Derived (op : Operation) :
    (if op.hasHndl then ConcreteOperation.Move op else ConcreteOperation.ToHandled op) =
      ConcreteOperation.Derived true (ConcreteOperation.withHandler op) := by
  cases op with
  | mk hh a r t h v => cases hh <;> rfl

theorem PipeImpl_eq (me op : Operation) :
    ConcreteOperation.PipeImpl me op =
      match (ConcreteOperation.Derived true (ConcreteOperation.withHandler op)).1 with
      | .error e => (.error e, ConcreteOperation.withHandler me,
          (ConcreteOperation.Derived true (ConcreteOperation.withHandler op)).2)
      | .ok o =>
        ((ConcreteOperation.Derived true
            ((ConcreteOperation.withHandler me).AddOperation (some o))).1,
          (ConcreteOperation.Derived true
            ((ConcreteOperation.withHandler me).AddOperation (some o))).2,
          (ConcreteOperation.Derived true (ConcreteOperation.withHandler op)).2) := by
  unfold ConcreteOperation.PipeImpl
  simp only [right_eq_Derived]
  rfl

/-- The right operand of `PipeImpl` is consumed by `Move` or `ToHandled`. -/
theorem PipeImpl_right (me op : Operation) :
    (ConcreteOperation.PipeImpl me op).2.2 =
      ((if op.hasHndl then Consumer.move else Consumer.toHandled).apply op).2 := by
  rw [PipeImpl_eq]
  have : ((if op.hasHndl then Consumer.move else Consumer.toHandled).apply op) =
      ConcreteOperation.Derived true (ConcreteOperation.withHandler op) := by
    rw [← right_eq_Derived]
    cases op.hasHndl <;> rfl
  rw [this]
  split <;> rfl

theorem PipeImpl_of_right_error (me op : Operation) (hv : op.valid = false) :
    ConcreteOperation.PipeImpl me op =
      (.error invalidComposition, ConcreteOperation.withHandler me,
        (ConcreteOperation.withHandler op).setHandler none) := by
  rw [PipeImpl_eq, Derived_invalid true _ ((valid_withHandler op).trans hv)]

theorem PipeImpl_of_right_ok (me op : Operation) (hv : op.valid = true) :
    (ConcreteOperation.PipeImpl me op).1 =
        (ConcreteOperation.Derived true
          ((ConcreteOperation.withHandler me).AddOperation
            (some (ConcreteOperation.moved true (ConcreteOperation.withHandler op))))).1 ∧
      (ConcreteOperation.PipeImpl me op).2.1 =
        (ConcreteOperation.Derived true
          ((ConcreteOperation.withHandler me).AddOperation
            (some (ConcreteOperation.moved true (ConcreteOperation.withHandler op))))).2 ∧
      (ConcreteOperation.PipeImpl me op).2.2.valid = false := by
  obtain ⟨k1, k2⟩ := Derived_valid true _ ((valid_withHandler op).trans hv)
  rw [PipeImpl_eq, k1]
  exact ⟨rfl, rfl, k2⟩

theorem valid_me1 (me : Operation) (b : Option Operation) :
    ((ConcreteOperation.withHandler me).AddOperation b).valid = me.valid := by
  rw [valid_AddOperation, valid_withHandler]

theorem PipeImpl_valid (me op : Operation) (hm : me.valid = true) (ho : op.valid = true) :
    ∃ r, (ConcreteOperation.PipeImpl me op).1 = .ok r ∧ r.valid = true ∧
      (ConcreteOperation.PipeImpl me op).2.1.valid = false ∧
      (ConcreteOperation.PipeImpl me op).2.2.valid = false := by
  obtain ⟨p1, p2, p3⟩ := PipeImpl_of_right_ok me op ho
  obtain ⟨k1, k2⟩ := Derived_valid true _ ((valid_me1 me
    (some (ConcreteOperation.moved true (ConcreteOperation.withHandler op)))).trans hm)
  rw [p1, p2]
  exact ⟨_, k1, rfl, k2, p3⟩

theorem PipeImpl_invalid (me op : Operation) (h : me.valid = false ∨ op.valid = false) :
    (ConcreteOperation.PipeImpl me op).1 = .error invalidComposition := by
  cases ho : op.valid with
  | false => rw [PipeImpl_of_right_error me op ho]
  | true =>
    have hm : me.valid = false := by
      rcases h with h | h
      · exact h
      · rw [ho] at h; cases h
    rw [(PipeImpl_of_right_ok me op ho).1, Derived_invalid true _ ((valid_me1 me _).trans hm)]

theorem Pipeline.create_eq (op : Operation) :
    Pipeline.create op =
      (match ((if op.hasHndl then Consumer.move else Consumer.toHandled).apply op).1 with
        | .error e => .error e
        | .ok o => .ok ⟨some o, none⟩,
        ((if op.hasHndl then Consumer.move else Consumer.toHandled).apply op).2) := by
  unfold Pipeline.create
  cases op.hasHndl <;> simp only [Consumer.apply] <;> split <;> simp_all

/-- **C10.** A newly constructed operation is valid. Each consumer of one operation
(attaching a handler, `Timeout`, `Recovery`, `Move`, `ToHandled`, `Transform`),
the composition of two valid operations, and the construction of a pipeline
from a valid operation give a valid result and leave every operation they
consumed invalid. Applied to an invalid operation, each of them throws
`std::invalid_argument` and gives no operation, and the operation stays
invalid; so an operation that has been consumed cannot be consumed again. -/
theorem operations_are_consumed_once :
    (∀ args, (ConcreteOperation.create args).valid = true) ∧
    (∀ (c : Consumer) (op : Operation), op.valid = true →
      ∃ r, (c.apply op).1 = .ok r ∧ r.valid = true ∧ (c.apply op).2.valid = false) ∧
    (∀ me op : Operation, me.valid = true → op.valid = true →
      ∃ r, (ConcreteOperation.PipeImpl me op).1 = .ok r ∧ r.valid = true ∧
        (ConcreteOperation.PipeImpl me op).2.1.valid = false ∧
        (ConcreteOperation.PipeImpl me op).2.2.valid = false) ∧
    (∀ op : Operation, op.valid = true →
      ∃ o, (Pipeline.create op).1 = .ok ⟨some o, none⟩ ∧ o.valid = true ∧
        (Pipeline.create op).2.valid = false) ∧
    (∀ (c : Consumer) (op : Operation), op.valid = false →
      (c.apply op).1 = .error invalidComposition ∧ (c.apply op).2.valid = false) ∧
    (∀ me op : Operation, me.valid = false ∨ op.valid = false →
      (ConcreteOperation.PipeImpl me op).1 = .error invalidComposition ∧
        (ConcreteOperation.PipeImpl me op).2.2.valid = false) ∧
    (∀ op : Operation, op.valid = false →
      (Pipeline.create op).1 = .error invalidComposition ∧
        (Pipeline.create op).2.valid = false) ∧
    (∀ (c c1 : Consumer) (op : Operation),
      (c1.apply (c.apply op).2).1 = .error invalidComposition) := by
  refine ⟨fun _ => rfl, Consumer.apply_valid, PipeImpl_valid, ?_, Consumer.apply_invalid, ?_,
    ?_, ?_⟩
  · intro op hv
    rw [Pipeline.create_eq]
    obtain ⟨r, h1, h2, h3⟩ := Consumer.apply_valid
      (if op.hasHndl then Consumer.move else Consumer.toHandled) op hv
    exact ⟨r, by rw [h1], h2, h3⟩
  · intro me op h
    refine ⟨PipeImpl_invalid me op h, ?_⟩
    rw [PipeImpl_right]
    exact Consumer.apply_source _ op
  · intro op hv
    rw [Pipeline.create_eq]
    obtain ⟨h1, h2⟩ := Consumer.apply_invalid
      (if op.hasHndl then Consumer.move else Consumer.toHandled) op hv
    exact ⟨by rw [h1], h2⟩
  · intro c c1 op
    exact (Consumer.apply_invalid c1 _ (Consumer.apply_source c op)).1

/-- Witness of C10: a handler is attached to `Read`, and a second attempt on the
same source throws. -/
theorem operations_are_consumed_once_witness :
    Sample.read.valid = true ∧
      ((Consumer.attach (some 1)).apply Sample.read).1 =
        .ok (Sample.handled ⟨"Read", [0, 16]⟩ (some 1) none none) ∧
      ((Consumer.attach (some 1)).apply ((Consumer.attach (some 1)).apply Sample.read).2).1 =
        .error invalidComposition :=
  ⟨operations_are_consumed_once.1 _, rfl,
    operations_are_consumed_once.2.2.2.2.2.2.2 (Consumer.attach (some 1))
      (Consumer.attach (some 1)) Sample.read⟩

/-! ## Composition -/

mutual
theorem Operation.AddOperation_assoc : ∀ (a b : Operation) (c : Option Operation),
    (a.AddOperation (some b)).AddOperation c = a.AddOperation (some (b.AddOperation c))
  | .mk _ _ _ _ (some h) _, b, c => by
    simp [Operation.AddOperation, PipelineHandler.AddOperation_assoc_handler h b c]
  | .mk _ _ _ _ none _, _, _ => by simp [Operation.AddOperation]
theorem PipelineHandler.AddOperation_assoc_handler : ∀ (h : PipelineHandler) (b : Operation)
    (c : Option Operation),
    (h.AddOperation (some b)).AddOperation c = h.AddOperation (some (b.AddOperation c))
  | .mk _ (some n) _ _ _ _, b, c => by
    simp [PipelineHandler.AddOperation, Operation.AddOperation_assoc n b c]
  | .mk _ none _ _ _ _, b, c => by
    simp [PipelineHandler.AddOperation]
end

mutual
theorem Operation.Handled_AddOperation : ∀ (a b : Operation),
    a.Handled = true → (a.AddOperation (some b)).Handled = b.Handled
  | .mk _ _ _ _ (some h) _, b, ha => by
    have ih := PipelineHandler.Handled_AddOperation_handler h b
      (by simpa [Operation.Handled] using ha)
    simp [Operation.AddOperation, Operation.Handled, ih]
  | .mk _ _ _ _ none _, _, ha => by simp [Operation.Handled] at ha
theorem PipelineHandler.Handled_AddOperation_handler : ∀ (h : PipelineHandler) (b : Operation),
    h.Handled = true → (h.AddOperation (some b)).Handled = b.Handled
  | .mk _ (some n) _ _ _ _, b, hh => by
    have ih := Operation.Handled_AddOperation n b
      (by simpa [PipelineHandler.Handled] using hh)
    simp [PipelineHandler.AddOperation, PipelineHandler.Handled, ih]
  | .mk _ none _ _ _ _, b, _ => by
    simp [PipelineHandler.AddOperation, PipelineHandler.Handled]
end

theorem moved_AddOperation (t : Bool) (w : Operation) (c : Option Operation) :
    ConcreteOperation.moved t (w.AddOperation c) =
      (ConcreteOperation.moved t w).AddOperation c := by
  cases w with
  | mk hh a r t0 h v => cases h <;> rfl

theorem moved_moved (t : Bool) (w : Operation) :
    ConcreteOperation.moved t (ConcreteOperation.moved t w) = ConcreteOperation.moved t w := by
  cases w with
  | mk hh a r t0 h v =>
    simp only [ConcreteOperation.moved, Operation.hasHndl, Operation.args, Operation.recovery,
      Operation.timeout, Operation.handler, if_true]

theorem withHandler_of_handled (op : Operation) (h : op.hasHndl = true) :
    ConcreteOperation.withHandler op = op := by
  unfold ConcreteOperation.withHandler
  rw [if_pos h]

/-- The operation an operand of `|` is turned into before it is linked: the left
operand by the reset of its handler, the right one by `Move` or `ToHandled`. -/
theorem compose_ok (x y : Operation) (hx : x.valid = true) (hy : y.valid = true) :
    compose x y =
      .ok (ConcreteOperation.moved true
        ((ConcreteOperation.withHandler x).AddOperation
          (some (ConcreteOperation.moved true (ConcreteOperation.withHandler y))))) := by
  unfold compose
  rw [(PipeImpl_of_right_ok x y hy).1]
  exact (Derived_valid true _ ((valid_me1 x _).trans hx)).1

theorem chain_mk (hh : Bool) (a : OpArgs) (r : Option rcvry_func) (t : Nat)
    (h : Option PipelineHandler) (v : Bool) (op : Operation) (ha : op.args = a)
    (hh1 : op.handler = h) : (Operation.mk hh a r t h v).chain = op.chain := by
  cases op with
  | mk hh0 a0 r0 t0 h0 v0 =>
    simp only [Operation.args, Operation.handler] at ha hh1
    subst ha hh1
    cases h0 <;> rfl

theorem Handled_mk (hh : Bool) (a : OpArgs) (r : Option rcvry_func) (t : Nat)
    (h : Option PipelineHandler) (v : Bool) (op : Operation)
    (hh1 : op.handler = h) : (Operation.mk hh a r t h v).Handled = op.Handled := by
  cases op with
  | mk hh0 a0 r0 t0 h0 v0 =>
    simp only [Operation.handler] at hh1
    subst hh1
    cases h0 <;> rfl

theorem chain_moved (t : Bool) (op : Operation) :
    (ConcreteOperation.moved t op).chain = op.chain :=
  chain_mk t op.args _ _ op.handler true op rfl rfl

theorem Handled_moved (t : Bool) (op : Operation) :
    (ConcreteOperation.moved t op).Handled = op.Handled :=
  Handled_mk t op.args _ _ op.handler true op rfl

theorem args_AddOperation (op : Operation) (b : Option Operation) :
    (op.AddOperation b).args = op.args := by
  cases op with
  | mk hh a r t h v => cases h <;> rfl

/-- The left operand after the reset of its handler: its chain and handlers. -/
theorem left_operand (x : Operation) (hw : x.hasHndl = true → x.Handled = true) :
    (ConcreteOperation.withHandler x).Handled = true ∧
      (ConcreteOperation.withHandler x).chain = x.links ∧
      (ConcreteOperation.withHandler x).args = x.args := by
  cases x with
  | mk hh a r t h v =>
    cases hh with
    | true => exact ⟨hw rfl, rfl, rfl⟩
    | false => exact ⟨rfl, rfl, rfl⟩

/-- The right operand after `Move` or `ToHandled`: its chain and handlers. -/
theorem right_operand (y : Operation) :
    (ConcreteOperation.moved true (ConcreteOperation.withHandler y)).chain = y.links ∧
      ((y.hasHndl = true → y.Handled = true) →
        (ConcreteOperation.moved true (ConcreteOperation.withHandler y)).Handled = true) := by
  rw [chain_moved, Handled_moved]
  cases y with
  | mk hh a r t h v =>
    cases hh with
    | true => exact ⟨rfl, fun hw => hw rfl⟩
    | false => exact ⟨rfl, fun _ => rfl⟩

/-- The result of `x | y` for valid operands: valid, handled, with the chain of `x`
followed by the chain of `y`. -/
theorem compose_chain (x y : Operation) (hx : x.valid = true) (hy : y.valid = true)
    (hw : x.hasHndl = true → x.Handled = true) :
    ∃ r, compose x y = .ok r ∧ r.valid = true ∧ r.hasHndl = true ∧
      r.chain = x.links ++ y.links ∧
      ((y.hasHndl = true → y.Handled = true) → r.Handled = true) := by
  obtain ⟨l1, l2, l3⟩ := left_operand x hw
  obtain ⟨r1, r2⟩ := right_operand y
  refine ⟨_, compose_ok x y hx hy, rfl, rfl, ?_, ?_⟩
  · rw [chain_moved, Operation.chain_AddOperation _ _ l1, l2]
    simp only [chainOf]
    rw [r1]
  · intro hwy
    rw [Handled_moved, Operation.Handled_AddOperation _ _ l1]
    exact r2 hwy

theorem compose_error (x y : Operation) (h : x.valid = false ∨ y.valid = false) :
    compose x y = .error invalidComposition :=
  PipeImpl_invalid x y h

theorem AddOperation_eq (op : Operation) (x : Option Operation) :
    op.AddOperation x = op.setHandler (op.handler.map (fun h => h.AddOperation x)) := by
  cases op with
  | mk hh a r t h v => cases h <;> rfl

theorem compose_assoc_valid (a b c : Operation) (ha : a.valid = true) (hb : b.valid = true)
    (hc : c.valid = true) :
    (match compose a b with
      | .ok ab => compose ab c
      | .error e => .error e) =
    (match compose b c with
      | .ok bc => compose a bc
      | .error e => .error e) := by
  rw [compose_ok a b ha hb, compose_ok b c hb hc]
  show compose (ConcreteOperation.moved true _) c = compose a (ConcreteOperation.moved true _)
  rw [compose_ok _ c (valid_moved _ _) hc, compose_ok a _ ha (valid_moved _ _),
    withHandler_of_handled _ (hasHndl_moved true _),
    withHandler_of_handled _ (hasHndl_moved true _)]
  have hL : ∀ u v w : Operation,
      ConcreteOperation.moved true
          ((ConcreteOperation.moved true (u.AddOperation (some v))).AddOperation (some w)) =
        ConcreteOperation.moved true (u.AddOperation (some (v.AddOperation (some w)))) := by
    intro u v w
    rw [← moved_AddOperation, moved_moved, Operation.AddOperation_assoc]
  have hR : ∀ v w : Operation,
      ConcreteOperation.moved true (ConcreteOperation.moved true (v.AddOperation (some w))) =
        (ConcreteOperation.moved true v).AddOperation (some w) := by
    intro v w
    rw [moved_moved, moved_AddOperation]
  rw [hL, hR]

/-- **C9.** Composition is associative: for all operations `a`, `b`, `c`, valid or
not, handled or not, `(a | b) | c` and `a | (b | c)` give the same result, the
same pipeline or the same exception. For valid operands whose left one, when
handled, has a handler on every element of its chain, the chain of `x | y` is
the chain of `x` followed by the chain of `y`, and the chain of both groupings
of three operands is the three chains one after the other. -/
theorem compose_associative (a b c : Operation) :
    ((match compose a b with
      | .ok ab => compose ab c
      | .error e => .error e) =
    (match compose b c with
      | .ok bc => compose a bc
      | .error e => .error e)) ∧
    (∀ x y : Operation, x.valid = true → y.valid = true →
      (x.hasHndl = true → x.Handled = true) →
      ∃ r, compose x y = .ok r ∧ r.chain = x.links ++ y.links) ∧
    (a.valid = true → b.valid = true → c.valid = true →
      (a.hasHndl = true → a.Handled = true) → (b.hasHndl = true → b.Handled = true) →
      ∃ r, (match compose a b with
          | .ok ab => compose ab c
          | .error e => .error e) = .ok r ∧
        r.chain = a.links ++ b.links ++ c.links) := by
  refine ⟨?_, ?_, ?_⟩
  · cases ha : a.valid with
    | false =>
      rw [compose_error a b (Or.inl ha)]
      cases hbc : compose b c with
      | error e => rw [compose_error b c (by
          by_contra hcon
          simp only [not_or, Bool.not_eq_false] at hcon
          rw [compose_ok b c hcon.1 hcon.2] at hbc
          cases hbc)] at hbc; cases hbc; rfl
      | ok bc => exact (compose_error a bc (Or.inl ha)).symm
    | true =>
      cases hb : b.valid with
      | false => rw [compose_error a b (Or.inr hb), compose_error b c (Or.inl hb)]
      | true =>
        cases hc : c.valid with
        | false =>
          rw [compose_error b c (Or.inr hc), compose_ok a b ha hb]
          exact compose_error _ c (Or.inr hc)
        | true => exact compose_assoc_valid a b c ha hb hc
  · intro x y hx hy hw
    obtain ⟨r, h1, _, _, h2, _⟩ := compose_chain x y hx hy hw
    exact ⟨r, h1, h2⟩
  · intro ha hb hc hwa hwb
    obtain ⟨ab, h1, v1, hh1, c1, w1⟩ := compose_chain a b ha hb hwa
    obtain ⟨r, h2, _, _, c2, _⟩ := compose_chain ab c v1 hc (fun _ => w1 hwb)
    refine ⟨r, by rw [h1]; exact h2, ?_⟩
    rw [c2, Operation.links, hh1, if_pos rfl, c1]

/-- Witness of C9: both groupings of `Read | Write | Close` give the same chain
of three. -/
theorem compose_associative_witness :
    (match compose Sample.read Sample.write with
      | .ok ab => compose ab Sample.close
      | .error e => .error e) =
      .ok (Sample.handled ⟨"Read", [0, 16]⟩ none none
        (some (Sample.handled ⟨"Write", [0, 16]⟩ none none
          (some (Sample.handled ⟨"Close", []⟩ none none none))))) ∧
    (match compose Sample.write Sample.close with
      | .ok bc => compose Sample.read bc
      | .error e => .error e) =
      .ok (Sample.handled ⟨"Read", [0, 16]⟩ none none
        (some (Sample.handled ⟨"Write", [0, 16]⟩ none none
          (some (Sample.handled ⟨"Close", []⟩ none none none))))) :=
  ⟨rfl, (compose_associative Sample.read Sample.write Sample.close).1.symm.trans rfl⟩

/-! ## A pipeline whose calls all succeed -/

theorem chain_ne_nil (op : Operation) : op.chain ≠ [] := by
  cases op with
  | mk hh a r t h v => cases h <;> simp [Operation.chain]

theorem smoothRun_cons (w : World) (T p : Nat) (f : Option Nat) (n : Nat) (l : Link)
    (ls : List Link) (h : ls ≠ []) :
    smoothRun w T p f n (l :: ls) =
      [Event.RunImpl l.args T, Event.HandleResponse (w.response n)]
        ++ handlerCall l.responseHandler (w.response n)
        ++ smoothRun w T p f (n + 1) ls := by
  cases ls with
  | nil => exact absurd rfl h
  | cons l1 ls => rw [smoothRun]

theorem issued_handlerCall (rh : Option Nat) (st : XRootDStatus) :
    (handlerCall rh st).filterMap Event.issued = [] := by
  cases rh <;> rfl

theorem issued_callFinal (f : Option Nat) (st : XRootDStatus) :
    (callFinal f st).filterMap Event.issued = [] := by
  cases f <;> rfl

theorem issued_smoothRun (w : World) (T p : Nat) (f : Option Nat) :
    ∀ (ls : List Link) (n : Nat),
      (smoothRun w T p f n ls).filterMap Event.issued = ls.map (fun l => (l.args, T))
  | [], _ => rfl
  | [l], n => by
    simp [smoothRun, List.filterMap_append, issued_handlerCall, issued_callFinal,
      Event.issued]
  | l :: l1 :: ls, n => by
    rw [smoothRun_cons w T p f n l (l1 :: ls) (by simp)]
    simp [List.filterMap_append, issued_handlerCall, Event.issued,
      issued_smoothRun w T p f (l1 :: ls) (n + 1)]

theorem smoothRun_end (w : World) (T p : Nat) (f : Option Nat) :
    ∀ (ls : List Link) (n : Nat), ls ≠ [] →
      ∃ pre, smoothRun w T p f n ls =
          pre ++ callFinal f (w.response (n + (ls.length - 1)))
            ++ [Event.set_value p (w.response (n + (ls.length - 1)))] ∧
        quiet pre = true
  | [], _, h => absurd rfl h
  | [l], n, _ => ⟨_, rfl, by
      simp [quiet_append, quiet_cons, quiet_nil, quiet_handlerCall, Event.isSetValue,
        Event.isFinal]⟩
  | l :: l1 :: ls, n, _ => by
    obtain ⟨pre, e, q⟩ := smoothRun_end w T p f (l1 :: ls) (n + 1) (by simp)
    rw [smoothRun_cons w T p f n l (l1 :: ls) (by simp), e]
    refine ⟨[Event.RunImpl l.args T, Event.HandleResponse (w.response n)]
        ++ handlerCall l.responseHandler (w.response n) ++ pre, ?_, ?_⟩
    · have : n + 1 + ((l1 :: ls).length - 1) = n + ((l :: l1 :: ls).length - 1) := by
        simp only [List.length_cons]; omega
      rw [this]
      simp
    · simp [quiet_append, quiet_cons, quiet_nil, quiet_handlerCall, Event.isSetValue,
        Event.isFinal, q]

theorem delivered_of_accepted (w : World) (n : Nat) (opr : Operation) (T : Nat)
    (hrun : ∀ n a t T, ∃ s, w.RunImpl n a t T = RunImplResult.returned s ∧ s.IsOK = true) :
    delivered w n opr T = w.response n := by
  obtain ⟨s, h1, h2⟩ := hrun n opr.args opr.timeout T
  unfold delivered
  rw [h1]
  simp [h2]

/-- The run of a handled chain when every call is accepted and answered OK and no
user handler raises a signal. -/
theorem exec_smooth (w : World) (T p : Nat) (f : Option Nat)
    (hrun : ∀ n a t T, ∃ s, w.RunImpl n a t T = RunImplResult.returned s ∧ s.IsOK = true)
    (hresp : ∀ n, (w.response n).IsOK = true)
    (hsig : ∀ rh n s, w.userHandler rh n s = Signal.returned) :
    ∀ (k : Nat) (opr : Operation) (n fuel : Nat), opr.Handled = true →
      opr.chain.length = k → k ≤ fuel →
      exec w fuel n opr T p f = (smoothRun w T p f n opr.chain, Outcome.finished)
  | 0, opr, _, _, _, hk, _ => by
    exact absurd (List.length_eq_zero.mp hk) (chain_ne_nil opr)
  | k + 1, .mk hh a r t none v, _, _, hH, _, _ => by simp [Operation.Handled] at hH
  | k + 1, .mk hh a r t (some h) v, n, 0, _, _, hf => by omega
  | k + 1, .mk hh a r t (some h) v, n, fuel + 1, hH, hk, hf => by
    obtain ⟨a1, a2, a3, a4, a5, a6⟩ := Assign_fields h T p f
    have hd := delivered_of_accepted w n (.mk hh a r t (some h) v) T hrun
    have hs := submit_eq w n (.mk hh a r t (some h) v) h T p f rfl
    rw [hd, HandleResponseImpl_ok w n _ (h.Assign T p f) (w.response n)
      (fun rh _ => hsig rh n _) (hresp n), a1, a2, a4, a5, a6] at hs
    cases h with
    | mk rh nx t0 p0 f0 r0 =>
      cases nx with
      | none =>
        rw [exec_of_done w fuel n _ T p f _ hs]
        rfl
      | some nxt =>
        have hH1 : nxt.Handled = true := by
          simpa [Operation.Handled, PipelineHandler.Handled] using hH
        have hk1 : nxt.chain.length = k := by
          simpa [Operation.chain, PipelineHandler.chain] using hk
        rw [exec_of_run w fuel n _ T p f _ _ _ _ _ hs,
          exec_smooth w T p f hrun hresp hsig k nxt (n + 1) fuel hH1 hk1 (by omega)]
        have e : (Operation.mk hh a r t (some (PipelineHandler.mk rh (some nxt) t0 p0 f0 r0))
            v).chain = ⟨a, rh, r0⟩ :: nxt.chain := rfl
        rw [e, smoothRun_cons w T p f n _ _ (chain_ne_nil nxt)]
        rfl

theorem single_wellformed (o : Operation) (h : o.single) :
    o.valid = true ∧ (o.hasHndl = true → o.Handled = true) ∧
      o.links.map Link.args = [o.args] := by
  cases o with
  | mk hh a r t hd v =>
    obtain ⟨h1, h2⟩ := h
    cases hh with
    | false => exact ⟨h1, fun hc => Bool.noConfusion hc, rfl⟩
    | true =>
      obtain ⟨h0, e1, e2⟩ := h2 rfl
      simp only [Operation.handler] at e1
      subst e1
      cases h0 with
      | mk rh nx t0 p0 f0 r0 =>
        simp only [PipelineHandler.nextOperation] at e2
        subst e2
        exact ⟨h1, fun _ => rfl, rfl⟩

/-- The expression `op1 | ... | opn` over valid operands: a valid operation whose
chain consists of the chains of the operands, in order. -/
theorem pipeAll_chain : ∀ (rest : List Operation) (first : Operation),
    first.valid = true → (first.hasHndl = true → first.Handled = true) →
    (∀ o ∈ rest, o.valid = true ∧ (o.hasHndl = true → o.Handled = true)) →
    ∃ r, pipeAll first rest = .ok r ∧ r.valid = true ∧
      (r.hasHndl = true → r.Handled = true) ∧
      r.links = (first :: rest).flatMap Operation.links
  | [], first, hv, hw, _ => ⟨first, rfl, hv, hw, by simp [List.flatMap]⟩
  | o :: os, first, hv, hw, hr => by
    obtain ⟨ho1, ho2⟩ := hr o (List.mem_cons_self _ _)
    obtain ⟨r1, e1, v1, hh1, c1, w1⟩ := compose_chain first o hv ho1 hw
    obtain ⟨r, e2, v2, w2, c2⟩ := pipeAll_chain os r1 v1 (fun _ => w1 ho2)
      (fun x hx => hr x (List.mem_cons_of_mem _ hx))
    refine ⟨r, ?_, v2, w2, ?_⟩
    · rw [pipeAll]
      unfold compose at e1
      rw [e1]
      exact e2
    · rw [c2]
      simp only [List.flatMap_cons]
      rw [Operation.links, hh1, if_pos rfl, c1, List.append_assoc]

theorem Pipeline.create_ok (op : Operation) (hv : op.valid = true) :
    (Pipeline.create op).1 =
      .ok ⟨some (ConcreteOperation.moved true (ConcreteOperation.withHandler op)), none⟩ := by
  unfold Pipeline.create
  rw [right_eq_Derived]
  simp only [(Derived_valid true _ ((valid_withHandler op).trans hv)).1]

/-- **C6.** For every pipeline `op1 | ... | opn` (`n ≥ 1`) of single valid operands,
handled or not, run with pipeline timeout `T` in a world where `RunImpl` accepts
every call, every callback carries an OK status and no user handler raises a
signal: the composition and the construction of the pipeline succeed, and with
fuel for `n` submissions the run finishes. Its actions are, operand after
operand, the call, the callback and the user handler (if any), and after the
last callback the final callback (if set) and the promise. So the calls issued
are those of `op1 ... opn`, once each, in this order, each with timeout `T` and
each after the callback of the one before, and the promise is fulfilled with
the status of the callback of `opn`. -/
theorem ok_pipeline_runs_in_order (w : World) (first : Operation) (rest : List Operation)
    (T p : Nat) (f : Option Nat) (fuel : Nat)
    (hops : ∀ o ∈ first :: rest, o.single)
    (hrun : ∀ n a t T, ∃ s, w.RunImpl n a t T = RunImplResult.returned s ∧ s.IsOK = true)
    (hresp : ∀ n, (w.response n).IsOK = true)
    (hsig : ∀ rh n s, w.userHandler rh n s = Signal.returned)
    (hfuel : rest.length + 1 ≤ fuel) :
    ∃ (head : Operation) (pl pl1 : Pipeline) (opr : Operation),
      pipeAll first rest = .ok head ∧ (Pipeline.create head).1 = .ok pl ∧
      pl.Run T f p = .ok (pl1, Next.Run opr T p f) ∧
      exec w fuel 0 opr T p f =
        (smoothRun w T p f 0 ((first :: rest).flatMap Operation.links), Outcome.finished) ∧
      (exec w fuel 0 opr T p f).1.filterMap Event.issued =
        (first :: rest).map (fun o => (o.args, T)) ∧
      ∃ pre, (exec w fuel 0 opr T p f).1 =
          pre ++ callFinal f (w.response rest.length)
            ++ [Event.set_value p (w.response rest.length)] ∧
        quiet pre = true := by
  have hfirst := single_wellformed first (hops first (List.mem_cons_self _ _))
  obtain ⟨head, e1, v1, w1, c1⟩ := pipeAll_chain rest first hfirst.1 hfirst.2.1
    (fun o ho => ⟨(single_wellformed o (hops o (List.mem_cons_of_mem _ ho))).1,
      (single_wellformed o (hops o (List.mem_cons_of_mem _ ho))).2.1⟩)
  obtain ⟨r1, r2⟩ := right_operand head
  have hargs : ((first :: rest).flatMap Operation.links).map Link.args =
      (first :: rest).map Operation.args := by
    have : ∀ (l : List Operation), (∀ o ∈ l, o.single) →
        (l.flatMap Operation.links).map Link.args = l.map Operation.args := by
      intro l
      induction l with
      | nil => intro _; rfl
      | cons o os ih =>
        intro h
        rw [List.flatMap_cons, List.map_append,
          (single_wellformed o (h o (List.mem_cons_self _ _))).2.2,
          ih (fun x hx => h x (List.mem_cons_of_mem _ hx))]
        rfl
    exact this _ hops
  have hlen : ((first :: rest).flatMap Operation.links).length = rest.length + 1 := by
    have := congrArg List.length hargs
    simpa using this
  have hne : (first :: rest).flatMap Operation.links ≠ [] := by
    intro h
    rw [h] at hlen
    simp at hlen
  have hexec := exec_smooth w T p f hrun hresp hsig (rest.length + 1)
    (ConcreteOperation.moved true (ConcreteOperation.withHandler head)) 0 fuel (r2 w1)
    (by rw [r1, c1, hlen]) hfuel
  rw [r1, c1] at hexec
  refine ⟨head, _, ⟨none, some p⟩, _, e1, Pipeline.create_ok head v1, rfl, hexec, ?_, ?_⟩
  · rw [hexec, issued_smoothRun]
    have := congrArg (List.map (fun a => (a, T))) hargs
    simpa [List.map_map, Function.comp] using this
  · rw [hexec]
    obtain ⟨pre, e, q⟩ := smoothRun_end w T p f _ 0 hne
    rw [hlen] at e
    simp only [Nat.add_sub_cancel, Nat.zero_add] at e
    exact ⟨pre, e, q⟩

/-- Witness of C6: `Read >> handler | Write | Close` run through `Pipeline` with
every call succeeding. -/
theorem ok_pipeline_runs_in_order_witness :
    ∃ (head : Operation) (pl pl1 : Pipeline) (opr : Operation),
      pipeAll (Sample.handled ⟨"Read", [0, 16]⟩ (some 1) none none)
          [Sample.write, Sample.close] = .ok head ∧
      (Pipeline.create head).1 = .ok pl ∧
      pl.Run 30 (some 9) 5 = .ok (pl1, Next.Run opr 30 5 (some 9)) ∧
      exec Sample.calm 3 0 opr 30 5 (some 9) =
        ([Event.RunImpl ⟨"Read", [0, 16]⟩ 30, Event.HandleResponse Sample.ok,
          Event.userHandler 1 Sample.ok,
          Event.RunImpl ⟨"Write", [0, 16]⟩ 30, Event.HandleResponse Sample.ok,
          Event.RunImpl ⟨"Close", []⟩ 30, Event.HandleResponse Sample.ok,
          Event.final 9 Sample.ok, Event.set_value 5 Sample.ok], Outcome.finished) := by
  obtain ⟨head, pl, pl1, opr, h1, h2, h3, h4, _, _⟩ :=
    ok_pipeline_runs_in_order Sample.calm (Sample.handled ⟨"Read", [0, 16]⟩ (some 1) none none)
      [Sample.write, Sample.close] 30 5 (some 9) 3
      (by
        intro o ho
        simp only [List.mem_cons, List.mem_singleton, List.not_mem_nil, or_false] at ho
        rcases ho with rfl | rfl | rfl
        · exact ⟨rfl, fun _ => ⟨_, rfl, rfl⟩⟩
        · exact ⟨rfl, fun hc => Bool.noConfusion hc⟩
        · exact ⟨rfl, fun hc => Bool.noConfusion hc⟩)
      (fun _ _ _ _ => ⟨Sample.ok, rfl, rfl⟩) (fun _ => rfl) (fun _ _ _ => rfl) (by decide)
  exact ⟨head, pl, pl1, opr, h1, h2, h3, h4.trans rfl⟩

/-! ## Running a pipeline twice, and `Timeout` -/

/-- **C11: the code does not do what the claim says.** After `Async` the caller's
pipeline holds no operation and converts to false, and a first `Async` of a
fresh pipeline runs its operation. A second `Async` of the same pipeline throws
nothing: the pipeline moved into `Async` has a default constructed future, so
the test `ftr.valid()` of `Run` passes and `Run` is called through the null
`operation` pointer. Only a second `Run` on the very object that was run, whose
future is valid, throws `std::logic_error`. -/
theorem pipeline_rerun_dereferences_null (pl : Pipeline) (opr : Operation)
    (T p T1 p1 : Nat) (f f1 : Option Nat) :
    (Async pl T p).2.operation = none ∧ (Async pl T p).2.toBool = false ∧
    (Async ⟨some opr, none⟩ T p).1 = .ok (some p, Next.Run opr T p none) ∧
    (Async (Async pl T p).2 T1 p1).1 = .ok (some p1, Next.abort) ∧
    (∃ r, (Pipeline.mk (some opr) none).Run T f p = .ok r ∧ r.1.toBool = false ∧
      r.1.Run T1 f1 p1 = .error (.logic_error "Pipeline is already running")) := by
  cases pl with
  | mk o ft => cases o <;> exact ⟨rfl, rfl, rfl, rfl, _, rfl, rfl, rfl⟩

/-- **C12.** For every valid operation `op`, handled or not, and every 16-bit
value `t`, `op.Timeout( t )` returns an operation in the state of `op` whose
timeout is `t` and whose arguments, handler and recovery are those of `op`:
it is `op` with the timeout replaced. The result is valid and `op` is left
invalid. For an operation that was consumed before, `Timeout` throws
`std::invalid_argument`. -/
theorem Timeout_replaces_the_timeout (op : Operation) (t : Nat) :
    (op.valid = true → t < 2 ^ 16 →
      ∃ r, (ConcreteOperation.Timeout op t).1 = .ok r ∧ r = op.setTimeout t ∧
        r.timeout = t ∧ r.args = op.args ∧ r.handler = op.handler ∧
        r.recovery = op.recovery ∧ r.hasHndl = op.hasHndl ∧ r.valid = true ∧
        (ConcreteOperation.Timeout op t).2.valid = false) ∧
    (op.valid = false →
      (ConcreteOperation.Timeout op t).1 = .error invalidComposition) := by
  cases op with
  | mk hh a r t0 h v =>
    refine ⟨fun hv _ => ?_, fun hv => ?_⟩
    · simp only [Operation.valid] at hv
      subst hv
      exact ⟨_, rfl, rfl, rfl, rfl, rfl, rfl, rfl, rfl, rfl⟩
    · simp only [Operation.valid] at hv
      subst hv
      rfl

/-- Witness of C12: `Read.Timeout( 5 )` is `Read` with timeout 5, and so is
`( Read >> handler ).Timeout( 5 )` for the handled `Read`. -/
theorem Timeout_replaces_the_timeout_witness :
    (ConcreteOperation.Timeout Sample.read 5).1 =
        .ok (.mk false ⟨"Read", [0, 16]⟩ none 5 none true) ∧
      (∃ r, (ConcreteOperation.Timeout
            (Sample.handled ⟨"Read", [0, 16]⟩ (some 1) (some Sample.reopen) none) 5).1 = .ok r ∧
        r = (Sample.handled ⟨"Read", [0, 16]⟩ (some 1) (some Sample.reopen) none).setTimeout 5 ∧
        r.timeout = 5 ∧
        r.args = (Sample.handled ⟨"Read", [0, 16]⟩ (some 1) (some Sample.reopen) none).args ∧
        r.handler =
          (Sample.handled ⟨"Read", [0, 16]⟩ (some 1) (some Sample.reopen) none).handler ∧
        r.recovery =
          (Sample.handled ⟨"Read", [0, 16]⟩ (some 1) (some Sample.reopen) none).recovery ∧
        r.hasHndl =
          (Sample.handled ⟨"Read", [0, 16]⟩ (some 1) (some Sample.reopen) none).hasHndl ∧
        r.valid = true ∧
        (ConcreteOperation.Timeout
          (Sample.handled ⟨"Read", [0, 16]⟩ (some 1) (some Sample.reopen) none) 5).2.valid =
            false) :=
  ⟨rfl, (Timeout_replaces_the_timeout
    (Sample.handled ⟨"Read", [0, 16]⟩ (some 1) (some Sample.reopen) none) 5).1 rfl (by decide)⟩

/-! ## `Recovery` on a handled operation -/

/-- The callback of a handler reads the `recovery` member of its operation only to
hand it back to `Run` when the user handler asks for a repetition. -/
theorem HandleResponseImpl_setRecovery (w : World) (n : Nat) (cur : Operation)
    (f : Option rcvry_func) (h : PipelineHandler) (st : XRootDStatus) :
    h.HandleResponseImpl w n (cur.setRecovery f) st = h.HandleResponseImpl w n cur st ∨
      ∃ e x T p fin,
        h.HandleResponseImpl w n (cur.setRecovery f) st =
          (e, Next.Run (x.setRecovery f) T p fin) ∧
        h.HandleResponseImpl w n cur st = (e, Next.Run x T p fin) := by
  cases h with
  | mk rh nx t p fin rc =>
    cases rh with
    | none => exact Or.inl rfl
    | some rh =>
      cases hs : w.userHandler rh n st with
      | returned => left; simp only [PipelineHandler.HandleResponseImpl, hs]
      | StopPipeline s => left; simp only [PipelineHandler.HandleResponseImpl, hs]
      | other => left; simp only [PipelineHandler.HandleResponseImpl, hs]
      | RepeatOpeation =>
        right
        refine ⟨[Event.HandleResponse st] ++ [Event.userHandler rh st],
          cur.setHandler (some (.mk (some rh) nx t p fin rc)), t, p, fin, ?_, ?_⟩
        · simp only [PipelineHandler.HandleResponseImpl, hs]
          cases cur; rfl
        · simp only [PipelineHandler.HandleResponseImpl, hs]

theorem submit_setRecovery (w : World) (n : Nat) (op : Operation) (f : Option rcvry_func)
    (T p : Nat) (fin : Option Nat) :
    submit w n (op.setRecovery f) T p fin = submit w n op T p fin ∨
      ∃ e x T1 p1 fin1,
        submit w n (op.setRecovery f) T p fin = (e, Next.Run (x.setRecovery f) T1 p1 fin1) ∧
        submit w n op T p fin = (e, Next.Run x T1 p1 fin1) := by
  cases op with
  | mk hh a r t h v =>
    cases h with
    | none => exact Or.inl rfl
    | some h =>
      rw [submit_eq w n (.mk hh a r t (some h) v) h T p fin rfl,
        submit_eq w n ((Operation.mk hh a r t (some h) v).setRecovery f) h T p fin rfl]
      have hd : delivered w n ((Operation.mk hh a r t (some h) v).setRecovery f) T =
          delivered w n (.mk hh a r t (some h) v) T := rfl
      have hc : ((Operation.mk hh a r t (some h) v).setRecovery f).setHandler none =
          ((Operation.mk hh a r t (some h) v).setHandler none).setRecovery f := rfl
      rw [hd, hc]
      rcases HandleResponseImpl_setRecovery w n
          ((Operation.mk hh a r t (some h) v).setHandler none) f (h.Assign T p fin)
          (delivered w n (.mk hh a r t (some h) v) T) with h1 | ⟨e, x, T1, p1, fin1, h1, h2⟩
      · left
        rw [h1]
        rfl
      · right
        refine ⟨Event.RunImpl a T :: e, x, T1, p1, fin1, ?_, ?_⟩
        · rw [h1]
          rfl
        · rw [h2]
          rfl

/-- The run of an operation does not read its member `recovery`: the recovery
function that is invoked on a failure is the one of the handler. -/
theorem exec_setRecovery (w : World) (f : Option rcvry_func) :
    ∀ (fuel n : Nat) (op : Operation) (T p : Nat) (fin : Option Nat),
      exec w fuel n (op.setRecovery f) T p fin = exec w fuel n op T p fin
  | 0, _, _, _, _, _ => rfl
  | fuel + 1, n, op, T, p, fin => by
    rcases submit_setRecovery w n op f T p fin with h | ⟨e, x, T1, p1, fin1, h1, h2⟩
    · simp only [exec, h]
    · simp only [exec, h1, h2]
      rw [exec_setRecovery w f fuel (n + 1) x T1 p1 fin1]

/-- **C13: the code does not do what the claim says for a handled operation.**
`Recovery( f )` stores `f` in the member `recovery` of the operation and returns
a move of it in its own state, which keeps the member, the timeout and the
handler. For an operation without handler the claim holds: the handler that
`>>` builds afterwards takes `f` over, and `Open.Recovery( f ) >> handler`, run
with a failing `Open`, invokes `f` with the failure and goes on with the
operations `f` returns. For a handled operation the handler exists already and
holds the recovery function it was built with, and nothing hands the member
over to it: whatever `f` is, the pipeline built from `op.Recovery( f )` holds an
operation with the handler of `op`, and its run is the run of `op`. So
`( Open >> handler ).Recovery( f )`, run with a failing `Open`, ends with the
failure and never invokes `f`. -/
theorem Recovery_on_handled_operation_is_ignored (w : World) (hh : Bool) (a : OpArgs)
    (r f : Option rcvry_func) (t : Nat) (h : Option PipelineHandler) (rh : Option Nat)
    (fuel n T p : Nat) (fin : Option Nat) :
    (ConcreteOperation.Recovery (.mk hh a r t h true) f).1 = .ok (.mk hh a f t h true) ∧
    (do
      let b ← (ConcreteOperation.Recovery (.mk false a r t h true) f).1
      (ConcreteOperation.StreamImpl b rh).1) =
      .ok (.mk true a none 0 (some (PipelineHandler.create rh f)) true) ∧
    (do
      let b ← (ConcreteOperation.Recovery (.mk true a r t h true) f).1
      (Pipeline.create b).1) = .ok ⟨some (.mk true a f t h true), none⟩ ∧
    exec w fuel n (.mk true a f t h true) T p fin =
      exec w fuel n (.mk true a r t h true) T p fin ∧
    (do
      let b ← (ConcreteOperation.Recovery Sample.openBad (some Sample.reopen)).1
      let c ← (ConcreteOperation.StreamImpl b (some 1)).1
      pure (exec Sample.failing 3 0 c 30 5 (some 9))) =
      .ok ([Event.RunImpl ⟨"Open", [0]⟩ 30, Event.HandleResponse Sample.failed,
          Event.userHandler 1 Sample.failed, Event.recovery Sample.failed,
          Event.RunImpl ⟨"Open", [1]⟩ 30, Event.HandleResponse Sample.ok,
          Event.RunImpl ⟨"Stat", []⟩ 30, Event.HandleResponse Sample.ok,
          Event.final 9 Sample.ok, Event.set_value 5 Sample.ok], Outcome.finished) ∧
    (do
      let b ← (ConcreteOperation.StreamImpl Sample.openBad (some 1)).1
      let c ← (ConcreteOperation.Recovery b (some Sample.reopen)).1
      pure (exec Sample.failing 3 0 c 30 5 (some 9))) =
      .ok ([Event.RunImpl ⟨"Open", [0]⟩ 30, Event.HandleResponse Sample.failed,
          Event.userHandler 1 Sample.failed, Event.final 9 Sample.failed,
          Event.set_value 5 Sample.failed], Outcome.finished) := by
  cases hh <;>
    exact ⟨rfl, rfl, rfl, exec_setRecovery w f fuel n (.mk true a r t h true) T p fin, rfl, rfl⟩

/-! ## Conversion of numbers -/

theorem strtoull_lt (name str : String) (v : Nat) (h : strtoull name str = .ok v) :
    v < 2 ^ 64 := by
  unfold strtoull at h
  simp only at h
  split at h
  · cases h
  · split at h
    · cases h
    · rename_i h1 h2
      injection h with h
      subst h
      split
      · exact Nat.mod_lt _ (by decide)
      · omega

theorem strtoull_error (name str : String) (e : Exception) (h : strtoull name str = .error e) :
    e = .invalid_argument name ∨ e = .out_of_range name := by
  unfold strtoull at h
  simp only at h
  split at h
  · injection h with h; exact Or.inl h.symm
  · split at h
    · injection h with h; exact Or.inr h.symm
    · cases h

theorem isDigit_not_space (c : Char) (h : c.isDigit = true) :
    isspace c = false ∧ c ≠ '-' ∧ c ≠ '+' := by
  refine ⟨?_, ?_, ?_⟩
  · cases hs : isspace c with
    | false => rfl
    | true =>
      simp only [isspace, Bool.or_eq_true, decide_eq_true_eq] at hs
      rcases hs with ((((hs | hs) | hs) | hs) | hs) | hs <;> subst hs <;> revert h <;> decide
  · intro hc; subst hc; revert h; decide
  · intro hc; subst hc; revert h; decide

/-- A decimal numeral below `2 ^ 64` is converted to its value. -/
theorem strtoull_decimal (name token : String) (bound v : Nat) (h : decimal token bound v)
    (hb : bound ≤ 2 ^ 64) : strtoull name token = .ok v := by
  obtain ⟨hne, hall, hval, hlt⟩ := h
  unfold strtoull
  cases hl : token.toList with
  | nil => exact absurd hl hne
  | cons c cs =>
    rw [hl] at hall hval
    obtain ⟨h1, h2, h3⟩ := isDigit_not_space c (hall c (List.mem_cons_self _ _))
    have hd : (c :: cs).dropWhile isspace = c :: cs := by
      simp [List.dropWhile, h1]
    have ht : (c :: cs).takeWhile Char.isDigit = c :: cs :=
      List.takeWhile_eq_self_iff.mpr hall
    simp only [hd]
    have hm : (match c :: cs with
        | '-' :: r => (true, r)
        | '+' :: r => (false, r)
        | r => (false, r)) = ((false, c :: cs) : Bool × List Char) := by
      split
      · rename_i r heq
        injection heq with heq _
        exact absurd heq h2
      · rename_i r heq
        injection heq with heq _
        exact absurd heq h3
      · rfl
    rw [hm]
    simp only [ht, hval]
    have hv : v < 18446744073709551616 := by
      have : (2 : Nat) ^ 64 = 18446744073709551616 := by norm_num
      omega
    simp [hv]

/-! ## The lines of a trace -/

theorem fields_seven (t0 t1 t2 t3 t4 t5 t6 : String) :
    ParseInput.fields [t0, t1, t2, t3, t4, t5, t6] =
      (match stoull t0 with
        | .error e => .error e
        | .ok id =>
          match stoull t2 with
          | .error e => .error e
          | .ok start =>
            match stoull t4 with
            | .error e => .error e
            | .ok stop => .ok ⟨id, t1, start, t3, stop, t5, t6⟩) := by
  simp only [ParseInput.fields, bind, Except.bind, pure, Except.pure]
  cases stoull t0 <;> cases stoull t2 <;> cases stoull t4 <;> rfl

theorem fields_wrong_count (l : List String) (h : l.length ≠ 7) :
    ParseInput.fields l = .error (.invalid_argument "Invalid input file format.") := by
  unfold ParseInput.fields
  split
  · simp at h
  · rfl

/-- The tokens a line is accepted with, and the local variables they give. -/
theorem fields_ok (l : List String) (row : Row) :
    ParseInput.fields l = .ok row ↔
      ∃ t0 t2 t4, l = [t0, row.action, t2, row.args, t4, row.status, row.resp] ∧
        stoull t0 = .ok row.id ∧ stoull t2 = .ok row.start ∧ stoull t4 = .ok row.stop := by
  constructor
  · intro h
    by_cases hl : l.length = 7
    · match l, hl with
      | [t0, t1, t2, t3, t4, t5, t6], _ =>
        rw [fields_seven] at h
        cases h0 : stoull t0 with
        | error e => rw [h0] at h; cases h
        | ok id =>
          cases h2 : stoull t2 with
          | error e => rw [h0, h2] at h; cases h
          | ok start =>
            cases h4 : stoull t4 with
            | error e => rw [h0, h2, h4] at h; cases h
            | ok stop =>
              rw [h0, h2, h4] at h
              injection h with h
              subst h
              exact ⟨t0, t2, t4, rfl, h0, h2, h4⟩
    · rw [fields_wrong_count l hl] at h
      cases h
  · rintro ⟨t0, t2, t4, rfl, h0, h2, h4⟩
    rw [fields_seven, h0, h2, h4]

theorem tokens_length (line : String) :
    (ParseInput.tokens line).length = 7 ↔
      (Utils.splitString line ',').length = 6 ∨ (Utils.splitString line ',').length = 7 := by
  unfold ParseInput.tokens
  split
  · rename_i h
    simp [h]
  · rename_i h
    simp [h]

theorem isOk_iff {α : Type} (x : Except Exception α) : x.isOk = true ↔ ∃ v, x = .ok v := by
  cases x <;> simp [Except.isOk, Except.toBool]

/-- **C14, as stated, fails.** The line `x,Open,1,a,2,s` splits into six fields,
and `ParseInput` rejects it: the file id has no digit and `std::stoull` throws
`std::invalid_argument`. -/
theorem six_fields_are_not_enough :
    (Utils.splitString "x,Open,1,a,2,s" ',').length = 6 ∧
      ParseInput.line "x,Open,1,a,2,s" = .error (.invalid_argument "stoull") ∧
      (ParseInput ["x,Open,1,a,2,s"] ActionStatistics.empty).1 =
        .error (.invalid_argument "stoull") :=
  ⟨rfl, rfl, rfl⟩

/-- **C14, amended.** With six fields the tokens of a line are the fields and an
empty seventh, the response; otherwise they are the fields. A line with a
number of fields other than 6 or 7 is rejected with `std::invalid_argument`. A
line with 6 or 7 fields is accepted if and only if `std::stoull` converts its
first, third and fifth token (file id, start, stop); the local variables of an
accepted line are, in the order of the tokens, file id, action, start,
arguments, stop, status and response. -/
theorem line_accepted_iff (line : String) :
    ((Utils.splitString line ',').length = 6 →
      ParseInput.tokens line = Utils.splitString line ',' ++ [""]) ∧
    ((Utils.splitString line ',').length ≠ 6 →
      ParseInput.tokens line = Utils.splitString line ',') ∧
    ((Utils.splitString line ',').length ≠ 6 → (Utils.splitString line ',').length ≠ 7 →
      ParseInput.line line = .error (.invalid_argument "Invalid input file format.")) ∧
    ((Utils.splitString line ',').length = 6 ∨ (Utils.splitString line ',').length = 7 →
      ((∃ row, ParseInput.line line = .ok row) ↔
        (stoull ((ParseInput.tokens line).getD 0 "")).isOk = true ∧
        (stoull ((ParseInput.tokens line).getD 2 "")).isOk = true ∧
        (stoull ((ParseInput.tokens line).getD 4 "")).isOk = true)) ∧
    (∀ row, ParseInput.line line = .ok row →
      ∃ t0 t2 t4,
        ParseInput.tokens line = [t0, row.action, t2, row.args, t4, row.status, row.resp] ∧
        stoull t0 = .ok row.id ∧ stoull t2 = .ok row.start ∧ stoull t4 = .ok row.stop) := by
  refine ⟨?_, ?_, ?_, ?_, ?_⟩
  · intro h
    simp [ParseInput.tokens, h]
  · intro h
    simp [ParseInput.tokens, h]
  · intro h6 h7
    apply fields_wrong_count
    intro h
    rcases (tokens_length line).mp h with h | h
    · exact h6 h
    · exact h7 h
  · intro h
    have hl := (tokens_length line).mpr h
    unfold ParseInput.line
    generalize ParseInput.tokens line = l at hl
    match l, hl with
    | [t0, t1, t2, t3, t4, t5, t6], _ =>
      simp only [List.getD_cons_zero, List.getD_cons_succ, isOk_iff]
      constructor
      · rintro ⟨row, hr⟩
        obtain ⟨s0, s2, s4, e, h0, h2, h4⟩ := (fields_ok _ row).mp hr
        injection e with e0 e
        injection e with _ e
        injection e with e2 e
        injection e with _ e
        injection e with e4 e
        subst e0 e2 e4
        exact ⟨⟨_, h0⟩, ⟨_, h2⟩, ⟨_, h4⟩⟩
      · rintro ⟨⟨id, h0⟩, ⟨start, h2⟩, ⟨stop, h4⟩⟩
        exact ⟨⟨id, t1, start, t3, stop, t5, t6⟩,
          (fields_ok _ _).mpr ⟨t0, t2, t4, rfl, h0, h2, h4⟩⟩
  · intro row h
    exact (fields_ok _ row).mp h

/-- Witness of C14 as amended: the first line of scenario S1 has six fields and is
accepted with an empty response. -/
theorem line_accepted_iff_witness :
    (Utils.splitString "1,Open,100,srv://h/a;0;0;10,100,\"[SUCCESS] \"," ',').length = 6 ∧
      ParseInput.tokens "1,Open,100,srv://h/a;0;0;10,100,\"[SUCCESS] \"," =
        ["1", "Open", "100", "srv://h/a;0;0;10", "100", "\"[SUCCESS] \"", ""] ∧
      ParseInput.line "1,Open,100,srv://h/a;0;0;10,100,\"[SUCCESS] \"," =
        .ok ⟨1, "Open", 100, "srv://h/a;0;0;10", 100, "\"[SUCCESS] \"", ""⟩ :=
  ⟨rfl, (line_accepted_iff "1,Open,100,srv://h/a;0;0;10,100,\"[SUCCESS] \",").1 rfl, rfl⟩

/-! ## The loop of `ParseInput` -/

/-- When every line is accepted, `ParseInput` stores the rows one after the other
and updates the registry with each. -/
theorem loop_of_rows : ∀ (lines : List String) (rows : List Row) (stats : ActionStatistics)
    (result : List (Nat × action_list)), ParseInput.rows lines = .ok rows →
    ParseInput.loop lines stats result =
      (.ok (rows.foldl ParseInput.store result),
        rows.foldl (fun st r => st.UpdateOrg r.action r.duration) stats)
  | [], rows, stats, result, h => by
    injection h with h
    subst h
    rfl
  | line :: rest, rows, stats, result, h => by
    rw [ParseInput.rows] at h
    rw [ParseInput.loop]
    by_cases he : line.isEmpty = true
    · rw [if_pos he] at h ⊢
      exact loop_of_rows rest rows stats result h
    · rw [if_neg he] at h ⊢
      cases hl : ParseInput.line line with
      | error e => rw [hl] at h; cases h
      | ok row =>
        rw [hl] at h
        simp only at h ⊢
        cases hr : ParseInput.rows rest with
        | error e => rw [hr] at h; cases h
        | ok rs =>
          rw [hr] at h
          injection h with h
          subst h
          rw [loop_of_rows rest rs _ _ hr]
          rfl

/-- When a line is rejected, `ParseInput` ends with its exception. -/
theorem loop_of_error : ∀ (lines : List String) (e : Exception) (stats : ActionStatistics)
    (result : List (Nat × action_list)), ParseInput.rows lines = .error e →
    (ParseInput.loop lines stats result).1 = .error e
  | [], _, _, _, h => by cases h
  | line :: rest, e, stats, result, h => by
    rw [ParseInput.rows] at h
    rw [ParseInput.loop]
    by_cases he : line.isEmpty = true
    · rw [if_pos he] at h ⊢
      exact loop_of_error rest e stats result h
    · rw [if_neg he] at h ⊢
      cases hl : ParseInput.line line with
      | error e1 =>
        rw [hl] at h
        injection h with h
        subst h
        rfl
      | ok row =>
        rw [hl] at h
        simp only at h ⊢
        cases hr : ParseInput.rows rest with
        | error e1 =>
          rw [hr] at h
          injection h with h
          subst h
          exact loop_of_error rest e1 _ _ hr
        | ok rs => rw [hr] at h; cases h

theorem rows_bounds : ∀ (lines : List String) (rows : List Row),
    ParseInput.rows lines = .ok rows →
    ∀ r ∈ rows, r.id < 2 ^ 64 ∧ r.start < 2 ^ 64 ∧ r.stop < 2 ^ 64
  | [], rows, h => by
    injection h with h
    subst h
    intro r hr
    cases hr
  | line :: rest, rows, h => by
    rw [ParseInput.rows] at h
    by_cases he : line.isEmpty = true
    · rw [if_pos he] at h
      exact rows_bounds rest rows h
    · rw [if_neg he] at h
      cases hl : ParseInput.line line with
      | error e => rw [hl] at h; cases h
      | ok row =>
        rw [hl] at h
        simp only at h
        cases hr : ParseInput.rows rest with
        | error e => rw [hr] at h; cases h
        | ok rs =>
          rw [hr] at h
          injection h with h
          subst h
          intro r hmem
          rcases List.mem_cons.mp hmem with rfl | hmem
          · obtain ⟨t0, t2, t4, _, h0, h2, h4⟩ := (fields_ok _ r).mp hl
            exact ⟨strtoull_lt _ _ _ h0, strtoull_lt _ _ _ h2, strtoull_lt _ _ _ h4⟩
          · exact rows_bounds rest rs hr r hmem

/-! ## The registry of original durations -/

theorem bump_apply (map : String → Option (Nat × Nat)) (action : String) (duration : Nat)
    (a : String) :
    ActionStatistics.bump map action duration a =
      if a = action then
        some ((((map action).getD (0, 0)).1 + duration) % 2 ^ 64,
          (((map action).getD (0, 0)).2 + 1) % 2 ^ 64)
      else map a := by
  unfold ActionStatistics.bump
  by_cases h : a = action
  · subst h; simp
  · simp [h]

theorem actstats_fold (rows : List Row) : ∀ (stats : ActionStatistics),
    (rows.foldl (fun st r => st.UpdateOrg r.action r.duration) stats).actstats =
      stats.actstats := by
  induction rows with
  | nil => intro stats; rfl
  | cons r rs ih =>
    intro stats
    rw [List.foldl_cons, ih]
    rfl

/-- The registry after a sequence of updates, for one action name. -/
theorem orgstats_fold (a : String) (rows : List Row) : ∀ (stats : ActionStatistics),
    (rows.foldl (fun st r => st.UpdateOrg r.action r.duration) stats).orgstats a =
      if (rows.filter (fun r => r.action = a)).isEmpty then stats.orgstats a
      else
        some ((((stats.orgstats a).getD (0, 0)).1
            + ((rows.filter (fun r => r.action = a)).map Row.duration).sum) % 2 ^ 64,
          (((stats.orgstats a).getD (0, 0)).2
            + (rows.filter (fun r => r.action = a)).length) % 2 ^ 64) := by
  induction rows with
  | nil => intro stats; rfl
  | cons r rs ih =>
    intro stats
    rw [List.foldl_cons, ih]
    by_cases hr : r.action = a
    · have hf : (r :: rs).filter (fun r => r.action = a) =
          r :: rs.filter (fun r => r.action = a) := by
        simp [List.filter_cons, hr]
      have hu : (stats.UpdateOrg r.action r.duration).orgstats a =
          some ((((stats.orgstats a).getD (0, 0)).1 + r.duration) % 2 ^ 64,
            (((stats.orgstats a).getD (0, 0)).2 + 1) % 2 ^ 64) := by
        show ActionStatistics.bump stats.orgstats r.action r.duration a = _
        rw [bump_apply, if_pos hr.symm, hr]
      rw [hf, hu]
      simp only [List.map_cons, List.sum_cons, List.length_cons, Option.getD_some,
        List.isEmpty_cons]
      cases hrs : rs.filter (fun r => decide (r.action = a)) with
      | nil => simp
      | cons x xs =>
        simp only [List.isEmpty_cons, Bool.false_eq_true, if_false, List.map_cons,
          List.sum_cons, List.length_cons]
        congr 1
        rw [Prod.mk.injEq]
        constructor
        · rw [Nat.mod_add_mod, Nat.add_assoc]
        · rw [Nat.mod_add_mod]
          congr 1
          omega
    · have hf : (r :: rs).filter (fun r => r.action = a) =
          rs.filter (fun r => r.action = a) := by
        simp [List.filter_cons, hr]
      have hu : (stats.UpdateOrg r.action r.duration).orgstats a = stats.orgstats a := by
        show ActionStatistics.bump stats.orgstats r.action r.duration a = _
        rw [bump_apply, if_neg (fun h => hr h.symm)]
      rw [hf, hu]

theorem loop_actstats : ∀ (lines : List String) (stats : ActionStatistics)
    (result : List (Nat × action_list)),
    (ParseInput.loop lines stats result).2.actstats = stats.actstats
  | [], _, _ => rfl
  | line :: rest, stats, result => by
    rw [ParseInput.loop]
    split
    · exact loop_actstats rest stats result
    · split
      · rfl
      · rw [loop_actstats rest _ _]
        rfl

theorem duration_eq (r : Row) (h1 : r.start ≤ r.stop) (h2 : r.stop < 2 ^ 64) :
    r.duration = r.stop - r.start := by
  unfold Row.duration
  have e : r.stop + 2 ^ 64 - r.start = (r.stop - r.start) + 2 ^ 64 := by omega
  rw [e, Nat.add_mod_right, Nat.mod_eq_of_lt (by omega)]

/-- **C15, as stated, fails.** Two `Read` rows that start at 0 and stop at
`2 ^ 63` are accepted; the sum of `stop - start` over them is `2 ^ 64`, and the
registry holds the pair `(0, 2)`: the cumulated duration is a 64-bit number. -/
theorem duration_sum_wraps :
    ParseInput.rows Sample.longReads =
        .ok [⟨1, "Read", 0, "0;16;10", 9223372036854775808, "ok", ""⟩,
          ⟨1, "Read", 0, "0;16;10", 9223372036854775808, "ok", ""⟩] ∧
      (ParseInput Sample.longReads ActionStatistics.empty).2.orgstats "Read" = some (0, 2) ∧
      (9223372036854775808 - 0) + (9223372036854775808 - 0) = 2 ^ 64 :=
  ⟨rfl, rfl, by norm_num⟩

/-- **C15, amended.** After `ParseInput` of a trace whose lines are all accepted,
with `start ≤ stop` on every row and the registry empty before, the map of
original durations has, for every action name that occurs, the pair of the sum
of `stop - start` over the rows with that name, modulo `2 ^ 64`, and the number
of such rows, modulo `2 ^ 64`, and has no entry for the other names. Parsing
leaves the map of replayed durations as it was, whatever the trace. For the
trace of scenario S1 the entries are `Open: (0, 1)` and `Close: (0, 1)`. -/
theorem orgstats_after_ParseInput (lines : List String) (rows : List Row) (a : String)
    (h : ParseInput.rows lines = .ok rows) (hle : ∀ r ∈ rows, r.start ≤ r.stop) :
    (ParseInput lines ActionStatistics.empty).2.orgstats a =
        (if (rows.filter (fun r => r.action = a)).isEmpty then none
          else
            some ((((rows.filter (fun r => r.action = a)).map
                (fun r => r.stop - r.start)).sum) % 2 ^ 64,
              (rows.filter (fun r => r.action = a)).length % 2 ^ 64)) ∧
      (∀ (input : List String) (stats : ActionStatistics),
        (ParseInput input stats).2.actstats = stats.actstats) ∧
      (ParseInput Sample.s1 ActionStatistics.empty).2.orgstats "Open" = some (0, 1) ∧
      (ParseInput Sample.s1 ActionStatistics.empty).2.orgstats "Close" = some (0, 1) := by
  refine ⟨?_, fun input stats => loop_actstats input stats [], rfl, rfl⟩
  unfold ParseInput
  rw [loop_of_rows lines rows _ _ h]
  simp only
  rw [orgstats_fold]
  have hb := rows_bounds lines rows h
  have hm : (rows.filter (fun r => r.action = a)).map Row.duration =
      (rows.filter (fun r => r.action = a)).map (fun r => r.stop - r.start) := by
    apply List.map_congr_left
    intro r hr
    have hr1 := (List.mem_filter.mp hr).1
    exact duration_eq r (hle r hr1) (hb r hr1).2.2
  rw [hm]
  simp [ActionStatistics.empty]

/-- Witness of C15 as amended: the trace of scenario S1. -/
theorem orgstats_after_ParseInput_witness :
    ParseInput.rows Sample.s1 =
        .ok [⟨1, "Open", 100, "srv://h/a;0;0;10", 100, "\"[SUCCESS] \"", ""⟩,
          ⟨1, "Close", 101, "10", 101, "\"[SUCCESS] \"", ""⟩] ∧
      (ParseInput Sample.s1 ActionStatistics.empty).2.orgstats "Open" = some (0, 1) ∧
      (ParseInput Sample.s1 ActionStatistics.empty).2.orgstats "Read" = none :=
  ⟨rfl, (orgstats_after_ParseInput Sample.s1 _ "Open" rfl (by
      intro r hr
      simp only [List.mem_cons, List.mem_singleton, List.not_mem_nil, or_false] at hr
      rcases hr with rfl | rfl <;> decide)).2.2.1,
    ((orgstats_after_ParseInput Sample.s1 _ "Read" rfl (by
      intro r hr
      simp only [List.mem_cons, List.mem_singleton, List.not_mem_nil, or_false] at hr
      rcases hr with rfl | rfl <;> decide)).1).trans rfl⟩

/-! ## The streams of the files -/

theorem emplace_perm (l : action_list) (k : Nat) (a : ActionExecutor) :
    (emplace l k a).Perm ((k, a) :: l) := by
  induction l with
  | nil => exact List.Perm.refl _
  | cons x r ih =>
    obtain ⟨k1, b⟩ := x
    rw [emplace]
    split
    · exact List.Perm.refl _
    · exact (List.Perm.cons _ ih).trans (List.Perm.swap _ _ _)

theorem emplace_sorted (l : action_list) (k : Nat) (a : ActionExecutor)
    (h : l.Sorted (fun x y => x.1 ≤ y.1)) :
    (emplace l k a).Sorted (fun x y => x.1 ≤ y.1) := by
  induction l with
  | nil => simp [emplace]
  | cons x r ih =>
    obtain ⟨k1, b⟩ := x
    have h1 := List.pairwise_cons.mp h
    rw [emplace]
    split
    · rename_i hk
      refine List.pairwise_cons.mpr ⟨?_, h⟩
      intro y hy
      rcases List.mem_cons.mp hy with rfl | hy
      · exact Nat.le_of_lt hk
      · exact Nat.le_trans (Nat.le_of_lt hk) (h1.1 y hy)
    · rename_i hk
      refine List.pairwise_cons.mpr ⟨?_, ih h1.2⟩
      intro y hy
      rcases List.mem_cons.mp ((emplace_perm r k a).mem_iff.mp hy) with rfl | hy
      · exact Nat.le_of_not_lt hk
      · exact h1.1 y hy

theorem emplace_filter (l : action_list) (k : Nat) (a : ActionExecutor) (s : Nat)
    (h : l.Sorted (fun x y => x.1 ≤ y.1)) :
    (emplace l k a).filter (fun e => e.1 = s) =
      l.filter (fun e => e.1 = s) ++ (if k = s then [(k, a)] else []) := by
  induction l with
  | nil =>
    by_cases hk : k = s <;> simp [emplace, hk]
  | cons x r ih =>
    obtain ⟨k1, b⟩ := x
    have h1 := List.pairwise_cons.mp h
    rw [emplace]
    split
    · rename_i hk
      by_cases hs : k = s
      · subst hs
        have hnone : ((k1, b) :: r).filter (fun e => e.1 = k) = [] := by
          rw [List.filter_eq_nil_iff]
          intro y hy
          have : k1 ≤ y.1 := by
            rcases List.mem_cons.mp hy with rfl | hy
            · exact Nat.le_refl _
            · exact h1.1 y hy
          simp only [decide_eq_true_eq]
          omega
        rw [List.filter_cons, hnone]
        simp
      · rw [List.filter_cons]
        simp [hs]
    · rw [List.filter_cons, ih h1.2, List.filter_cons]
      split <;> simp

/-- The stream built from a list of rows, starting from a stream. -/
theorem build_props (rs : List Row) : ∀ (l0 : action_list),
    l0.Sorted (fun x y => x.1 ≤ y.1) →
    (rs.foldl (fun l r => emplace l r.entry.1 r.entry.2) l0).Sorted (fun x y => x.1 ≤ y.1) ∧
    (rs.foldl (fun l r => emplace l r.entry.1 r.entry.2) l0).Perm (l0 ++ rs.map Row.entry) ∧
    ∀ s, (rs.foldl (fun l r => emplace l r.entry.1 r.entry.2) l0).filter (fun e => e.1 = s) =
      l0.filter (fun e => e.1 = s) ++ (rs.filter (fun r => r.start = s)).map Row.entry := by
  induction rs with
  | nil =>
    intro l0 h
    exact ⟨h, by simp, by simp⟩
  | cons r rs ih =>
    intro l0 h
    obtain ⟨i1, i2, i3⟩ := ih (emplace l0 r.entry.1 r.entry.2) (emplace_sorted _ _ _ h)
    refine ⟨i1, ?_, ?_⟩
    · refine i2.trans ?_
      have := (emplace_perm l0 r.entry.1 r.entry.2).append_right (rs.map Row.entry)
      refine this.trans ?_
      simp only [List.map_cons, List.cons_append]
      exact List.perm_middle.symm
    · intro s
      rw [List.foldl_cons, i3 s, emplace_filter _ _ _ _ h, List.append_assoc]
      congr 1
      by_cases hs : r.start = s
      · have h1 : r.entry.1 = s := hs
        have h2 : (r.entry.1, r.entry.2) = r.entry := rfl
        rw [if_pos h1, h2, List.filter_cons, if_pos (by simpa using hs)]
        rfl
      · have h1 : ¬ r.entry.1 = s := hs
        rw [if_neg h1, List.filter_cons, if_neg (by simpa using hs)]
        rfl

theorem streamOf_add (result : List (Nat × action_list)) (f k : Nat) (a : ActionExecutor)
    (g : Nat) :
    streamOf (ParseInput.add result f k a) g =
      if g = f then emplace (streamOf result f) k a else streamOf result g := by
  induction result with
  | nil =>
    by_cases hg : g = f
    · subst hg; simp [ParseInput.add, streamOf]
    · have : ¬ f = g := fun h => hg h.symm
      simp [ParseInput.add, streamOf, hg, this]
  | cons x r ih =>
    obtain ⟨f1, l⟩ := x
    rw [ParseInput.add]
    by_cases h1 : f1 = f
    · subst h1
      rw [if_pos rfl]
      by_cases hg : g = f1
      · subst hg; simp [streamOf]
      · have : ¬ f1 = g := fun h => hg h.symm
        simp [streamOf, hg, this]
    · rw [if_neg h1]
      by_cases hg : g = f
      · subst hg
        simp only [streamOf, if_neg h1, ih, if_pos rfl]
      · by_cases h2 : f1 = g
        · simp [streamOf, h2, hg]
        · simp only [streamOf, if_neg h2, ih, if_neg hg]

theorem keys_add (result : List (Nat × action_list)) (f k : Nat) (a : ActionExecutor) :
    (ParseInput.add result f k a).map Prod.fst =
      if f ∈ result.map Prod.fst then result.map Prod.fst else result.map Prod.fst ++ [f] := by
  induction result with
  | nil => simp [ParseInput.add]
  | cons x r ih =>
    obtain ⟨f1, l⟩ := x
    rw [ParseInput.add]
    by_cases h1 : f1 = f
    · subst h1
      simp
    · have h2 : ¬ f = f1 := fun h => h1 h.symm
      rw [if_neg h1]
      simp only [List.map_cons, List.mem_cons, h2, false_or, ih]
      split <;> simp

theorem streamOf_fold (id : Nat) (rows : List Row) : ∀ (result : List (Nat × action_list)),
    streamOf (rows.foldl ParseInput.store result) id =
      (rows.filter (fun r => r.id = id)).foldl (fun l r => emplace l r.entry.1 r.entry.2)
        (streamOf result id) := by
  induction rows with
  | nil => intro result; rfl
  | cons r rs ih =>
    intro result
    rw [List.foldl_cons, ih]
    have hs : streamOf (ParseInput.store result r) id =
        if id = r.id then emplace (streamOf result r.id) r.entry.1 r.entry.2
        else streamOf result id := streamOf_add result r.id _ _ id
    by_cases h : r.id = id
    · subst h
      rw [hs, if_pos rfl]
      simp [List.filter_cons]
    · have h1 : ¬ id = r.id := fun e => h e.symm
      rw [hs, if_neg h1]
      simp [List.filter_cons, h]

theorem keys_fold (rows : List Row) : ∀ (result : List (Nat × action_list)),
    (result.map Prod.fst).Nodup →
    ((rows.foldl ParseInput.store result).map Prod.fst).Nodup ∧
    ∀ id, id ∈ (rows.foldl ParseInput.store result).map Prod.fst ↔
      id ∈ result.map Prod.fst ∨ ∃ r ∈ rows, r.id = id := by
  induction rows with
  | nil =>
    intro result h
    exact ⟨h, by simp⟩
  | cons r rs ih =>
    intro result h
    have hk : (ParseInput.store result r).map Prod.fst =
        if r.id ∈ result.map Prod.fst then result.map Prod.fst
        else result.map Prod.fst ++ [r.id] := keys_add result r.id _ _
    have hnd : ((ParseInput.store result r).map Prod.fst).Nodup := by
      rw [hk]
      split
      · exact h
      · rename_i hm
        exact List.Nodup.append h (List.nodup_singleton _) (by
          intro x hx hx1
          rw [List.mem_singleton] at hx1
          subst hx1
          exact hm hx)
    obtain ⟨i1, i2⟩ := ih (ParseInput.store result r) hnd
    refine ⟨i1, ?_⟩
    intro id
    rw [List.foldl_cons, i2 id, hk]
    constructor
    · rintro (h1 | ⟨x, hx, hid⟩)
      · split at h1
        · exact Or.inl h1
        · rcases List.mem_append.mp h1 with h1 | h1
          · exact Or.inl h1
          · rw [List.mem_singleton] at h1
            exact Or.inr ⟨r, List.mem_cons_self _ _, h1.symm⟩
      · exact Or.inr ⟨x, List.mem_cons_of_mem _ hx, hid⟩
    · rintro (h1 | ⟨x, hx, hid⟩)
      · left
        split
        · exact h1
        · exact List.mem_append_left _ h1
      · rcases List.mem_cons.mp hx with rfl | hx
        · left
          split
          · rename_i hm
            exact hid ▸ hm
          · exact List.mem_append_right _ (by rw [List.mem_singleton]; exact hid.symm)
        · exact Or.inr ⟨x, hx, hid⟩

theorem streamOf_of_mem : ∀ (result : List (Nat × action_list)) (id : Nat)
    (stream : action_list), (result.map Prod.fst).Nodup → (id, stream) ∈ result →
    streamOf result id = stream
  | [], _, _, _, h => by cases h
  | (f, l) :: r, id, stream, hn, h => by
    rw [List.map_cons, List.nodup_cons] at hn
    rcases List.mem_cons.mp h with h | h
    · injection h with h1 h2
      subst h1 h2
      simp [streamOf]
    · have hne : f ≠ id := by
        intro e
        subst e
        exact hn.1 (List.mem_map.mpr ⟨(f, stream), h, rfl⟩)
      simp only [streamOf, if_neg hne]
      exact streamOf_of_mem r id stream hn.2 h

/-- **C16.** For a trace whose lines are all accepted, `ParseInput` returns one
stream per file id that occurs in the trace and none for other ids. The stream
of an id is a rearrangement of the entries of the rows with that id, one entry
per row; it is in non-decreasing order of the start time, and for every start
time the entries with that start time are in the order of their rows in the
trace. -/
theorem streams_by_file_in_start_order (lines : List String) (rows : List Row)
    (stats : ActionStatistics) (h : ParseInput.rows lines = .ok rows) :
    ∃ result, (ParseInput lines stats).1 = .ok result ∧ (result.map Prod.fst).Nodup ∧
      (∀ id, id ∈ result.map Prod.fst ↔ ∃ r ∈ rows, r.id = id) ∧
      ∀ id stream, (id, stream) ∈ result →
        stream.Sorted (fun x y => x.1 ≤ y.1) ∧
        stream.Perm ((rows.filter (fun r => r.id = id)).map Row.entry) ∧
        ∀ s, stream.filter (fun e => e.1 = s) =
          ((rows.filter (fun r => r.id = id)).filter (fun r => r.start = s)).map
            Row.entry := by
  obtain ⟨k1, k2⟩ := keys_fold rows [] List.nodup_nil
  refine ⟨rows.foldl ParseInput.store [], ?_, k1, ?_, ?_⟩
  · unfold ParseInput
    rw [loop_of_rows lines rows stats [] h]
  · intro id
    rw [k2 id]
    simp
  · intro id stream hmem
    have hs := streamOf_of_mem _ id stream k1 hmem
    rw [streamOf_fold] at hs
    obtain ⟨b1, b2, b3⟩ := build_props (rows.filter (fun r => r.id = id)) []
      List.sorted_nil
    have e0 : streamOf [] id = [] := rfl
    rw [e0] at hs
    rw [← hs]
    refine ⟨b1, by simpa using b2, ?_⟩
    intro s
    rw [b3 s]
    rfl

/-- Witness of C16: a trace of two files; file 1 has an action at 3 and two at 7,
which keep the order of the trace. -/
theorem streams_by_file_in_start_order_witness :
    (ParseInput Sample.twoFiles ActionStatistics.empty).1 =
        .ok [(1, [(3, ⟨1, "Write", "0;16;10", "ok", 3, 4⟩), (7, ⟨1, "Read", "0;16;10", "ok", 7, 8⟩),
            (7, ⟨1, "Sync", "10", "ok", 7, 9⟩)]),
          (2, [(5, ⟨2, "Read", "0;16;10", "ok", 5, 6⟩)])] ∧
      ∃ result, (ParseInput Sample.twoFiles ActionStatistics.empty).1 = .ok result ∧
        (result.map Prod.fst).Nodup :=
  ⟨rfl,
    (streams_by_file_in_start_order Sample.twoFiles
      [⟨1, "Read", 7, "0;16;10", 8, "ok", ""⟩, ⟨2, "Read", 5, "0;16;10", 6, "ok", ""⟩,
        ⟨1, "Write", 3, "0;16;10", 4, "ok", ""⟩, ⟨1, "Sync", 7, "10", 9, "ok", ""⟩]
      ActionStatistics.empty rfl).imp (fun _ hr => ⟨hr.1, hr.2.1⟩)⟩

/-! ## Where the errors of a trace are found -/

theorem calls_prefix : ∀ (pre : action_list) (k : Nat) (a : ActionExecutor)
    (rest : action_list) (e : Exception),
    (∀ x ∈ pre, x.2.Execute.isOk = true) → a.Execute = .error e →
    ExecuteActions.calls (pre ++ (k, a) :: rest) = ((ExecuteActions.calls pre).1, some e)
  | [], k, a, rest, e, _, he => by
    simp only [List.nil_append, ExecuteActions.calls, he]
  | (k1, b) :: ps, k, a, rest, e, hp, he => by
    obtain ⟨c, hc⟩ := (isOk_iff _).mp (hp (k1, b) (List.mem_cons_self _ _))
    have ih := calls_prefix ps k a rest e (fun x hx => hp x (List.mem_cons_of_mem _ hx)) he
    have hc1 : b.Execute = .ok c := hc
    show ExecuteActions.calls ((k1, b) :: (ps ++ (k, a) :: rest)) = _
    rw [ExecuteActions.calls, hc1, ih, ExecuteActions.calls, hc1]

theorem loop_prefix_error (line : String) (post : List String) (e : Exception)
    (hne : line.isEmpty = false) (he : ParseInput.line line = .error e) :
    ∀ (pre : List String) (stats : ActionStatistics) (result : List (Nat × action_list)),
    (∀ l ∈ pre, l.isEmpty = true ∨ (ParseInput.line l).isOk = true) →
    (ParseInput.loop (pre ++ line :: post) stats result).1 = .error e
  | [], stats, result, _ => by
    simp only [List.nil_append, ParseInput.loop, hne, he]
    rfl
  | l :: ps, stats, result, hp => by
    rw [List.cons_append, ParseInput.loop]
    have ih := fun st res => loop_prefix_error line post e hne he ps st res
      (fun x hx => hp x (List.mem_cons_of_mem _ hx))
    rcases hp l (List.mem_cons_self _ _) with h | h
    · rw [if_pos h]
      exact ih _ _
    · obtain ⟨row, hr⟩ := (isOk_iff _).mp h
      split
      · exact ih _ _
      · rw [hr]
        exact ih _ _

/-- **C17, as stated, fails.** The second action of the trace is a `Read` with two
argument tokens instead of three. `ParseInput` accepts the trace; the worker of
file 1 submits the `Open` and only then `Execute` of the `Read` throws, in the
worker thread, where nobody catches it. -/
theorem bad_arguments_pass_ParseInput :
    (Utils.splitString "0;16" ';').length = 2 ∧
      (∃ result, (ParseInput Sample.badRead ActionStatistics.empty).1 = .ok result) ∧
      main 2 Sample.badRead ActionStatistics.empty =
        (ExitStatus.terminate, [(1, [Call.Open "srv://h/a" 0 0 10])]) :=
  ⟨rfl, ⟨_, rfl⟩, rfl⟩

/-- **C17, amended.** When `ParseInput` fails (a line with a wrong number of
fields, or a file id, start or stop that is not converted), no action of any
file is submitted. The argument string of a line is stored as it is: whether a
line is accepted does not depend on it. A wrong number of argument tokens or an
integer that is not converted makes `Execute` of that action throw, in the
worker of its file, after the actions before it in the stream have been
submitted. -/
theorem parse_errors_precede_submission :
    (∀ (argc : Nat) (input : List String) (stats : ActionStatistics) (e : Exception),
      (ParseInput input stats).1 = .error e → (main argc input stats).2 = []) ∧
    (∀ t0 t1 t2 t3 t3' t4 t5 t6 : String,
      (ParseInput.fields [t0, t1, t2, t3, t4, t5, t6]).isOk =
        (ParseInput.fields [t0, t1, t2, t3', t4, t5, t6]).isOk) ∧
    (∀ row : Row, row.entry.2.args = row.args) ∧
    (∀ (pre : action_list) (k : Nat) (a : ActionExecutor) (rest : action_list)
      (e : Exception), (∀ x ∈ pre, x.2.Execute.isOk = true) → a.Execute = .error e →
      ExecuteActions.calls (pre ++ (k, a) :: rest) = ((ExecuteActions.calls pre).1, some e)) := by
  refine ⟨?_, ?_, fun _ => rfl, calls_prefix⟩
  · intro argc input stats e h
    unfold main
    split
    · rfl
    · rw [h]
      cases e <;> rfl
  · intro t0 t1 t2 t3 t3' t4 t5 t6
    rw [fields_seven, fields_seven]
    cases stoull t0 <;> cases stoull t2 <;> cases stoull t4 <;> rfl

/-- Witness of C17 as amended: a trace whose second line has five fields; nothing
is submitted although the first line is a well-formed `Open`. -/
theorem parse_errors_precede_submission_witness :
    (ParseInput ["1,Open,100,srv://h/a;0;0;10,100,ok", "1,Read,101,101,ok"]
        ActionStatistics.empty).1 = .error (.invalid_argument "Invalid input file format.") ∧
      (main 2 ["1,Open,100,srv://h/a;0;0;10,100,ok", "1,Read,101,101,ok"]
        ActionStatistics.empty).2 = [] :=
  ⟨rfl, parse_errors_precede_submission.1 2 _ _ _ rfl⟩

/-! ## The exit code -/

/-- A string without any digit is not converted. -/
theorem strtoull_no_digit (name str : String) (h : ∀ c ∈ str.toList, c.isDigit = false) :
    strtoull name str = .error (.invalid_argument name) := by
  unfold strtoull
  have hsuf : ∀ c ∈ str.toList.dropWhile isspace, c.isDigit = false := fun c hc =>
    h c ((List.dropWhile_suffix isspace).subset hc)
  generalize str.toList.dropWhile isspace = cs at hsuf
  have key : ∀ l : List Char, (∀ c ∈ l, c.isDigit = false) →
      (l.takeWhile Char.isDigit).isEmpty = true := by
    intro l hl
    cases l with
    | nil => rfl
    | cons c r => simp [List.takeWhile, hl c (List.mem_cons_self _ _)]
  have hk : ((match cs with
      | '-' :: r => (true, r)
      | '+' :: r => (false, r)
      | r => ((false, r) : Bool × List Char)).2.takeWhile Char.isDigit).isEmpty = true := by
    apply key
    split
    · exact fun c hc => hsuf c (List.mem_cons_of_mem _ hc)
    · exact fun c hc => hsuf c (List.mem_cons_of_mem _ hc)
    · exact hsuf
  simp only [hk, if_true]

/-- **C18, as stated, fails.** The file id `1x` is not an unsigned decimal number,
yet `std::stoull` converts its leading digit and ignores the rest: the line is
accepted, the unknown action is skipped, and the exit code is 0. -/
theorem lenient_number_exits_zero :
    (ParseInput.tokens "1x,Nop,0,a,0,s").getD 0 "" = "1x" ∧
      (¬ ∃ v, decimal "1x" (2 ^ 64) v) ∧
      stoull "1x" = .ok 1 ∧
      main 2 ["1x,Nop,0,a,0,s"] ActionStatistics.empty = (ExitStatus.returned 0, [(1, [])]) := by
  refine ⟨rfl, ?_, rfl, rfl⟩
  rintro ⟨v, _, h, _⟩
  have := h 'x' (by decide)
  revert this
  decide

/-- **C18, amended.** The exit code is 1 when the number of command-line arguments
is not 2. It is 1 when the first line that `ParseInput` rejects is rejected with
`std::invalid_argument`, and nothing is submitted then; this is the exception
of a line whose number of fields is not 6 or 7 and of a file id, start or stop
without any digit, while leading digits followed by other characters are
converted. The exit code is 0 when `ParseInput` succeeds and no worker ends
with an exception. -/
theorem exit_code (input : List String) (stats : ActionStatistics) :
    (∀ argc, argc ≠ 2 → main argc input stats = (ExitStatus.returned 1, [])) ∧
    (∀ (pre : List String) (line : String) (post : List String) (w : String),
      (∀ l ∈ pre, l.isEmpty = true ∨ (ParseInput.line l).isOk = true) →
      line.isEmpty = false → ParseInput.line line = .error (.invalid_argument w) →
      main 2 (pre ++ line :: post) stats = (ExitStatus.returned 1, [])) ∧
    (∀ line : String, (Utils.splitString line ',').length ≠ 6 →
      (Utils.splitString line ',').length ≠ 7 →
      ParseInput.line line = .error (.invalid_argument "Invalid input file format.")) ∧
    (∀ str : String, (∀ c ∈ str.toList, c.isDigit = false) →
      stoull str = .error (.invalid_argument "stoull")) ∧
    (∀ actions, (ParseInput input stats).1 = .ok actions →
      (∀ fa ∈ actions, (ExecuteActions.calls fa.2).2 = none) →
      (main 2 input stats).1 = ExitStatus.returned 0) := by
  refine ⟨?_, ?_, fun line => (line_accepted_iff line).2.2.1, ?_, ?_⟩
  · intro argc h
    unfold main
    rw [if_pos h]
  · intro pre line post w hp hne he
    have := loop_prefix_error line post _ hne he pre stats [] hp
    unfold main ParseInput
    rw [if_neg (by decide), this]
  · intro str h
    exact strtoull_no_digit "stoull" str h
  · intro actions h hall
    unfold main
    rw [if_neg (by decide), h]
    simp only
    rw [if_pos]
    rw [List.all_eq_true]
    intro fa hfa
    rw [hall fa hfa]
    rfl

/-- Witness of C18 as amended: a line of five fields behind an accepted line
gives the exit code 1. -/
theorem exit_code_witness :
    main 2 (["1,Open,100,srv://h/a;0;0;10,100,ok"] ++ "1,Read,101,101,ok" :: [])
        ActionStatistics.empty = (ExitStatus.returned 1, []) ∧
      main 2 Sample.s1 ActionStatistics.empty =
        (ExitStatus.returned 0, [(1, [Call.Open "srv://h/a" 0 0 10, Call.Close 10])]) :=
  ⟨(exit_code Sample.s1 ActionStatistics.empty).2.1 ["1,Open,100,srv://h/a;0;0;10,100,ok"]
      "1,Read,101,101,ok" [] "Invalid input file format."
      (by
        intro l hl
        rw [List.mem_singleton] at hl
        subst hl
        exact Or.inr rfl)
      rfl rfl,
    rfl⟩

/-! ## The arguments of an action -/

theorem stoul_decimal (token : String) (bound v : Nat) (h : decimal token bound v)
    (hb : bound ≤ 2 ^ 64) : stoul token = .ok v :=
  strtoull_decimal "stoul" token bound v h hb

theorem stoull_decimal (token : String) (bound v : Nat) (h : decimal token bound v)
    (hb : bound ≤ 2 ^ 64) : stoull token = .ok v :=
  strtoull_decimal "stoull" token bound v h hb

theorem decimal_lt (token : String) (bound v : Nat) (h : decimal token bound v) : v < bound :=
  h.2.2.2

/-- **C19.** For the kinds with a fixed number of arguments the argument string is
split on `;`. `GetOpenArgs` needs four tokens, `GetStatArgs` two, `GetReadArgs`
(which is also `GetPgReadArgs`, `GetWriteArgs` and `GetPgWriteArgs`) three and
`GetTruncateArgs` two; with another number of tokens each throws
`std::invalid_argument`. With that number of tokens, the numeric ones being
decimal numerals in the range of their type, the result holds the values of
the tokens in the order of the schema: url, flags, mode, timeout; force (true
for the token `true`), timeout; offset, a buffer of the given length, timeout;
size, timeout. -/
theorem fixed_arity_arguments (this : ActionExecutor) :
    (∀ url tf tm tt f m t, Utils.splitString this.args ';' = [url, tf, tm, tt] →
      decimal tf (2 ^ 32) f → decimal tm (2 ^ 32) m → decimal tt (2 ^ 16) t →
      this.GetOpenArgs = .ok (url, f, m, t)) ∧
    ((Utils.splitString this.args ';').length ≠ 4 →
      this.GetOpenArgs = .error (.invalid_argument "Failed to parse open arguments.")) ∧
    (∀ tforce tt t, Utils.splitString this.args ';' = [tforce, tt] →
      decimal tt (2 ^ 16) t → this.GetStatArgs = .ok (tforce == "true", t)) ∧
    ((Utils.splitString this.args ';').length ≠ 2 →
      this.GetStatArgs = .error (.invalid_argument "Failed to parse stat arguments.")) ∧
    (∀ tof tl tt o l t, Utils.splitString this.args ';' = [tof, tl, tt] →
      decimal tof (2 ^ 64) o → decimal tl (2 ^ 32) l → decimal tt (2 ^ 16) t →
      this.GetReadArgs = .ok (o, List.replicate l 'A', t)) ∧
    ((Utils.splitString this.args ';').length ≠ 3 →
      this.GetReadArgs = .error (.invalid_argument "Failed to parse read arguments.")) ∧
    (this.GetPgReadArgs = this.GetReadArgs ∧ this.GetWriteArgs = this.GetReadArgs ∧
      this.GetPgWriteArgs = this.GetReadArgs) ∧
    (∀ ts tt sz t, Utils.splitString this.args ';' = [ts, tt] →
      decimal ts (2 ^ 64) sz → decimal tt (2 ^ 16) t →
      this.GetTruncateArgs = .ok (sz, t)) ∧
    ((Utils.splitString this.args ';').length ≠ 2 →
      this.GetTruncateArgs =
        .error (.invalid_argument "Failed to parse truncate arguments.")) := by
  refine ⟨?_, ?_, ?_, ?_, ?_, ?_, ⟨rfl, rfl, rfl⟩, ?_, ?_⟩
  · intro url tf tm tt f m t hs hf hm ht
    unfold ActionExecutor.GetOpenArgs
    rw [hs]
    simp only [stoul_decimal tf _ f hf (by norm_num), stoul_decimal tm _ m hm (by norm_num),
      stoul_decimal tt _ t ht (by norm_num), bind, Except.bind, pure, Except.pure, toFlags,
      toUInt16, Nat.mod_eq_of_lt (decimal_lt _ _ _ hf), Nat.mod_eq_of_lt (decimal_lt _ _ _ hm),
      Nat.mod_eq_of_lt (decimal_lt _ _ _ ht)]
  · intro h
    unfold ActionExecutor.GetOpenArgs
    split
    · rename_i heq
      rw [heq] at h
      exact absurd rfl h
    · rfl
  · intro tforce tt t hs ht
    unfold ActionExecutor.GetStatArgs
    rw [hs]
    simp only [stoul_decimal tt _ t ht (by norm_num), bind, Except.bind, pure, Except.pure,
      toUInt16, Nat.mod_eq_of_lt (decimal_lt _ _ _ ht)]
  · intro h
    unfold ActionExecutor.GetStatArgs
    split
    · rename_i heq
      rw [heq] at h
      exact absurd rfl h
    · rfl
  · intro tof tl tt o l t hs ho hl ht
    unfold ActionExecutor.GetReadArgs
    rw [hs]
    simp only [stoull_decimal tof _ o ho (by norm_num), stoul_decimal tl _ l hl (by norm_num),
      stoul_decimal tt _ t ht (by norm_num), bind, Except.bind, pure, Except.pure, toUInt32,
      toUInt16, Nat.mod_eq_of_lt (decimal_lt _ _ _ hl), Nat.mod_eq_of_lt (decimal_lt _ _ _ ht)]
  · intro h
    unfold ActionExecutor.GetReadArgs
    split
    · rename_i heq
      rw [heq] at h
      exact absurd rfl h
    · rfl
  · intro ts tt sz t hs hz ht
    unfold ActionExecutor.GetTruncateArgs
    rw [hs]
    simp only [stoull_decimal ts _ sz hz (by norm_num), stoul_decimal tt _ t ht (by norm_num),
      bind, Except.bind, pure, Except.pure, toUInt16, Nat.mod_eq_of_lt (decimal_lt _ _ _ ht)]
  · intro h
    unfold ActionExecutor.GetTruncateArgs
    split
    · rename_i heq
      rw [heq] at h
      exact absurd rfl h
    · rfl

/-- Witness of C19: a `Read` with the arguments `1024;16;10`, and one with two
tokens only. -/
theorem fixed_arity_arguments_witness :
    (ActionExecutor.mk 1 "Read" "1024;16;10" "ok" 0 0).GetReadArgs =
        .ok (1024, List.replicate 16 'A', 10) ∧
      (ActionExecutor.mk 1 "Read" "1024;16" "ok" 0 0).GetReadArgs =
        .error (.invalid_argument "Failed to parse read arguments.") :=
  ⟨(fixed_arity_arguments (ActionExecutor.mk 1 "Read" "1024;16;10" "ok" 0 0)).2.2.2.2.1
      "1024" "16" "10" 1024 16 10 rfl
      ⟨by decide, by decide, rfl, by norm_num⟩ ⟨by decide, by decide, rfl, by norm_num⟩
      ⟨by decide, by decide, rfl, by norm_num⟩,
    (fixed_arity_arguments (ActionExecutor.mk 1 "Read" "1024;16" "ok" 0 0)).2.2.2.2.2.1
      (by decide)⟩

/-- **C20: the code does not do what the claim says.** `GetCloseArgs` and
`GetSyncArgs` do not split the argument string and do not count tokens: for the
two tokens `10;20` they return the timeout 10. `GetVectorReadArgs` and
`GetVectorWriteArgs` do not test the number of tokens either: for the two
tokens `0;16` they return one chunk and take the last token, the length, as
the timeout. `Execute` then submits the operation. -/
theorem arity_is_not_checked :
    (Utils.splitString "10;20" ';').length = 2 ∧
      (ActionExecutor.mk 1 "Close" "10;20" "ok" 0 0).GetCloseArgs = .ok 10 ∧
      (ActionExecutor.mk 1 "Sync" "10;20" "ok" 0 0).GetSyncArgs = .ok 10 ∧
      (ActionExecutor.mk 1 "Close" "10;20" "ok" 0 0).Execute = .ok (some (Call.Close 10)) ∧
      (Utils.splitString "0;16" ';').length = 2 ∧
      (ActionExecutor.mk 1 "VectorRead" "0;16" "ok" 0 0).GetVectorReadArgs =
        .ok ([⟨0, 16, List.replicate 16 'A'⟩], 16) ∧
      (ActionExecutor.mk 1 "VectorWrite" "0;16" "ok" 0 0).GetVectorWriteArgs =
        .ok ([⟨0, 16, List.replicate 16 'A'⟩], 16) ∧
      (ActionExecutor.mk 1 "VectorRead" "0;16" "ok" 0 0).Execute =
        .ok (some (Call.VectorRead [⟨0, 16, List.replicate 16 'A'⟩] 16)) :=
  ⟨rfl, rfl, rfl, rfl, rfl, rfl, rfl, rfl⟩

/-! ## The arguments of the vector operations -/

theorem chunkTokens_length (pairs : List (String × String)) (tt : String) :
    (chunkTokens pairs tt).length = 2 * pairs.length + 1 := by
  induction pairs with
  | nil => rfl
  | cons p rest ih =>
    obtain ⟨o, l⟩ := p
    simp only [chunkTokens, List.length_cons, ih]
    omega

theorem chunkTokens_ne_nil (pairs : List (String × String)) (tt : String) :
    chunkTokens pairs tt ≠ [] := by
  cases pairs with
  | nil => simp [chunkTokens]
  | cons p rest => obtain ⟨o, l⟩ := p; simp [chunkTokens]

theorem chunkTokens_getLast (pairs : List (String × String)) (tt : String) :
    (chunkTokens pairs tt).getLast? = some tt := by
  induction pairs with
  | nil => rfl
  | cons p rest ih =>
    obtain ⟨o, l⟩ := p
    have h := chunkTokens_ne_nil rest tt
    cases hr : chunkTokens rest tt with
    | nil => exact absurd hr h
    | cons x xs =>
      rw [hr] at ih
      simp only [chunkTokens, hr, List.getLast?_cons_cons]
      exact ih

theorem chunkLoop_chunkTokens (tt : String) :
    ∀ (pairs : List (String × String)) (vals : List (Nat × Nat)),
      List.Forall₂ (fun p v => decimal p.1 (2 ^ 64) v.1 ∧ decimal p.2 (2 ^ 32) v.2) pairs vals →
      ActionExecutor.chunkLoop (chunkTokens pairs tt) =
        .ok (vals.map fun v => ⟨v.1, v.2, List.replicate v.2 'A'⟩) := by
  intro pairs vals h
  induction h with
  | nil => rfl
  | @cons p v ps vs hpv _ ih =>
    obtain ⟨o, l⟩ := p
    simp only [chunkTokens, ActionExecutor.chunkLoop, ih,
      stoull_decimal o _ v.1 hpv.1 (le_refl _), stoul_decimal l _ v.2 hpv.2 (by norm_num),
      bind, Except.bind, pure, Except.pure, toUInt32, Nat.mod_eq_of_lt (decimal_lt _ _ _ hpv.2),
      List.map_cons]

theorem GetVectorReadArgs_of_tokens (this : ActionExecutor) (tokens : List String)
    (chunks : List ChunkInfo) (tt : String) (v : Nat)
    (hs : Utils.splitString this.args ';' = tokens) (hl : tokens.getLast? = some tt)
    (hc : ActionExecutor.chunkLoop tokens = .ok chunks) (ht : stoul tt = .ok v) :
    this.GetVectorReadArgs = .ok (chunks, v % 2 ^ 16) := by
  unfold ActionExecutor.GetVectorReadArgs
  rw [hs]
  cases tokens with
  | nil => simp at hl
  | cons x xs =>
    simp only [hc, hl, Option.getD_some, ht, bind, Except.bind, pure, Except.pure, toUInt16]

/-- **C21.** When the argument string of a `VectorRead` or `VectorWrite` splits
into the `2n+1` tokens `o0;l0;…;tt` (`n ≥ 0`), every offset a decimal numeral
below `2^64`, every length one below `2^32` and the timeout one below `2^16`,
`GetVectorReadArgs` and `GetVectorWriteArgs` return exactly `n` chunks, in the
order of the tokens, chunk `i` with the offset of token `2i`, the length of token
`2i+1` and a buffer of that length filled with `A`, and the timeout of the last
token. -/
theorem vector_arguments (this : ActionExecutor) (pairs : List (String × String))
    (vals : List (Nat × Nat)) (tt : String) (t : Nat)
    (hs : Utils.splitString this.args ';' = chunkTokens pairs tt)
    (hp : List.Forall₂ (fun p v => decimal p.1 (2 ^ 64) v.1 ∧ decimal p.2 (2 ^ 32) v.2)
      pairs vals)
    (ht : decimal tt (2 ^ 16) t) :
    (Utils.splitString this.args ';').length = 2 * pairs.length + 1 ∧
      this.GetVectorReadArgs =
        .ok (vals.map (fun v => ⟨v.1, v.2, List.replicate v.2 'A'⟩), t) ∧
      this.GetVectorWriteArgs =
        .ok (vals.map (fun v => ⟨v.1, v.2, List.replicate v.2 'A'⟩), t) ∧
      (vals.map (fun v => (⟨v.1, v.2, List.replicate v.2 'A'⟩ : ChunkInfo))).length
        = pairs.length ∧
      ∀ c ∈ vals.map (fun v => (⟨v.1, v.2, List.replicate v.2 'A'⟩ : ChunkInfo)),
        c.buffer.length = c.length ∧ ∀ b ∈ c.buffer, b = 'A' := by
  have key : this.GetVectorReadArgs =
      .ok (vals.map (fun v => ⟨v.1, v.2, List.replicate v.2 'A'⟩), t) := by
    have h := GetVectorReadArgs_of_tokens this _ _ tt t hs (chunkTokens_getLast pairs tt)
      (chunkLoop_chunkTokens tt pairs vals hp) (stoul_decimal tt _ t ht (by norm_num))
    rw [h, Nat.mod_eq_of_lt (decimal_lt _ _ _ ht)]
  refine ⟨by rw [hs, chunkTokens_length], key, key, ?_, ?_⟩
  · rw [List.length_map, hp.length_eq]
  · intro c hc
    rw [List.mem_map] at hc
    obtain ⟨v, _, rfl⟩ := hc
    exact ⟨List.length_replicate _ _, fun b hb => List.eq_of_mem_replicate hb⟩

/-- Witness of C21: the argument string `0;16;32;8;10` of two chunks, and the
string `10` of none. -/
theorem vector_arguments_witness :
    (ActionExecutor.mk 1 "VectorRead" "0;16;32;8;10" "ok" 0 0).GetVectorReadArgs =
        .ok ([⟨0, 16, List.replicate 16 'A'⟩, ⟨32, 8, List.replicate 8 'A'⟩], 10) ∧
      (ActionExecutor.mk 1 "VectorWrite" "10" "ok" 0 0).GetVectorWriteArgs = .ok ([], 10) :=
  ⟨(vector_arguments (ActionExecutor.mk 1 "VectorRead" "0;16;32;8;10" "ok" 0 0)
      [("0", "16"), ("32", "8")] [(0, 16), (32, 8)] "10" 10 rfl
      (List.Forall₂.cons ⟨⟨by decide, by decide, rfl, by norm_num⟩,
          ⟨by decide, by decide, rfl, by norm_num⟩⟩
        (List.Forall₂.cons ⟨⟨by decide, by decide, rfl, by norm_num⟩,
          ⟨by decide, by decide, rfl, by norm_num⟩⟩ List.Forall₂.nil))
      ⟨by decide, by decide, rfl, by norm_num⟩).2.1,
    (vector_arguments (ActionExecutor.mk 1 "VectorWrite" "10" "ok" 0 0)
      [] [] "10" 10 rfl List.Forall₂.nil ⟨by decide, by decide, rfl, by norm_num⟩).2.2.1⟩

/-! ## The status of a response -/

/-- **C22: the code does not do what the claim says.** `HandleStatus` writes its
warning exactly when the string form of the received status is equal to the
recorded one, and nothing when the two differ: a response `[SUCCESS] ` to an
action recorded with `[SUCCESS] ` is reported as `We were expecting status:
[SUCCESS] , but received: [SUCCESS] `, a response `[ERROR] ` is not reported.
Nothing else is done in either case. -/
theorem status_match_is_warned (rspstr orgstr : String) :
    (ActionExecutor.HandleStatus rspstr orgstr ≠ [] ↔ rspstr = orgstr) ∧
      (ActionExecutor.HandleStatus rspstr orgstr = [] ↔ rspstr ≠ orgstr) ∧
      ActionExecutor.HandleStatus "[SUCCESS] " "[SUCCESS] " =
        ["We were expecting status: [SUCCESS] , but received: [SUCCESS] "] ∧
      ActionExecutor.HandleStatus "[ERROR] " "[SUCCESS] " = [] := by
  refine ⟨?_, ?_, rfl, rfl⟩
  · unfold ActionExecutor.HandleStatus
    by_cases h : rspstr = orgstr <;> simp [h]
  · unfold ActionExecutor.HandleStatus
    by_cases h : rspstr = orgstr <;> simp [h]
/-! ## The width of timeouts and lengths -/

/-- **C29.** No argument parser checks the range of a timeout. For every kind of
action the timeout token is converted by `std::stoul` to an unsigned integer `v`
(any decimal numeral below `2^64`) and narrowed to 16 bits: the timeout is
`v mod 65536`, and the parse succeeds whatever `v` is. This holds for
`GetOpenArgs`, `GetCloseArgs`, `GetSyncArgs`, `GetStatArgs`, `GetReadArgs` (which
is also the parser of `PgRead`, `Write` and `PgWrite`), `GetTruncateArgs` and
`GetVectorReadArgs` (also `GetVectorWriteArgs`). The length token `l` of the
read family is narrowed to 32 bits: the buffer has `l mod 2^32` bytes. -/
theorem timeout_is_narrowed (this : ActionExecutor) (v : Nat) :
    (∀ url tf tm tt f m, Utils.splitString this.args ';' = [url, tf, tm, tt] →
      decimal tf (2 ^ 32) f → decimal tm (2 ^ 32) m → decimal tt (2 ^ 64) v →
      this.GetOpenArgs = .ok (url, f, m, v % 65536)) ∧
    (decimal this.args (2 ^ 64) v →
      this.GetCloseArgs = .ok (v % 65536) ∧ this.GetSyncArgs = .ok (v % 65536)) ∧
    (∀ tforce tt, Utils.splitString this.args ';' = [tforce, tt] →
      decimal tt (2 ^ 64) v → this.GetStatArgs = .ok (tforce == "true", v % 65536)) ∧
    (∀ tof tl tt o l, Utils.splitString this.args ';' = [tof, tl, tt] →
      decimal tof (2 ^ 64) o → decimal tl (2 ^ 64) l → decimal tt (2 ^ 64) v →
      this.GetReadArgs = .ok (o, List.replicate (l % 2 ^ 32) 'A', v % 65536) ∧
      this.GetPgReadArgs = .ok (o, List.replicate (l % 2 ^ 32) 'A', v % 65536) ∧
      this.GetWriteArgs = .ok (o, List.replicate (l % 2 ^ 32) 'A', v % 65536) ∧
      this.GetPgWriteArgs = .ok (o, List.replicate (l % 2 ^ 32) 'A', v % 65536)) ∧
    (∀ ts tt sz, Utils.splitString this.args ';' = [ts, tt] →
      decimal ts (2 ^ 64) sz → decimal tt (2 ^ 64) v →
      this.GetTruncateArgs = .ok (sz, v % 65536)) ∧
    (∀ tokens chunks tt, Utils.splitString this.args ';' = tokens →
      tokens.getLast? = some tt → ActionExecutor.chunkLoop tokens = .ok chunks →
      decimal tt (2 ^ 64) v →
      this.GetVectorReadArgs = .ok (chunks, v % 65536) ∧
      this.GetVectorWriteArgs = .ok (chunks, v % 65536)) := by
  refine ⟨?_, ?_, ?_, ?_, ?_, ?_⟩
  · intro url tf tm tt f m hs hf hm ht
    unfold ActionExecutor.GetOpenArgs
    rw [hs]
    simp only [stoul_decimal tf _ f hf (by norm_num), stoul_decimal tm _ m hm (by norm_num),
      stoul_decimal tt _ v ht (le_refl _), bind, Except.bind, pure, Except.pure, toFlags,
      toUInt16, Nat.mod_eq_of_lt (decimal_lt _ _ _ hf), Nat.mod_eq_of_lt (decimal_lt _ _ _ hm)]
    rfl
  · intro ht
    constructor
    · unfold ActionExecutor.GetCloseArgs
      simp only [stoul_decimal _ _ v ht (le_refl _), bind, Except.bind, pure, Except.pure,
        toUInt16]
      rfl
    · unfold ActionExecutor.GetSyncArgs
      simp only [stoul_decimal _ _ v ht (le_refl _), bind, Except.bind, pure, Except.pure,
        toUInt16]
      rfl
  · intro tforce tt hs ht
    unfold ActionExecutor.GetStatArgs
    rw [hs]
    simp only [stoul_decimal tt _ v ht (le_refl _), bind, Except.bind, pure, Except.pure,
      toUInt16]
    rfl
  · intro tof tl tt o l hs ho hl ht
    have key : this.GetReadArgs = .ok (o, List.replicate (l % 2 ^ 32) 'A', v % 65536) := by
      unfold ActionExecutor.GetReadArgs
      rw [hs]
      simp only [stoull_decimal tof _ o ho (le_refl _), stoul_decimal tl _ l hl (le_refl _),
        stoul_decimal tt _ v ht (le_refl _), bind, Except.bind, pure, Except.pure, toUInt32,
        toUInt16]
      rfl
    exact ⟨key, key, key, key⟩
  · intro ts tt sz hs hz ht
    unfold ActionExecutor.GetTruncateArgs
    rw [hs]
    simp only [stoull_decimal ts _ sz hz (le_refl _), stoul_decimal tt _ v ht (le_refl _),
      bind, Except.bind, pure, Except.pure, toUInt16]
    rfl
  · intro tokens chunks tt hs hl hc ht
    have key := GetVectorReadArgs_of_tokens this tokens chunks tt v hs hl hc
      (stoul_decimal tt _ v ht (le_refl _))
    exact ⟨key, key⟩

/-- Witness of C29: the timeout token `65546` gives the timeout 10 for a `Close`,
and the length token `4294967312` of a `Read` gives a buffer of 16 bytes. -/
theorem timeout_is_narrowed_witness :
    ((ActionExecutor.mk 1 "Close" "65546" "ok" 0 0).GetCloseArgs = .ok (65546 % 65536) ∧
        (ActionExecutor.mk 1 "Close" "65546" "ok" 0 0).GetSyncArgs = .ok (65546 % 65536)) ∧
      65546 % 65536 = 10 ∧
      (ActionExecutor.mk 1 "Read" "0;4294967312;65546" "ok" 0 0).GetReadArgs =
        .ok (0, List.replicate (4294967312 % 2 ^ 32) 'A', 65546 % 65536) ∧
      4294967312 % 2 ^ 32 = 16 :=
  ⟨(timeout_is_narrowed (ActionExecutor.mk 1 "Close" "65546" "ok" 0 0) 65546).2.1
      ⟨by decide, by decide, rfl, by norm_num⟩,
    by norm_num,
    ((timeout_is_narrowed (ActionExecutor.mk 1 "Read" "0;4294967312;65546" "ok" 0 0)
      65546).2.2.2.1 "0" "4294967312" "65546" 0 4294967312 rfl
      ⟨by decide, by decide, rfl, by norm_num⟩ ⟨by decide, by decide, rfl, by norm_num⟩
      ⟨by decide, by decide, rfl, by norm_num⟩).1,
    by norm_num⟩
/-! ## The default `readv` and `writev` -/

theorem xferLoop_exact {σ : Type} (xfer : σ → Int → Int → Int × σ) (E P : Int) (text : String) :
    ∀ (reqs : List XrdOucIOVec) (s : σ) (error : XrdOucErrInfo) (tot : Int),
      allExact xfer s reqs →
      XrdSfsFile.xferLoop xfer E P text reqs s error tot =
        (tot + (reqs.map (·.size)).sum, stateAfter xfer s reqs, error) := by
  intro reqs
  induction reqs with
  | nil => intro s error tot _; simp [XrdSfsFile.xferLoop, stateAfter]
  | cons v rest ih =>
    intro s error tot h
    obtain ⟨h1, h2⟩ := h
    simp only [XrdSfsFile.xferLoop, h1, ne_eq, not_true_eq_false, if_false]
    rw [ih _ _ _ h2]
    simp only [stateAfter, List.map_cons, List.sum_cons, add_assoc]

theorem xferLoop_short {σ : Type} (xfer : σ → Int → Int → Int × σ) (E P : Int) (text : String) :
    ∀ (pre : List XrdOucIOVec) (v : XrdOucIOVec) (post : List XrdOucIOVec) (s : σ)
      (error : XrdOucErrInfo) (tot : Int),
      allExact xfer s pre →
      (xfer (stateAfter xfer s pre) v.offset v.size).1 ≠ v.size →
      XrdSfsFile.xferLoop xfer E P text (pre ++ v :: post) s error tot =
        (if (xfer (stateAfter xfer s pre) v.offset v.size).1 < 0
          then (xfer (stateAfter xfer s pre) v.offset v.size).1 else E,
         (xfer (stateAfter xfer s pre) v.offset v.size).2,
         if (xfer (stateAfter xfer s pre) v.offset v.size).1 < 0 then error else ⟨P, text⟩) := by
  intro pre
  induction pre with
  | nil =>
    intro v post s error tot _ hne
    simp only [stateAfter] at hne ⊢
    simp only [List.nil_append, XrdSfsFile.xferLoop, ne_eq, hne, not_false_eq_true, if_true]
    split <;> rfl
  | cons u rest ih =>
    intro v post s error tot h hne
    obtain ⟨h1, h2⟩ := h
    simp only [stateAfter] at hne ⊢
    simp only [List.cons_append, XrdSfsFile.xferLoop, h1, ne_eq, not_true_eq_false, if_false]
    exact ih v post _ error _ h2 hne

/-- **C27.** The default `readv` over the request array `readV` of `rdvCnt`
elements, and `writev` in the same way. If every elementary read returns exactly
the size asked for, the result is the sum of the sizes, and the file is in the
state in which every request was read once, in the order of the array. Otherwise,
at the first request `v` whose read returns `r ≠ v.size`, the call stops: the
requests behind `v` are not issued, the result is `r` when `r < 0`, and else
`SFS_ERROR` with the error set to `ESPIPE` and `read past eof` (`write past eof`
for `writev`). Without requests the result is 0. -/
theorem default_readv_writev {σ : Type} (xfer : σ → Int → Int → Int × σ)
    (SFS_ERROR ESPIPE : Int) (s : σ) (error : XrdOucErrInfo) :
    (∀ reqs : List XrdOucIOVec, allExact xfer s reqs →
      XrdSfsFile.readv xfer SFS_ERROR ESPIPE reqs reqs.length s error =
        ((reqs.map (·.size)).sum, stateAfter xfer s reqs, error) ∧
      XrdSfsFile.writev xfer SFS_ERROR ESPIPE reqs reqs.length s error =
        ((reqs.map (·.size)).sum, stateAfter xfer s reqs, error)) ∧
    (∀ (pre : List XrdOucIOVec) (v : XrdOucIOVec) (post : List XrdOucIOVec) (r : Int) (s1 : σ),
      allExact xfer s pre → xfer (stateAfter xfer s pre) v.offset v.size = (r, s1) →
      r ≠ v.size →
      XrdSfsFile.readv xfer SFS_ERROR ESPIPE (pre ++ v :: post) (pre ++ v :: post).length
          s error =
        (if r < 0 then r else SFS_ERROR, s1,
          if r < 0 then error else ⟨ESPIPE, "read past eof"⟩) ∧
      XrdSfsFile.writev xfer SFS_ERROR ESPIPE (pre ++ v :: post) (pre ++ v :: post).length
          s error =
        (if r < 0 then r else SFS_ERROR, s1,
          if r < 0 then error else ⟨ESPIPE, "write past eof"⟩)) ∧
    (∀ reqs : List XrdOucIOVec, ∀ cnt : Int, cnt ≤ 0 →
      XrdSfsFile.readv xfer SFS_ERROR ESPIPE reqs cnt s error = (0, s, error) ∧
      XrdSfsFile.writev xfer SFS_ERROR ESPIPE reqs cnt s error = (0, s, error)) ∧
    XrdSfsFile.readv xfer SFS_ERROR ESPIPE [] 0 s error = (0, s, error) ∧
    XrdSfsFile.writev xfer SFS_ERROR ESPIPE [] 0 s error = (0, s, error) := by
  refine ⟨?_, ?_, ?_, rfl, rfl⟩
  · intro reqs h
    unfold XrdSfsFile.readv XrdSfsFile.writev
    simp only [Int.toNat_ofNat, List.take_length]
    rw [xferLoop_exact _ _ _ _ _ _ _ _ h, xferLoop_exact _ _ _ _ _ _ _ _ h, zero_add]
    exact ⟨rfl, rfl⟩
  · intro pre v post r s1 h hx hne
    unfold XrdSfsFile.readv XrdSfsFile.writev
    simp only [Int.toNat_ofNat, List.take_length]
    have hne1 : (xfer (stateAfter xfer s pre) v.offset v.size).1 ≠ v.size := by rw [hx]; exact hne
    rw [xferLoop_short _ _ _ _ _ _ _ _ _ _ h hne1, xferLoop_short _ _ _ _ _ _ _ _ _ _ h hne1, hx]
    exact ⟨rfl, rfl⟩
  · intro reqs cnt hc
    unfold XrdSfsFile.readv XrdSfsFile.writev
    rw [Int.toNat_eq_zero.mpr hc, List.take_zero]
    exact ⟨rfl, rfl⟩

/-- Witness of C27 on a file of 100 bytes: two reads inside the file give the sum
of the sizes, and a read across the end of the file stops the call before the
third request. -/
theorem default_readv_writev_witness :
    XrdSfsFile.readv Sample.hundred (-1) 29 [⟨0, 10⟩, ⟨50, 20⟩] 2 [] ⟨0, ""⟩ =
        (30, [⟨0, 10⟩, ⟨50, 20⟩], ⟨0, ""⟩) ∧
      XrdSfsFile.readv Sample.hundred (-1) 29 [⟨0, 10⟩, ⟨90, 20⟩, ⟨0, 5⟩] 3 [] ⟨0, ""⟩ =
        (-1, [⟨0, 10⟩, ⟨90, 20⟩], ⟨29, "read past eof"⟩) :=
  ⟨((default_readv_writev Sample.hundred (-1) 29 [] ⟨0, ""⟩).1 [⟨0, 10⟩, ⟨50, 20⟩]
      ⟨rfl, rfl, trivial⟩).1,
    ((default_readv_writev Sample.hundred (-1) 29 [] ⟨0, ""⟩).2.1 [⟨0, 10⟩] ⟨90, 20⟩ [⟨0, 5⟩]
      10 [⟨0, 10⟩, ⟨90, 20⟩] ⟨rfl, trivial⟩ rfl (by decide)).1⟩
/-! ## The url of `XrdClientUrlInfo` -/

theorem XrdClientUrlInfo.hostPart_File (ops : StringOps) (this : XrdClientUrlInfo) :
    (XrdClientUrlInfo.TakeUrl.hostPart ops this).File = this.File := by
  unfold XrdClientUrlInfo.TakeUrl.hostPart
  simp only
  split <;> split <;> (try split) <;> (try split) <;> rfl

/-- The path of a url with a protocol: `://` at `pp`, the next `/` at `ps`. The
member `File` receives the text behind that `/` only when the url is longer than
`pp + ps + 4` characters, since `left` is lowered by the position `ps + 1` after
it was lowered by `pp + 3`. -/
theorem XrdClientUrlInfo.File_behind_proto (ops : StringOps) (this : XrdClientUrlInfo)
    (u : String) (pp ps : Nat) (hp : XrdClientString.Find u "://" 0 = some pp)
    (hs : XrdClientString.Find u "/" (pp + 3) = some ps) (hl : pp + 3 < u.length) :
    (this.TakeUrl ops u).File =
      if pp + ps + 4 < u.length then ops.Substr u ((ps + 1 : Nat) : Int) ops.STR_NPOS
      else "/" := by
  unfold XrdClientUrlInfo.TakeUrl
  have h0 : ¬ XrdClientString.GetSize u ≤ 0 := by
    unfold XrdClientString.GetSize; omega
  have h1 : ¬ XrdClientString.GetSize u - ((pp + 3 : Nat) : Int) ≤ 0 := by
    unfold XrdClientString.GetSize; omega
  simp only [h0, if_false, hp, h1, hs, XrdClientUrlInfo.hostPart_File]
  by_cases h2 : pp + ps + 4 < u.length
  · have h3 : XrdClientString.GetSize u - ((pp + 3 : Nat) : Int) - ((ps + 1 : Nat) : Int) > 0 := by
      unfold XrdClientString.GetSize; omega
    simp only [h3, if_true, h2]
  · have h3 : ¬ XrdClientString.GetSize u - ((pp + 3 : Nat) : Int) - ((ps + 1 : Nat) : Int) > 0 := by
      unfold XrdClientString.GetSize; omega
    simp only [h3, if_false, h2]
    rfl

/-- The path of a url without a protocol whose first `/` is at `ps`: `File`
receives the text behind that `/` when there is any. -/
theorem XrdClientUrlInfo.File_without_proto (ops : StringOps) (this : XrdClientUrlInfo)
    (u : String) (ps : Nat) (hp : XrdClientString.Find u "://" 0 = none)
    (hs : XrdClientString.Find u "/" 0 = some ps) (hl : ps + 1 < u.length) :
    (this.TakeUrl ops u).File = ops.Substr u ((ps + 1 : Nat) : Int) ops.STR_NPOS := by
  unfold XrdClientUrlInfo.TakeUrl
  have h0 : ¬ XrdClientString.GetSize u ≤ 0 := by
    unfold XrdClientString.GetSize; omega
  have h3 : XrdClientString.GetSize u - ((ps + 1 : Nat) : Int) > 0 := by
    unfold XrdClientString.GetSize; omega
  simp only [h0, if_false, hp, hs, XrdClientUrlInfo.hostPart_File, h3, if_true]

/-- **C28: the code does not do what the claim says.** For the url
`root://host:1094/a` the `/` behind the host part is at position 16 and the path
behind it is `a`, but `TakeUrl` leaves `File` at the default `/`: `left` is 11
behind the protocol and becomes `11 - 17` behind the host part. With a protocol
the path is stored only when it is longer than the protocol with its `://`, as
in `root://host:1094/12345678`; `root://host:1094/1234567` is lost. Without a
protocol (`host:1094/a`) `File` receives the result of `u.Substr( p1 )`. For the
empty url and for `root://` all members are those of `Clear`: `Port` -1, `File`
`/`, `Url` empty. -/
theorem short_path_is_lost_behind_proto (ops : StringOps) (this : XrdClientUrlInfo) :
    XrdClientString.Find "root://host:1094/a" "://" 0 = some 4 ∧
      XrdClientString.Find "root://host:1094/a" "/" 7 = some 16 ∧
      "root://host:1094/a".drop 17 = "a" ∧
      (this.TakeUrl ops "root://host:1094/a").File = "/" ∧
      (this.TakeUrl ops "root://host:1094/1234567").File = "/" ∧
      (this.TakeUrl ops "root://host:1094/12345678").File =
        ops.Substr "root://host:1094/12345678" 17 ops.STR_NPOS ∧
      (this.TakeUrl ops "host:1094/a").File = ops.Substr "host:1094/a" 10 ops.STR_NPOS ∧
      this.TakeUrl ops "" = this.Clear ∧
      this.TakeUrl ops "root://" = this.Clear ∧
      this.Clear = ⟨"", "", "", "", -1, "", "", "/", ""⟩ := by
  refine ⟨rfl, rfl, by decide, ?_, ?_, ?_, ?_, rfl, rfl, rfl⟩
  · exact XrdClientUrlInfo.File_behind_proto ops this _ 4 16 rfl rfl (by decide)
  · exact XrdClientUrlInfo.File_behind_proto ops this _ 4 16 rfl rfl (by decide)
  · exact XrdClientUrlInfo.File_behind_proto ops this _ 4 16 rfl rfl (by decide)
  · exact XrdClientUrlInfo.File_without_proto ops this _ 9 rfl rfl (by decide)

/-! ## The pace of a worker -/

theorem pace_length (hz : Nat) : ∀ (l : List Lap) (prev now : Nat),
    (ExecuteActions.pace hz prev now l).length = l.length := by
  intro l
  induction l with
  | nil => intro _ _; rfl
  | cons p rest ih => intro prev now; simp only [ExecuteActions.pace, List.length_cons, ih]

theorem firstClose_append (l l2 : List ReplayEvent) :
    firstClose (l ++ l2) = match firstClose l with
      | some n => some n
      | none => firstClose l2 := by
  induction l with
  | nil => rfl
  | cons e rest ih =>
    cases e with
    | submitted i a c n =>
      simp only [List.cons_append, firstClose]
      by_cases h : a = "Close"
      · simp only [h, if_true]
      · simp only [h, if_false]
        exact ih
    | completed i => simpa only [List.cons_append, firstClose] using ih
    | warning m => simpa only [List.cons_append, firstClose] using ih
    | postedEnding => simpa only [List.cons_append, firstClose] using ih
    | postedClosing => simpa only [List.cons_append, firstClose] using ih
    | released => simpa only [List.cons_append, firstClose] using ih

theorem firstClose_append_quiet (l l2 : List ReplayEvent) (h : firstClose l2 = none) :
    firstClose (l ++ l2) = firstClose l := by
  rw [firstClose_append, h]
  cases firstClose l <;> rfl

theorem firstClose_warnings (ms : List String) :
    firstClose (ms.map ReplayEvent.warning) = none := by
  induction ms with
  | nil => rfl
  | cons m rest ih => simpa only [List.map_cons, firstClose] using ih

namespace Replay

@[simp]
theorem dropEnding_worker (s : Replay) (h : Bool) : (s.dropEnding h).worker = s.worker := by
  unfold dropEnding; split <;> rfl
@[simp]
theorem dropEnding_ending (s : Replay) (h : Bool) : (s.dropEnding h).ending = s.ending := by
  unfold dropEnding; split <;> rfl
@[simp]
theorem dropEnding_closing (s : Replay) (h : Bool) :
    (s.dropEnding h).closing = s.closing := by
  unfold dropEnding; split <;> rfl
@[simp]
theorem dropEnding_callbacks (s : Replay) (h : Bool) :
    (s.dropEnding h).callbacks = s.callbacks := by
  unfold dropEnding; split <;> rfl
@[simp]
theorem dropEnding_closesem (s : Replay) (h : Bool) :
    (s.dropEnding h).closesem = s.closesem := by
  unfold dropEnding; split <;> rfl
@[simp]
theorem dropEnding_issued (s : Replay) (h : Bool) : (s.dropEnding h).issued = s.issued := by
  unfold dropEnding; split <;> rfl
@[simp]
theorem dropEnding_stats (s : Replay) (h : Bool) : (s.dropEnding h).stats = s.stats := by
  unfold dropEnding; split <;> rfl
theorem dropEnding_log (s : Replay) (h : Bool) :
    (s.dropEnding h).log =
      s.log ++ (if h = true ∧ s.endingCount = 0 then [ReplayEvent.postedEnding] else []) := by
  unfold dropEnding; split <;> simp
theorem dropEnding_endsem (s : Replay) (h : Bool) :
    (s.dropEnding h).endsem = s.endsem + (if h = true ∧ s.endingCount = 0 then 1 else 0) := by
  unfold dropEnding; split <;> simp
@[simp]
theorem dropEnding_closingCount (s : Replay) (h : Bool) :
    (s.dropEnding h).closingCount = s.closingCount := by
  unfold closingCount; simp

@[simp]
theorem dropClosing_worker (s : Replay) (h : Bool) :
    (s.dropClosing h).worker = s.worker := by
  unfold dropClosing; split <;> rfl
@[simp]
theorem dropClosing_ending (s : Replay) (h : Bool) :
    (s.dropClosing h).ending = s.ending := by
  unfold dropClosing; split <;> rfl
@[simp]
theorem dropClosing_closing (s : Replay) (h : Bool) :
    (s.dropClosing h).closing = s.closing := by
  unfold dropClosing; split <;> rfl
@[simp]
theorem dropClosing_callbacks (s : Replay) (h : Bool) :
    (s.dropClosing h).callbacks = s.callbacks := by
  unfold dropClosing; split <;> rfl
@[simp]
theorem dropClosing_endsem (s : Replay) (h : Bool) :
    (s.dropClosing h).endsem = s.endsem := by
  unfold dropClosing; split <;> rfl
@[simp]
theorem dropClosing_issued (s : Replay) (h : Bool) :
    (s.dropClosing h).issued = s.issued := by
  unfold dropClosing; split <;> rfl
@[simp]
theorem dropClosing_stats (s : Replay) (h : Bool) : (s.dropClosing h).stats = s.stats := by
  unfold dropClosing; split <;> rfl
theorem dropClosing_log (s : Replay) (h : Bool) :
    (s.dropClosing h).log =
      s.log ++ (if h = true ∧ s.closingCount = 0 then [ReplayEvent.postedClosing] else []) := by
  unfold dropClosing; split <;> simp
theorem dropClosing_closesem (s : Replay) (h : Bool) :
    (s.dropClosing h).closesem =
      s.closesem + (if h = true ∧ s.closingCount = 0 then 1 else 0) := by
  unfold dropClosing; split <;> simp
@[simp]
theorem dropClosing_endingCount (s : Replay) (h : Bool) :
    (s.dropClosing h).endingCount = s.endingCount := by
  unfold endingCount; simp

theorem firstClose_dropEnding (s : Replay) (h : Bool) :
    firstClose (s.dropEnding h).log = firstClose s.log := by
  rw [dropEnding_log]
  apply firstClose_append_quiet
  split <;> rfl

theorem firstClose_dropClosing (s : Replay) (h : Bool) :
    firstClose (s.dropClosing h).log = firstClose s.log := by
  rw [dropClosing_log]
  apply firstClose_append_quiet
  split <;> rfl

end Replay

theorem countP_eq_zero_of_all {α : Type} (p : α → Bool) (l : List α)
    (hall : ∀ x ∈ l, p x = true) (h : l.countP p = 0) : l = [] := by
  cases l with
  | nil => rfl
  | cons x xs =>
    rw [List.countP_cons_of_pos _ _ (hall x (List.mem_cons_self _ _))] at h
    omega

theorem InvC_init (actions : action_list) (stats : ActionStatistics) :
    InvC (ExecuteActions.init actions stats) := by
  refine ⟨?_, ?_, ?_, ?_⟩
  · intro _
    exact ⟨fun cb h => by simp [ExecuteActions.init] at h, rfl, rfl⟩
  · intro a c r h; simp [ExecuteActions.init] at h
  · intro n h; simp [ExecuteActions.init, firstClose] at h
  · intro h; simp [ExecuteActions.init] at h
theorem firstClose_submitted_other (lg : List ReplayEvent) (i : Nat) (act : String) (c : Call)
    (n : Nat) (h : act ≠ "Close") :
    firstClose (lg ++ [ReplayEvent.submitted i act c n]) = firstClose lg := by
  apply firstClose_append_quiet
  simp only [firstClose, h, if_false]

theorem firstClose_submitted_seen (lg : List ReplayEvent) (e : ReplayEvent)
    (h : firstClose lg ≠ none) : firstClose (lg ++ [e]) = firstClose lg := by
  rw [firstClose_append]
  cases hf : firstClose lg with
  | none => exact absurd hf h
  | some n => rfl

theorem firstClose_submitted_first (lg : List ReplayEvent) (i : Nat) (c : Call)
    (n : Nat) (h : firstClose lg = none) :
    firstClose (lg ++ [ReplayEvent.submitted i "Close" c n]) = some n := by
  rw [firstClose_append, h]
  simp only [firstClose, if_true]

theorem InvC_Execute_start (a : ActionExecutor) (rest : action_list) (s : Replay)
    (h : InvC s) (x : action_list) (hw : s.worker = Worker.loop x) :
    InvC (ActionExecutor.Execute.start a rest s) := by
  obtain ⟨w, e, cl, cbs, es, cs, iss, st, lg⟩ := s
  obtain ⟨h1, h2, h3, h4⟩ := h
  dsimp only at h1 h2 h3 h4 hw
  subst hw
  have h4' : cl = false → firstClose lg ≠ none := fun hc =>
    h4 hc rfl (fun _ _ _ hh => by cases hh)
  have other : ∀ (call : Call) (wk : Worker), a.action ≠ "Close" →
      (∀ a' c r, wk ≠ Worker.inClose a' c r) →
      InvC { (Replay.mk (Worker.loop x) e cl cbs es cs iss st lg).Async a call cl with
        worker := wk } := by
    intro call wk hne hwk
    have hq := firstClose_submitted_other lg iss a.action call cbs.length hne
    refine ⟨?_, ?_, ?_, ?_⟩
    · intro hc
      dsimp only [Replay.Async] at hc ⊢
      rw [hq]
      refine ⟨?_, (h1 hc).2⟩
      intro cb hcb
      rw [List.mem_append, List.mem_singleton] at hcb
      rcases hcb with hcb | hcb
      · exact (h1 hc).1 cb hcb
      · rw [hcb]; exact hc
    · intro a' c r hh; exact absurd hh (hwk a' c r)
    · intro n hn; dsimp only [Replay.Async] at hn; rw [hq] at hn; exact h3 n hn
    · intro hc _ _; dsimp only [Replay.Async] at hc ⊢; rw [hq]; exact h4' hc
  unfold ActionExecutor.Execute.start
  split
  · -- the parser throws
    refine ⟨h1, ?_, h3, ?_⟩
    · intro a' c r hh; cases hh
    · intro hc _ _; exact h4' hc
  · -- unknown action
    have hq : firstClose (lg ++ [ReplayEvent.warning ("Cannot replyt " ++ a.action ++ " action.")])
        = firstClose lg := firstClose_append_quiet _ _ rfl
    refine ⟨?_, ?_, ?_, ?_⟩
    · intro hc; dsimp only at hc ⊢; rw [hq]; exact h1 hc
    · intro a' c r hh; cases hh
    · intro n hn; dsimp only at hn; rw [hq] at hn; exact h3 n hn
    · intro hc _ _; dsimp only at hc ⊢; rw [hq]; exact h4' hc
  · rename_i call _
    dsimp only
    by_cases hO : a.action = "Open"
    · rw [if_pos hO]
      exact other call _ (by rw [hO]; decide) (fun _ _ _ hh => by cases hh)
    · rw [if_neg hO]
      by_cases hC : a.action = "Close"
      · rw [if_pos hC]
        by_cases hc : cl = true
        · rw [if_pos hc]
          obtain ⟨k1, k2, k3⟩ := h1 hc
          refine ⟨?_, ?_, ?_, ?_⟩
          · intro hh; simp at hh
          · intro a' c r hh
            simp only [Replay.dropClosing_callbacks, Replay.firstClose_dropClosing,
              Replay.dropClosing_closing, Replay.dropClosing_closesem]
            cases hh
            refine ⟨hC, trivial, k1, k2, ?_, ?_⟩
            · intro hne
              by_cases hz : cbs.countP (·.closing) = 0
              · exact countP_eq_zero_of_all _ _ k1 hz
              · exfalso
                apply hne
                simp [Replay.closingCount, hz, k3]
            · intro hnil
              simp [Replay.closingCount, hnil]
          · intro n hn
            simp only [Replay.firstClose_dropClosing] at hn
            exact h3 n hn
          · intro _ _ hh
            exact absurd rfl (hh a call rest)
        · rw [if_neg hc]
          have hcf : cl = false := by cases cl <;> simp_all
          have hq := firstClose_submitted_seen lg
            (ReplayEvent.submitted iss a.action call cbs.length) (h4' hcf)
          subst hcf
          refine ⟨?_, ?_, ?_, ?_⟩
          · intro hh; simp [Replay.Async] at hh
          · intro a' c r hh; cases hh
          · intro n hn; dsimp only [Replay.Async] at hn; rw [hq] at hn; exact h3 n hn
          · intro _ _ _; dsimp only [Replay.Async]; rw [hq]; exact h4' rfl
      · rw [if_neg hC]
        exact other call _ hC (fun _ _ _ hh => by cases hh)
theorem firstClose_completed (lg : List ReplayEvent) (i : Nat) (ms : List String) :
    firstClose (lg ++ [ReplayEvent.completed i] ++ ms.map ReplayEvent.warning) = firstClose lg := by
  rw [firstClose_append_quiet _ _ (firstClose_warnings ms)]
  exact firstClose_append_quiet _ _ rfl

theorem InvC_Callback_run (cb : Callback) (rspstr : String) (d : Nat) (s : Replay)
    (h : InvC s) (hin : cb ∈ s.callbacks) : InvC (cb.run rspstr d s) := by
  obtain ⟨w, e, cl, cbs, es, cs, iss, st, lg⟩ := s
  obtain ⟨h1, h2, h3, h4⟩ := h
  dsimp only at h1 h2 h3 h4 hin
  unfold Callback.run
  have hsub : ∀ c ∈ cbs.erase cb, c ∈ cbs := fun c hc => List.mem_of_mem_erase hc
  refine ⟨?_, ?_, ?_, ?_⟩
  · intro hc
    simp only [Replay.dropClosing_callbacks, Replay.dropEnding_callbacks,
      Replay.firstClose_dropClosing, Replay.firstClose_dropEnding, firstClose_completed,
      Replay.dropClosing_closing, Replay.dropEnding_closing, Replay.dropClosing_closesem,
      Replay.dropEnding_closesem, Replay.dropEnding_closingCount] at hc ⊢
    obtain ⟨k1, k2, k3⟩ := h1 hc
    refine ⟨fun c hcm => k1 c (hsub c hcm), k2, ?_⟩
    simp [Replay.closingCount, hc, k3]
  · intro a c r hh
    simp only [Replay.dropClosing_worker, Replay.dropEnding_worker] at hh
    obtain ⟨k0, k1, k2, k3, k4, _⟩ := h2 a c r hh
    simp only [Replay.dropClosing_callbacks, Replay.dropEnding_callbacks,
      Replay.firstClose_dropClosing, Replay.firstClose_dropEnding, firstClose_completed,
      Replay.dropClosing_closing, Replay.dropEnding_closing, Replay.dropClosing_closesem,
      Replay.dropEnding_closesem, Replay.dropEnding_closingCount]
    have hcs : cs = 0 := by
      by_contra hcs
      rw [k4 hcs] at hin
      cases hin
    refine ⟨k0, k1, fun c hcm => k2 c (hsub c hcm), k3, ?_, ?_⟩
    · intro hne
      by_cases hz : (cbs.erase cb).countP (·.closing) = 0
      · exact countP_eq_zero_of_all _ _ (fun c hcm => k2 c (hsub c hcm)) hz
      · exfalso
        apply hne
        simp [Replay.closingCount, hz, hcs]
    · intro hnil
      simp [Replay.closingCount, hnil, k1, k2 cb hin]
  · intro n hn
    simp only [Replay.firstClose_dropClosing, Replay.firstClose_dropEnding,
      firstClose_completed] at hn
    exact h3 n hn
  · intro hc hl hw
    simp only [Replay.dropClosing_worker, Replay.dropEnding_worker, Replay.dropClosing_closing,
      Replay.dropEnding_closing, Replay.firstClose_dropClosing, Replay.firstClose_dropEnding,
      firstClose_completed] at hc hl hw ⊢
    exact h4 hc hl hw

theorem InvC_step (s : Replay) (t : Tick) (h : InvC s) : InvC (ExecuteActions.step s t) := by
  cases t with
  | worker =>
    cases hw : s.worker with
    | loop x =>
      cases x with
      | nil =>
        simp only [ExecuteActions.step, hw]
        refine ⟨?_, ?_, ?_, ?_⟩
        · intro hc; simp at hc
        · intro a c r hh; cases hh
        · intro n hn
          simp only [Replay.firstClose_dropClosing, Replay.firstClose_dropEnding] at hn
          exact h.first n hn
        · intro _ hl _; simp [Worker.inLoop] at hl
      | cons p rest =>
        obtain ⟨k, a⟩ := p
        simp only [ExecuteActions.step, hw]
        exact InvC_Execute_start a rest s h _ hw
    | inOpen i rest =>
      simp only [ExecuteActions.step, hw]
      split
      · exact h
      · refine ⟨h.held, ?_, h.first, ?_⟩
        · intro a c r hh; cases hh
        · intro hc _ _
          exact h.seen hc (by rw [hw]; rfl) (fun _ _ _ hh => by rw [hw] at hh; cases hh)
    | inClose a call rest =>
      simp only [ExecuteActions.step, hw]
      split
      · exact h
      · rename_i hne
        obtain ⟨k0, k1, k2, k3, k4, _⟩ := h.waiting a call rest hw
        have hq : firstClose (s.log ++ [ReplayEvent.submitted s.issued a.action call
            s.callbacks.length]) = some 0 := by
          rw [k0, k4 hne]
          exact firstClose_submitted_first _ _ _ _ k3
        refine ⟨?_, ?_, ?_, ?_⟩
        · intro hc; simp [Replay.Async, k1] at hc
        · intro a' c r hh; cases hh
        · intro n hn
          simp only [Replay.Async] at hn
          rw [hq] at hn
          cases hn; rfl
        · intro _ _ _
          simp only [Replay.Async]
          rw [hq]
          exact Option.some_ne_none 0
    | atEnd =>
      simp only [ExecuteActions.step, hw]
      split
      · exact h
      · have hq : firstClose (s.log ++ [ReplayEvent.released]) = firstClose s.log :=
          firstClose_append_quiet _ _ rfl
        refine ⟨?_, ?_, ?_, ?_⟩
        · intro hc; dsimp only at hc ⊢; rw [hq]; exact h.held hc
        · intro a c r hh; cases hh
        · intro n hn; dsimp only at hn; rw [hq] at hn; exact h.first n hn
        · intro _ hl _; simp [Worker.inLoop] at hl
    | done => simp only [ExecuteActions.step, hw]; exact h
    | terminated e => simp only [ExecuteActions.step, hw]; exact h
  | callback i rspstr d =>
    simp only [ExecuteActions.step]
    split
    · exact h
    · split
      · exact h
      · rename_i cb hf
        exact InvC_Callback_run cb rspstr d s h (List.mem_of_find?_eq_some hf)

theorem InvC_foldl (ticks : List Tick) : ∀ s : Replay, InvC s →
    InvC (ticks.foldl ExecuteActions.step s) := by
  induction ticks with
  | nil => intro s h; exact h
  | cons t rest ih => intro s h; exact ih _ (InvC_step s t h)

theorem InvC_run (actions : action_list) (stats : ActionStatistics) (ticks : List Tick) :
    InvC (ExecuteActions.run actions stats ticks) :=
  InvC_foldl ticks _ (InvC_init actions stats)

theorem firstClose_of_split (pre post : List ReplayEvent) (i : Nat) (c : Call) (n : Nat)
    (h : ∀ j c1 m, ReplayEvent.submitted j "Close" c1 m ∉ pre) :
    firstClose (pre ++ ReplayEvent.submitted i "Close" c n :: post) = some n := by
  induction pre with
  | nil => simp only [List.nil_append, firstClose, if_true]
  | cons e rest ih =>
    have ih1 := ih (fun j c1 m hm => h j c1 m (List.mem_cons_of_mem _ hm))
    cases e with
    | submitted j a c1 m =>
      have : a ≠ "Close" := by
        intro ha
        subst ha
        exact h j c1 m (List.mem_cons_self _ _)
      simp only [List.cons_append, firstClose, this, if_false]
      exact ih1
    | completed i => simpa only [List.cons_append, firstClose] using ih1
    | warning m => simpa only [List.cons_append, firstClose] using ih1
    | postedEnding => simpa only [List.cons_append, firstClose] using ih1
    | postedClosing => simpa only [List.cons_append, firstClose] using ih1
    | released => simpa only [List.cons_append, firstClose] using ih1
/-! ## The barrier `ending` -/

theorem split_append_quiet {α : Type} (l l2 pre post : List α) (e : α)
    (h : l ++ l2 = pre ++ e :: post) (hn : e ∉ l2) : ∃ post1, l = pre ++ e :: post1 := by
  rw [List.append_eq_append_iff] at h
  rcases h with ⟨a1, _, h2⟩ | ⟨c1, h1, h2⟩
  · exfalso
    apply hn
    rw [h2]
    exact List.mem_append_right _ (List.mem_cons_self _ _)
  · cases c1 with
    | nil =>
      exfalso
      apply hn
      rw [List.nil_append] at h2
      rw [← h2]
      exact List.mem_cons_self _ _
    | cons x c2 =>
      rw [List.cons_append] at h2
      injection h2 with hx _
      exact ⟨c2, by rw [h1, hx]⟩

theorem split_append_last {α : Type} (l pre post : List α) (e : α)
    (h : l ++ [e] = pre ++ e :: post) : pre = l ∨ ∃ post1, l = pre ++ e :: post1 := by
  rw [List.append_eq_append_iff] at h
  rcases h with ⟨a1, h1, h2⟩ | ⟨c1, h1, h2⟩
  · cases a1 with
    | nil => left; rw [h1, List.append_nil]
    | cons x a2 =>
      exfalso
      rw [List.cons_append] at h2
      injection h2 with _ h3
      cases a2 <;> simp at h3
  · cases c1 with
    | nil => left; rw [h1, List.append_nil]
    | cons x c2 =>
      right
      rw [List.cons_append] at h2
      injection h2 with hx _
      exact ⟨c2, by rw [h1, hx]⟩

theorem Ordered_append (l l2 : List ReplayEvent) (h : Ordered l)
    (hn : ReplayEvent.released ∉ l2) : Ordered (l ++ l2) := by
  intro pre post hs
  obtain ⟨post1, h1⟩ := split_append_quiet l l2 pre post _ hs hn
  exact h pre post1 h1

theorem Ordered_released (l : List ReplayEvent) (h : Ordered l)
    (hp : ReplayEvent.postedEnding ∈ l) : Ordered (l ++ [ReplayEvent.released]) := by
  intro pre post hs
  rcases split_append_last l pre post _ hs with h1 | ⟨post1, h1⟩
  · rw [h1]; exact hp
  · exact h pre post1 h1

theorem countP_posted_warnings (ms : List String) :
    (ms.map ReplayEvent.warning).countP ReplayEvent.isPostedEnding = 0 := by
  induction ms with
  | nil => rfl
  | cons m rest ih => simp [List.countP_cons, ReplayEvent.isPostedEnding]

theorem countP_released_warnings (ms : List String) :
    (ms.map ReplayEvent.warning).countP ReplayEvent.isReleased = 0 := by
  induction ms with
  | nil => rfl
  | cons m rest ih => simp [List.countP_cons, ReplayEvent.isReleased]

theorem mem_of_countP_posted (l : List ReplayEvent)
    (h : 0 < l.countP ReplayEvent.isPostedEnding) : ReplayEvent.postedEnding ∈ l := by
  rw [List.countP_pos_iff] at h
  obtain ⟨e, he, hp⟩ := h
  cases e <;> simp [ReplayEvent.isPostedEnding] at hp
  exact he

theorem countP_posted_of_mem (l : List ReplayEvent) (h : ReplayEvent.postedEnding ∈ l) :
    0 < l.countP ReplayEvent.isPostedEnding :=
  List.countP_pos_iff.mpr ⟨_, h, rfl⟩
theorem InvE_init (actions : action_list) (stats : ActionStatistics) :
    InvE (ExecuteActions.init actions stats) := by
  refine ⟨?_, ?_, rfl, rfl, rfl, ?_, ?_, rfl⟩
  · intro cb h; simp [ExecuteActions.init] at h
  · intro cb h; simp [ExecuteActions.init] at h
  · intro i a c n h; simp [ExecuteActions.init] at h
  · intro pre post h
    simp [ExecuteActions.init] at h

/-- A submission keeps what holds of `ending`. -/
theorem InvE_Async (s : Replay) (a : ActionExecutor) (call : Call) (cl : Bool) (wk : Worker)
    (h : InvE s) (he : s.ending = true) (hwk : wk.inLoop = true) (hd : s.worker.isDone = false)
    (hcl : a.action = "Close" → cl = false) :
    InvE { s.Async a call cl with worker := wk } := by
  obtain ⟨w, e, c0, cbs, es, cs, iss, st, lg⟩ := s
  obtain ⟨h1, h2, h3, h4, h5, h6, h7, h8⟩ := h
  dsimp only at h1 h2 h3 h4 h5 h6 h7 h8 he hd
  subst he
  have hwd : wk.isDone = false := by
    cases wk <;> first | rfl | (simp [Worker.inLoop] at hwk)
  refine ⟨?_, ?_, ?_, ?_, ?_, ?_, ?_, ?_⟩
  · intro cb hcb
    simp only [Replay.Async, List.mem_append, List.mem_singleton] at hcb
    rcases hcb with hcb | hcb
    · exact h1 cb hcb
    · rw [hcb]
  · intro cb hcb hact
    simp only [Replay.Async, List.mem_append, List.mem_singleton] at hcb
    rcases hcb with hcb | hcb
    · exact h2 cb hcb hact
    · rw [hcb] at hact ⊢
      exact hcl hact
  · simp only [Replay.Async]; exact hwk.symm
  · simp only [Replay.Async, List.countP_append, List.countP_cons, List.countP_nil,
      ReplayEvent.isPostedEnding]
    simp at h4 ⊢
    exact h4
  · simp only [Replay.Async, List.countP_append, List.countP_cons, List.countP_nil,
      ReplayEvent.isPostedEnding, hwd]
    simp only [hd] at h5
    simpa using h5
  · intro i a1 c1 n hm
    simp only [Replay.Async, List.mem_append, List.mem_singleton] at hm ⊢
    rcases hm with hm | hm
    · rcases h6 i a1 c1 n hm with hc | ⟨cb, hcb, hi⟩
      · exact Or.inl (Or.inl hc)
      · exact Or.inr ⟨cb, Or.inl hcb, hi⟩
    · injection hm with hi _ _ _
      exact Or.inr ⟨_, Or.inr rfl, hi.symm⟩
  · simp only [Replay.Async]
    apply Ordered_append _ _ h7
    simp
  · simp only [Replay.Async, List.countP_append, List.countP_cons, List.countP_nil,
      ReplayEvent.isReleased, hwd]
    simp only [hd] at h8
    simpa using h8
theorem not_mem_of_countP_released (l : List ReplayEvent)
    (h : l.countP ReplayEvent.isReleased = 0) : ReplayEvent.released ∉ l := by
  intro hm
  have : 0 < l.countP ReplayEvent.isReleased := List.countP_pos_iff.mpr ⟨_, hm, rfl⟩
  omega

/-- A turn that touches neither `ending` nor the callbacks keeps what holds of
`ending`. -/
theorem InvE_frame (s t : Replay) (l2 : List ReplayEvent) (h : InvE s)
    (hcb : t.callbacks = s.callbacks) (he : t.ending = s.ending) (hes : t.endsem = s.endsem)
    (hlog : t.log = s.log ++ l2) (hp : l2.countP ReplayEvent.isPostedEnding = 0)
    (hr : l2.countP ReplayEvent.isReleased = 0)
    (hsub : ∀ i a c n, ReplayEvent.submitted i a c n ∉ l2)
    (hw : t.worker.inLoop = s.worker.inLoop) (hd : t.worker.isDone = s.worker.isDone) :
    InvE t := by
  obtain ⟨h1, h2, h3, h4, h5, h6, h7, h8⟩ := h
  refine ⟨?_, ?_, ?_, ?_, ?_, ?_, ?_, ?_⟩
  · rw [hcb]; exact h1
  · rw [hcb]; exact h2
  · rw [he, hw]; exact h3
  · rw [hlog, List.countP_append, hp, he, hcb, Nat.add_zero]; exact h4
  · rw [hlog, List.countP_append, hp, hes, hd, Nat.add_zero]; exact h5
  · intro i a c n hm
    rw [hlog, List.mem_append] at hm
    rcases hm with hm | hm
    · rcases h6 i a c n hm with hc | ⟨cb, hcb1, hi⟩
      · left; rw [hlog]; exact List.mem_append_left _ hc
      · right; rw [hcb]; exact ⟨cb, hcb1, hi⟩
    · exact absurd hm (hsub i a c n)
  · rw [hlog]
    exact Ordered_append _ _ h7 (not_mem_of_countP_released _ hr)
  · rw [hlog, List.countP_append, hr, hd, Nat.add_zero]; exact h8

theorem InvE_Execute_start (a : ActionExecutor) (rest : action_list) (s : Replay)
    (h : InvE s) (x : action_list) (hw : s.worker = Worker.loop x) :
    InvE (ActionExecutor.Execute.start a rest s) := by
  have he : s.ending = true := by rw [h.holds, hw]; rfl
  have hd : s.worker.isDone = false := by rw [hw]; rfl
  have hl : s.worker.inLoop = true := by rw [hw]; rfl
  unfold ActionExecutor.Execute.start
  split
  · exact InvE_frame s _ [] h rfl rfl rfl (List.append_nil _).symm rfl rfl
      (fun _ _ _ _ hm => by cases hm) (by rw [hl]; rfl) (by rw [hd]; rfl)
  · exact InvE_frame s _ [ReplayEvent.warning ("Cannot replyt " ++ a.action ++ " action.")]
      h rfl rfl rfl rfl rfl rfl
      (fun _ _ _ _ hm => by simp at hm) (by rw [hl]; rfl) (by rw [hd]; rfl)
  · rename_i call _
    dsimp only
    by_cases hO : a.action = "Open"
    · rw [if_pos hO]
      exact InvE_Async s a call s.closing _ h he rfl hd
        (fun hc => by rw [hO] at hc; exact absurd hc (by decide))
    · rw [if_neg hO]
      by_cases hC : a.action = "Close"
      · rw [if_pos hC]
        by_cases hc : s.closing = true
        · rw [if_pos hc]
          refine InvE_frame s _
            (if true = true ∧ ({ s with closing := false } : Replay).closingCount = 0
              then [ReplayEvent.postedClosing] else []) h ?_ ?_ ?_ ?_ ?_ ?_ ?_ ?_ ?_
          · simp
          · simp
          · simp
          · simp only [Replay.dropClosing_log]
          · split <;> rfl
          · split <;> rfl
          · intro i a1 c n hm
            split at hm <;> simp at hm
          · rw [hl]; rfl
          · rw [hd]; rfl
        · rw [if_neg hc]
          exact InvE_Async s a call false _ h he rfl hd (fun _ => rfl)
      · rw [if_neg hC]
        exact InvE_Async s a call s.closing _ h he rfl hd (fun hc => absurd hc hC)
theorem countP_zero_iff_nil_of_all {α : Type} (p : α → Bool) (l : List α)
    (hall : ∀ x ∈ l, p x = true) : l.countP p = 0 ↔ l = [] :=
  ⟨countP_eq_zero_of_all p l hall, fun h => by rw [h]; rfl⟩

theorem countP_posted_ite_closing (c : Prop) [Decidable c] :
    (if c then [ReplayEvent.postedClosing] else []).countP ReplayEvent.isPostedEnding = 0 := by
  split <;> rfl

theorem countP_posted_ite_ending (c : Prop) [Decidable c] :
    (if c then [ReplayEvent.postedEnding] else []).countP ReplayEvent.isPostedEnding =
      if c then 1 else 0 := by
  split <;> rfl

theorem countP_released_ite_closing (c : Prop) [Decidable c] :
    (if c then [ReplayEvent.postedClosing] else []).countP ReplayEvent.isReleased = 0 := by
  split <;> rfl

theorem countP_released_ite_ending (c : Prop) [Decidable c] :
    (if c then [ReplayEvent.postedEnding] else []).countP ReplayEvent.isReleased = 0 := by
  split <;> rfl

theorem InvE_Callback_run (cb : Callback) (rspstr : String) (d : Nat) (s : Replay)
    (h : InvE s) (hin : cb ∈ s.callbacks) : InvE (cb.run rspstr d s) := by
  obtain ⟨w, e, cl, cbs, es, cs, iss, st, lg⟩ := s
  obtain ⟨h1, h2, h3, h4, h5, h6, h7, h8⟩ := h
  dsimp only at h1 h2 h3 h4 h5 h6 h7 h8 hin
  have hsub : ∀ c ∈ cbs.erase cb, c ∈ cbs := fun c hc => List.mem_of_mem_erase hc
  have hne : cbs ≠ [] := fun hh => by rw [hh] at hin; cases hin
  have hcbe : cb.ending = true := h1 cb hin
  have hold : lg.countP ReplayEvent.isPostedEnding = 0 := by
    rw [h4, if_neg]
    exact fun hh => hne hh.2
  have hz := countP_zero_iff_nil_of_all (fun c : Callback => c.ending) (cbs.erase cb)
    (fun c hc => h1 c (hsub c hc))
  have hfire : (cb.ending = true ∧
      (Replay.mk w e cl (cbs.erase cb) es cs iss (st.UpdateAct cb.action d)
        (lg ++ [ReplayEvent.completed cb.index] ++
          (ActionExecutor.HandleStatus rspstr cb.orgststr).map ReplayEvent.warning)).endingCount = 0)
      ↔ (e = false ∧ cbs.erase cb = []) := by
    simp only [Replay.endingCount, hcbe, true_and]
    cases e
    · simpa using hz
    · simp
  unfold Callback.run
  refine ⟨?_, ?_, ?_, ?_, ?_, ?_, ?_, ?_⟩
  · intro c hc
    simp only [Replay.dropClosing_callbacks, Replay.dropEnding_callbacks] at hc
    exact h1 c (hsub c hc)
  · intro c hc
    simp only [Replay.dropClosing_callbacks, Replay.dropEnding_callbacks] at hc
    exact h2 c (hsub c hc)
  · simp only [Replay.dropClosing_ending, Replay.dropEnding_ending, Replay.dropClosing_worker,
      Replay.dropEnding_worker]
    exact h3
  · simp only [Replay.dropClosing_log, Replay.dropEnding_log, Replay.dropClosing_ending,
      Replay.dropEnding_ending, Replay.dropClosing_callbacks, Replay.dropEnding_callbacks,
      List.countP_append, hold, countP_posted_warnings, countP_posted_ite_closing,
      countP_posted_ite_ending]
    have a1 : ([ReplayEvent.completed cb.index]).countP ReplayEvent.isPostedEnding = 0 := rfl
    rw [a1]
    by_cases hf : e = false ∧ cbs.erase cb = []
    · rw [if_pos (hfire.mpr hf), if_pos hf]
    · rw [if_neg (fun hh => hf (hfire.mp hh)), if_neg hf]
  · simp only [Replay.dropClosing_log, Replay.dropEnding_log, Replay.dropClosing_endsem,
      Replay.dropEnding_endsem, Replay.dropClosing_worker, Replay.dropEnding_worker,
      List.countP_append, countP_posted_warnings, countP_posted_ite_closing,
      countP_posted_ite_ending]
    have a1 : ([ReplayEvent.completed cb.index]).countP ReplayEvent.isPostedEnding = 0 := rfl
    rw [a1]
    omega
  · intro i a c n hm
    simp only [Replay.dropClosing_log, Replay.dropEnding_log, Replay.dropClosing_callbacks,
      Replay.dropEnding_callbacks, List.mem_append] at hm ⊢
    have hm1 : ReplayEvent.submitted i a c n ∈ lg := by
      rcases hm with ((hm | hm) | hm) | hm
      · rcases hm with hm | hm
        · exact hm
        · simp at hm
      · simp at hm
      · split at hm <;> simp at hm
      · split at hm <;> simp at hm
    rcases h6 i a c n hm1 with hc | ⟨c1, hc1, hi⟩
    · exact Or.inl (Or.inl (Or.inl (Or.inl (Or.inl hc))))
    · by_cases heq : c1 = cb
      · left; left; left; left; right
        rw [← hi, heq]
        exact List.mem_singleton.mpr rfl
      · right
        exact ⟨c1, (List.mem_erase_of_ne heq).mpr hc1, hi⟩
  · simp only [Replay.dropClosing_log, Replay.dropEnding_log, List.append_assoc]
    apply Ordered_append _ _ h7
    simp only [List.mem_append, List.mem_cons, List.mem_map, not_or]
    refine ⟨?_, ?_, ?_, ?_⟩
    · simp
    · simp
    · split <;> simp
    · split <;> simp
  · simp only [Replay.dropClosing_log, Replay.dropEnding_log, Replay.dropClosing_worker,
      Replay.dropEnding_worker, List.countP_append, countP_released_warnings,
      countP_released_ite_closing, countP_released_ite_ending]
    have a1 : ([ReplayEvent.completed cb.index]).countP ReplayEvent.isReleased = 0 := rfl
    rw [a1]
    omega
theorem InvE_leave (s : Replay) (h : InvE s) (hw : s.worker = Worker.loop []) :
    InvE (ExecuteActions.step s Tick.worker) := by
  obtain ⟨w, e, cl, cbs, es, cs, iss, st, lg⟩ := s
  obtain ⟨h1, h2, h3, h4, h5, h6, h7, h8⟩ := h
  dsimp only at h1 h2 h3 h4 h5 h6 h7 h8 hw
  subst hw
  have he : e = true := h3
  subst he
  have hold : lg.countP ReplayEvent.isPostedEnding = 0 := by rw [h4]; simp
  have hz := countP_zero_iff_nil_of_all (fun c : Callback => c.ending) cbs h1
  have hfire : (Replay.mk (Worker.loop []) false cl cbs es cs iss st lg).endingCount = 0 ↔
      cbs = [] := by
    simp only [Replay.endingCount]
    simpa using hz
  simp only [ExecuteActions.step]
  refine ⟨?_, ?_, ?_, ?_, ?_, ?_, ?_, ?_⟩
  · simpa using h1
  · simpa using h2
  · simp [Worker.inLoop]
  · simp only [Replay.dropClosing_log, Replay.dropEnding_log, Replay.dropClosing_ending,
      Replay.dropEnding_ending, Replay.dropClosing_callbacks, Replay.dropEnding_callbacks,
      List.countP_append, hold, countP_posted_ite_closing, countP_posted_ite_ending]
    simp only [true_and, hfire, Nat.zero_add, Nat.add_zero]
  · simp only [Replay.dropClosing_log, Replay.dropEnding_log, Replay.dropClosing_endsem,
      Replay.dropEnding_endsem, List.countP_append, countP_posted_ite_closing,
      countP_posted_ite_ending, Worker.isDone]
    simp only [Worker.isDone, Bool.false_eq_true, if_false, Nat.add_zero] at h5 ⊢
    omega
  · intro i a c n hm
    simp only [Replay.dropClosing_log, Replay.dropEnding_log, Replay.dropClosing_callbacks,
      Replay.dropEnding_callbacks, List.mem_append] at hm ⊢
    have hm1 : ReplayEvent.submitted i a c n ∈ lg := by
      rcases hm with (hm | hm) | hm
      · exact hm
      · split at hm <;> simp at hm
      · split at hm <;> simp at hm
    rcases h6 i a c n hm1 with hc | hc
    · exact Or.inl (Or.inl (Or.inl hc))
    · exact Or.inr hc
  · simp only [Replay.dropClosing_log, Replay.dropEnding_log, List.append_assoc]
    apply Ordered_append _ _ h7
    simp only [List.mem_append, not_or]
    constructor <;> split <;> simp
  · simp only [Replay.dropClosing_log, Replay.dropEnding_log, List.countP_append,
      countP_released_ite_closing, countP_released_ite_ending, Worker.isDone]
    simp only [Worker.isDone] at h8
    simp at h8 ⊢
    exact h8

theorem InvE_release (s : Replay) (h : InvE s) (hw : s.worker = Worker.atEnd)
    (hne : s.endsem ≠ 0) : InvE (ExecuteActions.step s Tick.worker) := by
  obtain ⟨w, e, cl, cbs, es, cs, iss, st, lg⟩ := s
  obtain ⟨h1, h2, h3, h4, h5, h6, h7, h8⟩ := h
  dsimp only at h1 h2 h3 h4 h5 h6 h7 h8 hw hne
  subst hw
  simp only [Worker.isDone, Bool.false_eq_true, if_false, Nat.add_zero] at h5 h8
  simp only [ExecuteActions.step, if_neg hne]
  refine ⟨h1, h2, ?_, ?_, ?_, ?_, ?_, ?_⟩
  · exact h3
  · simp only [List.countP_append, List.countP_cons, List.countP_nil,
      ReplayEvent.isPostedEnding]
    simpa using h4
  · simp only [List.countP_append, List.countP_cons, List.countP_nil,
      ReplayEvent.isPostedEnding, Worker.isDone]
    simp
    omega
  · intro i a c n hm
    simp only [List.mem_append, List.mem_singleton] at hm ⊢
    rcases hm with hm | hm
    · rcases h6 i a c n hm with hc | hc
      · exact Or.inl (Or.inl hc)
      · exact Or.inr hc
    · cases hm
  · exact Ordered_released lg h7 (mem_of_countP_posted lg (by omega))
  · simp only [List.countP_append, List.countP_cons, List.countP_nil,
      ReplayEvent.isReleased, Worker.isDone, h8]
    simp

theorem InvE_step (s : Replay) (t : Tick) (h : InvE s) : InvE (ExecuteActions.step s t) := by
  cases t with
  | worker =>
    cases hw : s.worker with
    | loop x =>
      cases x with
      | nil => exact InvE_leave s h hw
      | cons p rest =>
        obtain ⟨k, a⟩ := p
        simp only [ExecuteActions.step, hw]
        exact InvE_Execute_start a rest s h _ hw
    | inOpen i rest =>
      simp only [ExecuteActions.step, hw]
      split
      · exact h
      · exact InvE_frame s _ [] h rfl rfl rfl (List.append_nil _).symm rfl rfl
          (fun _ _ _ _ hm => by cases hm) (by rw [hw]; rfl) (by rw [hw]; rfl)
    | inClose a call rest =>
      simp only [ExecuteActions.step, hw]
      split
      · exact h
      · have h0 : InvE (Replay.mk (Worker.inClose a call rest) s.ending s.closing s.callbacks
            s.endsem (s.closesem - 1) s.issued s.stats s.log) :=
          InvE_frame s _ [] h rfl rfl rfl (List.append_nil _).symm rfl rfl
            (fun _ _ _ _ hm => by cases hm) (by rw [hw]) (by rw [hw])
        exact InvE_Async _ a call false _ h0 (by rw [h.holds, hw]; rfl) rfl rfl (fun _ => rfl)
    | atEnd =>
      by_cases hne : s.endsem = 0
      · simp only [ExecuteActions.step, hw, hne, if_true]; exact h
      · exact InvE_release s h hw hne
    | done => simp only [ExecuteActions.step, hw]; exact h
    | terminated e => simp only [ExecuteActions.step, hw]; exact h
  | callback i rspstr d =>
    simp only [ExecuteActions.step]
    split
    · exact h
    · split
      · exact h
      · rename_i cb hf
        exact InvE_Callback_run cb rspstr d s h (List.mem_of_find?_eq_some hf)

theorem InvE_foldl (ticks : List Tick) : ∀ s : Replay, InvE s →
    InvE (ticks.foldl ExecuteActions.step s) := by
  induction ticks with
  | nil => intro s h; exact h
  | cons t rest ih => intro s h; exact ih _ (InvE_step s t h)

theorem InvE_run (actions : action_list) (stats : ActionStatistics) (ticks : List Tick) :
    InvE (ExecuteActions.run actions stats ticks) :=
  InvE_foldl ticks _ (InvE_init actions stats)
/-! ## Every run of a worker can be completed -/

theorem turnsLeft_Execute_start (a : ActionExecutor) (rest : action_list) (s : Replay) :
    (ActionExecutor.Execute.start a rest s).turnsLeft ≤
      3 * rest.length + 4 + s.callbacks.length := by
  unfold ActionExecutor.Execute.start
  split
  · simp only [Replay.turnsLeft, Worker.weight]; omega
  · simp only [Replay.turnsLeft, Worker.weight]; omega
  · dsimp only
    split
    · simp only [Replay.turnsLeft, Worker.weight, Replay.Async, List.length_append,
        List.length_singleton]; omega
    · split
      · split
        · simp only [Replay.turnsLeft, Worker.weight, Replay.dropClosing_callbacks]; omega
        · simp only [Replay.turnsLeft, Worker.weight, Replay.Async, List.length_append,
            List.length_singleton]; omega
      · simp only [Replay.turnsLeft, Worker.weight, Replay.Async, List.length_append,
          List.length_singleton]; omega

theorem turnsLeft_Callback_run (cb : Callback) (rspstr : String) (d : Nat) (s : Replay)
    (hin : cb ∈ s.callbacks) : (cb.run rspstr d s).turnsLeft + 1 = s.turnsLeft := by
  have hpos : 0 < s.callbacks.length := List.length_pos_of_mem hin
  simp only [Callback.run, Replay.turnsLeft, Replay.dropClosing_callbacks,
    Replay.dropEnding_callbacks, Replay.dropClosing_worker, Replay.dropEnding_worker,
    List.length_erase_of_mem hin]
  omega

theorem callback_turn (s : Replay) (hne : s.callbacks ≠ []) (hnt : s.worker.final = false) :
    ∃ t, (ExecuteActions.step s t).turnsLeft < s.turnsLeft := by
  cases hcb : s.callbacks with
  | nil => exact absurd hcb hne
  | cons c rest =>
    have hc : c ∈ s.callbacks := by rw [hcb]; exact List.mem_cons_self _ _
    have hsome : (s.callbacks.find? (fun x => x.index == c.index)).isSome = true := by
      rw [List.find?_isSome]
      exact ⟨c, hc, by simp⟩
    obtain ⟨cb, hf⟩ := Option.isSome_iff_exists.mp hsome
    refine ⟨Tick.callback c.index "" 0, ?_⟩
    have hrun := turnsLeft_Callback_run cb "" 0 s (List.mem_of_find?_eq_some hf)
    have hstep : ExecuteActions.step s (Tick.callback c.index "" 0) = cb.run "" 0 s := by
      simp only [ExecuteActions.step, hf]
      cases hw : s.worker <;> first | rfl | (rw [hw] at hnt; simp [Worker.final] at hnt)
    rw [hstep]
    omega

theorem progress (s : Replay) (hC : InvC s) (hE : InvE s) (hnf : s.worker.final = false) :
    ∃ t, (ExecuteActions.step s t).turnsLeft < s.turnsLeft := by
  cases hw : s.worker with
  | loop x =>
    refine ⟨Tick.worker, ?_⟩
    cases x with
    | nil =>
      simp only [ExecuteActions.step, hw, Replay.turnsLeft, Worker.weight,
        Replay.dropClosing_callbacks, Replay.dropEnding_callbacks, List.length_nil]
      omega
    | cons p rest =>
      obtain ⟨k, a⟩ := p
      have h1 := turnsLeft_Execute_start a rest s
      have h2 : s.turnsLeft = 3 * (rest.length + 1) + 2 + s.callbacks.length := by
        simp only [Replay.turnsLeft, hw, Worker.weight, List.length_cons]
      simp only [ExecuteActions.step, hw]
      omega
  | inOpen i rest =>
    by_cases hany : s.callbacks.any (fun c => c.index == i) = true
    · apply callback_turn s _ hnf
      intro hnil
      rw [hnil] at hany
      simp at hany
    · refine ⟨Tick.worker, ?_⟩
      simp only [ExecuteActions.step, hw, hany, Replay.turnsLeft, Worker.weight]
      simp
  | inClose a call rest =>
    by_cases hz : s.closesem = 0
    · apply callback_turn s _ hnf
      intro hnil
      exact (hC.waiting a call rest hw).2.2.2.2.2 hnil hz
    · refine ⟨Tick.worker, ?_⟩
      simp only [ExecuteActions.step, hw, hz, if_false, Replay.turnsLeft, Worker.weight,
        Replay.Async, List.length_append, List.length_singleton]
      omega
  | atEnd =>
    by_cases hz : s.endsem = 0
    · apply callback_turn s _ hnf
      intro hnil
      have h1 := hE.sem
      have h2 := hE.posted
      have h3 := hE.holds
      rw [hw] at h1 h3
      simp only [Worker.inLoop] at h3
      simp only [Worker.isDone, Bool.false_eq_true, if_false, Nat.add_zero] at h1
      rw [h3, hnil] at h2
      simp at h2
      omega
    · refine ⟨Tick.worker, ?_⟩
      simp only [ExecuteActions.step, hw, hz, if_false, Replay.turnsLeft, Worker.weight]
      omega
  | done => rw [hw] at hnf; simp [Worker.final] at hnf
  | terminated e => rw [hw] at hnf; simp [Worker.final] at hnf

theorem completion : ∀ (n : Nat) (s : Replay), s.turnsLeft ≤ n → InvC s → InvE s →
    ∃ ticks : List Tick, (ticks.foldl ExecuteActions.step s).worker.final = true := by
  intro n
  induction n with
  | zero =>
    intro s hn _ _
    refine ⟨[], ?_⟩
    have hw : s.worker.weight = 0 := by
      simp only [Replay.turnsLeft] at hn; omega
    cases hwk : s.worker <;> rw [hwk] at hw <;> simp [Worker.weight] at hw <;> simp [hwk, Worker.final]
  | succ n ih =>
    intro s hn hC hE
    by_cases hf : s.worker.final = true
    · exact ⟨[], hf⟩
    · have hf' : s.worker.final = false := by
        cases h : s.worker.final
        · rfl
        · exact absurd h hf
      obtain ⟨t, ht⟩ := progress s hC hE hf'
      obtain ⟨ticks, hticks⟩ := ih (ExecuteActions.step s t) (by omega) (InvC_step s t hC)
        (InvE_step s t hE)
      exact ⟨t :: ticks, hticks⟩
theorem Parses_tail (p : Nat × ActionExecutor) (rest : action_list) (h : Parses (p :: rest)) :
    Parses rest := fun q hq => h q (List.mem_cons_of_mem _ hq)

theorem rest_Execute_start (a : ActionExecutor) (rest : action_list) (s : Replay)
    (c : Option Call) (h : a.Execute = .ok c) :
    (ActionExecutor.Execute.start a rest s).worker.rest = rest ∧
      (ActionExecutor.Execute.start a rest s).worker.final = false := by
  unfold ActionExecutor.Execute.start
  rw [h]
  cases c with
  | none => exact ⟨rfl, rfl⟩
  | some call =>
    dsimp only
    split
    · exact ⟨rfl, rfl⟩
    · split
      · split
        · exact ⟨rfl, rfl⟩
        · exact ⟨rfl, rfl⟩
      · exact ⟨rfl, rfl⟩

theorem Parses_nil : Parses [] := fun _ hq => absurd hq (List.not_mem_nil _)

/-- With arguments that can be parsed the worker is not ended by an exception. -/
theorem parses_step (s : Replay) (t : Tick)
    (h : Parses s.worker.rest ∧ ∀ e, s.worker ≠ Worker.terminated e) :
    Parses (ExecuteActions.step s t).worker.rest ∧
      ∀ e, (ExecuteActions.step s t).worker ≠ Worker.terminated e := by
  obtain ⟨h1, h2⟩ := h
  cases t with
  | worker =>
    cases hw : s.worker with
    | loop x =>
      cases x with
      | nil =>
        simp only [ExecuteActions.step, hw]
        exact ⟨Parses_nil, fun e he => Worker.noConfusion he⟩
      | cons p rest =>
        obtain ⟨k, a⟩ := p
        rw [hw] at h1
        obtain ⟨c, hc⟩ := h1 (k, a) (List.mem_cons_self _ _)
        have hr := rest_Execute_start a rest s c hc
        simp only [ExecuteActions.step, hw]
        refine ⟨?_, ?_⟩
        · rw [hr.1]; exact Parses_tail _ _ h1
        · intro e he
          rw [he] at hr
          simp [Worker.final] at hr
    | inOpen i rest =>
      rw [hw] at h1
      simp only [ExecuteActions.step, hw]
      split
      · rw [hw]; exact ⟨h1, fun e he => Worker.noConfusion he⟩
      · exact ⟨h1, fun e he => Worker.noConfusion he⟩
    | inClose a call rest =>
      rw [hw] at h1
      simp only [ExecuteActions.step, hw]
      split
      · rw [hw]; exact ⟨h1, fun e he => Worker.noConfusion he⟩
      · exact ⟨h1, fun e he => Worker.noConfusion he⟩
    | atEnd =>
      simp only [ExecuteActions.step, hw]
      split
      · rw [hw]; exact ⟨Parses_nil, fun e he => Worker.noConfusion he⟩
      · exact ⟨Parses_nil, fun e he => Worker.noConfusion he⟩
    | done =>
      simp only [ExecuteActions.step, hw]
      exact ⟨Parses_nil, fun e he => Worker.noConfusion he⟩
    | terminated e => exact absurd hw (h2 e)
  | callback i rspstr d =>
    cases hf : s.callbacks.find? (fun c => c.index == i) with
    | none =>
      have : ExecuteActions.step s (Tick.callback i rspstr d) = s := by
        simp only [ExecuteActions.step, hf]
      rw [this]
      exact ⟨h1, h2⟩
    | some cb =>
      have hw : (ExecuteActions.step s (Tick.callback i rspstr d)).worker = s.worker := by
        simp only [ExecuteActions.step, hf]
        simp only [Callback.run, Replay.dropClosing_worker, Replay.dropEnding_worker]
      rw [hw]
      exact ⟨h1, h2⟩

theorem parses_foldl (ticks : List Tick) : ∀ s : Replay,
    (Parses s.worker.rest ∧ ∀ e, s.worker ≠ Worker.terminated e) →
    Parses (ticks.foldl ExecuteActions.step s).worker.rest ∧
      ∀ e, (ticks.foldl ExecuteActions.step s).worker ≠ Worker.terminated e := by
  induction ticks with
  | nil => intro s h; exact h
  | cons t rest ih => intro s h; exact ih _ (parses_step s t h)

/-- Every run of a worker whose arguments can be parsed goes on to a state behind
`file.reset()`. -/
theorem run_completes (actions : action_list) (stats : ActionStatistics) (ticks : List Tick)
    (hp : Parses actions) :
    ∃ more, (ExecuteActions.run actions stats (ticks ++ more)).worker = Worker.done := by
  obtain ⟨more, hm⟩ := completion _ (ExecuteActions.run actions stats ticks) (le_refl _)
    (InvC_run actions stats ticks) (InvE_run actions stats ticks)
  refine ⟨more, ?_⟩
  have hnt := (parses_foldl (ticks ++ more) (ExecuteActions.init actions stats)
    ⟨hp, fun e he => Worker.noConfusion he⟩).2
  have heq : ExecuteActions.run actions stats (ticks ++ more) =
      more.foldl ExecuteActions.step (ExecuteActions.run actions stats ticks) := by
    simp only [ExecuteActions.run, List.foldl_append]
  rw [heq]
  simp only [ExecuteActions.run, ← List.foldl_append] at hm hnt ⊢
  cases hw : (List.foldl ExecuteActions.step (ExecuteActions.init actions stats)
      (ticks ++ more)).worker with
  | done => rfl
  | terminated e => exact absurd hw (hnt e)
  | loop x => rw [hw] at hm; simp [Worker.final] at hm
  | inOpen i x => rw [hw] at hm; simp [Worker.final] at hm
  | inClose a c x => rw [hw] at hm; simp [Worker.final] at hm
  | atEnd => rw [hw] at hm; simp [Worker.final] at hm

theorem countP_erase_add {α : Type} [DecidableEq α] (p : α → Bool) (a : α) :
    ∀ l : List α, a ∈ l → (l.erase a).countP p + (if p a = true then 1 else 0) = l.countP p := by
  intro l
  induction l with
  | nil => intro h; cases h
  | cons x xs ih =>
    intro h
    by_cases hx : x = a
    · subst hx
      rw [List.erase_cons_head, List.countP_cons]
    · have hm : a ∈ xs := by
        rcases List.mem_cons.mp h with h1 | h1
        · exact absurd h1.symm hx
        · exact h1
      have := ih hm
      rw [List.erase_cons_tail (by simpa using hx), List.countP_cons, List.countP_cons]
      omega

/-- A callback gives up the references it holds. -/
theorem counts_Callback_run (cb : Callback) (rspstr : String) (d : Nat) (s : Replay)
    (hin : cb ∈ s.callbacks) :
    (cb.run rspstr d s).endingCount + (if cb.ending = true then 1 else 0) = s.endingCount ∧
      (cb.run rspstr d s).closingCount + (if cb.closing = true then 1 else 0) =
        s.closingCount := by
  have h1 := countP_erase_add (fun c : Callback => c.ending) cb s.callbacks hin
  have h2 := countP_erase_add (fun c : Callback => c.closing) cb s.callbacks hin
  simp only [Callback.run, Replay.dropClosing_endingCount]
  constructor
  · simp only [Replay.endingCount, Replay.dropEnding_ending, Replay.dropEnding_callbacks]
    simp only at h1
    omega
  · simp only [Replay.closingCount, Replay.dropClosing_closing, Replay.dropClosing_callbacks,
      Replay.dropEnding_closing, Replay.dropEnding_callbacks]
    simp only at h2
    omega
/-! ## The first `Close` of a stream -/

theorem split_append {α : Type} (l l2 pre post : List α) (e : α)
    (h : l ++ l2 = pre ++ e :: post) :
    (∃ post1, l = pre ++ e :: post1) ∨ ∃ a1, pre = l ++ a1 ∧ l2 = a1 ++ e :: post := by
  rw [List.append_eq_append_iff] at h
  rcases h with ⟨a1, h1, h2⟩ | ⟨c1, h1, h2⟩
  · exact Or.inr ⟨a1, h1, h2⟩
  · cases c1 with
    | nil =>
      right
      refine ⟨[], ?_, ?_⟩
      · rw [h1, List.append_nil, List.append_nil]
      · rw [List.nil_append] at h2 ⊢; exact h2.symm
    | cons x c2 =>
      left
      rw [List.cons_append] at h2
      injection h2 with hx _
      exact ⟨c2, by rw [h1, hx]⟩

theorem exists_close_of_firstClose (l : List ReplayEvent) (h : firstClose l ≠ none) :
    ¬ noClose l := by
  induction l with
  | nil => exact absurd rfl h
  | cons e rest ih =>
    cases e with
    | submitted i a c n =>
      by_cases ha : a = "Close"
      · subst ha
        intro hn
        exact hn i c n (List.mem_cons_self _ _)
      · simp only [firstClose, ha, if_false] at h
        intro hn
        exact ih h (fun j c1 m hm => hn j c1 m (List.mem_cons_of_mem _ hm))
    | completed i =>
      exact fun hn => ih h (fun j c1 m hm => hn j c1 m (List.mem_cons_of_mem _ hm))
    | warning m =>
      exact fun hn => ih h (fun j c1 m hm => hn j c1 m (List.mem_cons_of_mem _ hm))
    | postedEnding =>
      exact fun hn => ih h (fun j c1 m hm => hn j c1 m (List.mem_cons_of_mem _ hm))
    | postedClosing =>
      exact fun hn => ih h (fun j c1 m hm => hn j c1 m (List.mem_cons_of_mem _ hm))
    | released =>
      exact fun hn => ih h (fun j c1 m hm => hn j c1 m (List.mem_cons_of_mem _ hm))

theorem Waited_append (l l2 : List ReplayEvent) (h : Waited l)
    (h2 : noClose l2 ∨ firstClose l ≠ none ∨
      ((∃ i c n, l2 = [ReplayEvent.submitted i "Close" c n]) ∧
        ∀ j a c1 m, ReplayEvent.submitted j a c1 m ∈ l → ReplayEvent.completed j ∈ l)) :
    Waited (l ++ l2) := by
  intro pre post i c n hs hpre
  rcases split_append l l2 pre post _ hs with ⟨post1, h1⟩ | ⟨a1, h1, h3⟩
  · exact h pre post1 i c n h1 hpre
  · rcases h2 with hn | hf | ⟨⟨i1, c1, n1, hl2⟩, hall⟩
    · exfalso
      apply hn i c n
      rw [h3]
      exact List.mem_append_right _ (List.mem_cons_self _ _)
    · exfalso
      apply exists_close_of_firstClose l hf
      intro j c1 m hm
      apply hpre j c1 m
      rw [h1]
      exact List.mem_append_left _ hm
    · rw [hl2] at h3
      cases a1 with
      | nil =>
        rw [List.append_nil] at h1
        rw [h1]
        exact hall
      | cons x a2 =>
        exfalso
        rw [List.cons_append] at h3
        injection h3 with _ h4
        cases a2 <;> simp at h4

theorem noClose_nil : noClose [] := fun _ _ _ hm => absurd hm (List.not_mem_nil _)

theorem noClose_append (l l2 : List ReplayEvent) (h1 : noClose l) (h2 : noClose l2) :
    noClose (l ++ l2) := by
  intro j c m hm
  rcases List.mem_append.mp hm with h | h
  · exact h1 j c m h
  · exact h2 j c m h

theorem noClose_warnings (ms : List String) : noClose (ms.map ReplayEvent.warning) := by
  intro j c m hm
  simp at hm

theorem noClose_ite (c : Prop) [Decidable c] (e : ReplayEvent)
    (he : ∀ j c1 m, e ≠ ReplayEvent.submitted j "Close" c1 m) :
    noClose (if c then [e] else []) := by
  intro j c1 m hm
  split at hm
  · rw [List.mem_singleton] at hm
    exact he j c1 m hm.symm
  · cases hm

theorem noClose_single (e : ReplayEvent)
    (he : ∀ j c1 m, e ≠ ReplayEvent.submitted j "Close" c1 m) : noClose [e] := by
  intro j c1 m hm
  rw [List.mem_singleton] at hm
  exact he j c1 m hm.symm

theorem noClose_submitted (i : Nat) (a : String) (c : Call) (n : Nat) (h : a ≠ "Close") :
    noClose [ReplayEvent.submitted i a c n] := by
  apply noClose_single
  intro j c1 m he
  injection he with _ ha _ _
  exact h ha

/-- The events a turn adds to the log. -/
theorem step_log (s : Replay) (t : Tick) (hC : InvC s) :
    ∃ l2, (ExecuteActions.step s t).log = s.log ++ l2 ∧
      (noClose l2 ∨ firstClose s.log ≠ none ∨
        ((∃ i c n, l2 = [ReplayEvent.submitted i "Close" c n]) ∧ s.callbacks = [])) := by
  cases t with
  | worker =>
    cases hw : s.worker with
    | loop x =>
      cases x with
      | nil =>
        simp only [ExecuteActions.step, hw, Replay.dropClosing_log, Replay.dropEnding_log,
          List.append_assoc]
        exact ⟨_, rfl, Or.inl (noClose_append _ _
          (noClose_ite _ _ (fun _ _ _ he => ReplayEvent.noConfusion he))
          (noClose_ite _ _ (fun _ _ _ he => ReplayEvent.noConfusion he)))⟩
      | cons p rest =>
        obtain ⟨k, a⟩ := p
        simp only [ExecuteActions.step, hw]
        unfold ActionExecutor.Execute.start
        split
        · exact ⟨[], (List.append_nil _).symm, Or.inl noClose_nil⟩
        · exact ⟨_, rfl, Or.inl (noClose_single _ (fun _ _ _ he => ReplayEvent.noConfusion he))⟩
        · dsimp only
          by_cases hO : a.action = "Open"
          · rw [if_pos hO]
            exact ⟨_, rfl, Or.inl (noClose_submitted _ _ _ _ (by rw [hO]; decide))⟩
          · rw [if_neg hO]
            by_cases hCl : a.action = "Close"
            · rw [if_pos hCl]
              by_cases hc : s.closing = true
              · rw [if_pos hc]
                simp only [Replay.dropClosing_log]
                exact ⟨_, rfl, Or.inl
                  (noClose_ite _ _ (fun _ _ _ he => ReplayEvent.noConfusion he))⟩
              · rw [if_neg hc]
                have hcf : s.closing = false := by
                  cases h : s.closing
                  · rfl
                  · exact absurd h hc
                refine ⟨_, rfl, Or.inr (Or.inl ?_)⟩
                exact hC.seen hcf (by rw [hw]; rfl)
                  (fun _ _ _ hh => by rw [hw] at hh; exact Worker.noConfusion hh)
            · rw [if_neg hCl]
              exact ⟨_, rfl, Or.inl (noClose_submitted _ _ _ _ hCl)⟩
    | inOpen i rest =>
      simp only [ExecuteActions.step, hw]
      split
      · exact ⟨[], (List.append_nil _).symm, Or.inl noClose_nil⟩
      · exact ⟨[], (List.append_nil _).symm, Or.inl noClose_nil⟩
    | inClose a call rest =>
      simp only [ExecuteActions.step, hw]
      split
      · exact ⟨[], (List.append_nil _).symm, Or.inl noClose_nil⟩
      · rename_i hne
        obtain ⟨k0, _, _, _, k4, _⟩ := hC.waiting a call rest hw
        refine ⟨_, rfl, Or.inr (Or.inr ⟨⟨s.issued, call, s.callbacks.length, ?_⟩, k4 hne⟩)⟩
        rw [k0]
    | atEnd =>
      simp only [ExecuteActions.step, hw]
      split
      · exact ⟨[], (List.append_nil _).symm, Or.inl noClose_nil⟩
      · exact ⟨_, rfl, Or.inl (noClose_single _ (fun _ _ _ he => ReplayEvent.noConfusion he))⟩
    | done =>
      simp only [ExecuteActions.step, hw]
      exact ⟨[], (List.append_nil _).symm, Or.inl noClose_nil⟩
    | terminated e =>
      simp only [ExecuteActions.step, hw]
      exact ⟨[], (List.append_nil _).symm, Or.inl noClose_nil⟩
  | callback i rspstr d =>
    simp only [ExecuteActions.step]
    split
    · exact ⟨[], (List.append_nil _).symm, Or.inl noClose_nil⟩
    · split
      · exact ⟨[], (List.append_nil _).symm, Or.inl noClose_nil⟩
      · simp only [Callback.run, Replay.dropClosing_log, Replay.dropEnding_log,
          List.append_assoc]
        refine ⟨_, rfl, Or.inl ?_⟩
        exact noClose_append _ _
          (noClose_single _ (fun _ _ _ he => ReplayEvent.noConfusion he))
          (noClose_append _ _ (noClose_warnings _) (noClose_append _ _
            (noClose_ite _ _ (fun _ _ _ he => ReplayEvent.noConfusion he))
            (noClose_ite _ _ (fun _ _ _ he => ReplayEvent.noConfusion he))))

theorem Waited_step (s : Replay) (t : Tick) (hC : InvC s) (hE : InvE s) (hW : Waited s.log) :
    Waited (ExecuteActions.step s t).log := by
  obtain ⟨l2, h1, h2⟩ := step_log s t hC
  rw [h1]
  apply Waited_append _ _ hW
  rcases h2 with h | h | ⟨h, hnil⟩
  · exact Or.inl h
  · exact Or.inr (Or.inl h)
  · refine Or.inr (Or.inr ⟨h, ?_⟩)
    intro j a c1 m hm
    rcases hE.answered j a c1 m hm with hc | ⟨cb, hcb, _⟩
    · exact hc
    · rw [hnil] at hcb
      cases hcb

theorem Waited_foldl (ticks : List Tick) : ∀ s : Replay, InvC s → InvE s → Waited s.log →
    Waited (ticks.foldl ExecuteActions.step s).log := by
  induction ticks with
  | nil => intro s _ _ h; exact h
  | cons t rest ih =>
    intro s hC hE hW
    exact ih _ (InvC_step s t hC) (InvE_step s t hE) (Waited_step s t hC hE hW)

theorem Waited_run (actions : action_list) (stats : ActionStatistics) (ticks : List Tick) :
    Waited (ExecuteActions.run actions stats ticks).log := by
  apply Waited_foldl ticks _ (InvC_init actions stats) (InvE_init actions stats)
  intro pre post i c n hs
  cases pre <;> simp [ExecuteActions.init] at hs
/-! ## The claims about the barriers -/

/-- **C23, counterexample.** A file that is opened, read and closed twice. The
first `Close` gives up the pointer `closing` of the worker, so the second `Read`
captures an empty pointer, and the second `Close` finds `closing` empty and does
not wait: it is submitted while the callback of that `Read` has not run, with
one action outstanding. -/
theorem later_close_does_not_wait :
    (ExecuteActions.run
        [Sample.openAt 0, Sample.readAt 1, Sample.closeAt 2,
          Sample.openAt 3, Sample.readAt 4, Sample.closeAt 5]
        ActionStatistics.empty
        [Tick.worker, Tick.callback 0 "x" 0, Tick.worker, Tick.worker, Tick.worker,
          Tick.callback 1 "x" 0, Tick.worker, Tick.callback 2 "x" 0, Tick.worker,
          Tick.callback 3 "x" 0, Tick.worker, Tick.worker, Tick.worker]).log =
      [ReplayEvent.submitted 0 "Open" (Call.Open "srv://h/a" 0 0 10) 0,
        ReplayEvent.completed 0,
        ReplayEvent.submitted 1 "Read" (Call.Read 0 (List.replicate 16 'A') 10) 0,
        ReplayEvent.completed 1,
        ReplayEvent.postedClosing,
        ReplayEvent.submitted 2 "Close" (Call.Close 10) 0,
        ReplayEvent.completed 2,
        ReplayEvent.submitted 3 "Open" (Call.Open "srv://h/a" 0 0 10) 0,
        ReplayEvent.completed 3,
        ReplayEvent.submitted 4 "Read" (Call.Read 0 (List.replicate 16 'A') 10) 0,
        ReplayEvent.submitted 5 "Close" (Call.Close 10) 1] ∧
      (ExecuteActions.run [Sample.closeAt 1, Sample.readAt 2, Sample.closeAt 3]
        ActionStatistics.empty [Tick.worker, Tick.worker, Tick.worker, Tick.worker]).log =
      [ReplayEvent.postedClosing,
        ReplayEvent.submitted 0 "Close" (Call.Close 10) 0,
        ReplayEvent.submitted 1 "Read" (Call.Read 0 (List.replicate 16 'A') 10) 1,
        ReplayEvent.submitted 2 "Close" (Call.Close 10) 2] :=
  ⟨rfl, rfl⟩

/-- **C23, amended.** In every run of the worker of a file, whatever the stream and
the order in which the callbacks run, the first `Close` of the stream is
submitted only after the callback of every action submitted before it has run:
at that submission no callback is outstanding (`n = 0`), and each earlier
submission in the log is followed by its completion before the `Close`. -/
theorem first_close_waits (actions : action_list) (stats : ActionStatistics)
    (ticks : List Tick) (pre post : List ReplayEvent) (i : Nat) (c : Call) (n : Nat)
    (hlog : (ExecuteActions.run actions stats ticks).log =
      pre ++ ReplayEvent.submitted i "Close" c n :: post)
    (hfirst : ∀ j c1 m, ReplayEvent.submitted j "Close" c1 m ∉ pre) :
    n = 0 ∧ ∀ j a c1 m, ReplayEvent.submitted j a c1 m ∈ pre →
      ReplayEvent.completed j ∈ pre := by
  constructor
  · apply (InvC_run actions stats ticks).first
    rw [hlog]
    exact firstClose_of_split pre post i c n hfirst
  · exact Waited_run actions stats ticks pre post i c n hlog hfirst

/-- Witness of C23: an `Open`, a `Read`, an unknown action and a `Close`; the
`Close` is called while the callback of the `Read` has not run, and is submitted
after it. -/
theorem first_close_waits_witness :
    (ExecuteActions.run
        [Sample.openAt 0, Sample.readAt 2, Sample.fsyncAt 2, Sample.closeAt 3]
        ActionStatistics.empty
        [Tick.worker, Tick.callback 0 "x" 1, Tick.worker, Tick.worker, Tick.worker,
          Tick.worker, Tick.worker, Tick.callback 1 "x" 1, Tick.worker]).log =
      [ReplayEvent.submitted 0 "Open" (Call.Open "srv://h/a" 0 0 10) 0,
        ReplayEvent.completed 0,
        ReplayEvent.submitted 1 "Read" (Call.Read 0 (List.replicate 16 'A') 10) 0,
        ReplayEvent.warning "Cannot replyt Fsync action.",
        ReplayEvent.completed 1, ReplayEvent.postedClosing] ++
        ReplayEvent.submitted 2 "Close" (Call.Close 10) 0 :: [] ∧
      ((0 : Nat) = 0 ∧ ∀ j a c1 m,
        ReplayEvent.submitted j a c1 m ∈
          [ReplayEvent.submitted 0 "Open" (Call.Open "srv://h/a" 0 0 10) 0,
            ReplayEvent.completed 0,
            ReplayEvent.submitted 1 "Read" (Call.Read 0 (List.replicate 16 'A') 10) 0,
            ReplayEvent.warning "Cannot replyt Fsync action.",
            ReplayEvent.completed 1, ReplayEvent.postedClosing] →
        ReplayEvent.completed j ∈
          [ReplayEvent.submitted 0 "Open" (Call.Open "srv://h/a" 0 0 10) 0,
            ReplayEvent.completed 0,
            ReplayEvent.submitted 1 "Read" (Call.Read 0 (List.replicate 16 'A') 10) 0,
            ReplayEvent.warning "Cannot replyt Fsync action.",
            ReplayEvent.completed 1, ReplayEvent.postedClosing]) :=
  ⟨rfl, first_close_waits
      [Sample.openAt 0, Sample.readAt 2, Sample.fsyncAt 2, Sample.closeAt 3]
      ActionStatistics.empty
      [Tick.worker, Tick.callback 0 "x" 1, Tick.worker, Tick.worker, Tick.worker,
        Tick.worker, Tick.worker, Tick.callback 1 "x" 1, Tick.worker]
      _ [] 2 (Call.Close 10) 0 rfl (by simp)⟩

/-- **C24.** In every run of the worker of a file the semaphore `endsem` is posted
at most once, and exactly once in a run that has come to `file.reset()`. Once it
is posted, the worker has given up its pointer `ending`, no callback is left,
and the callback of every submitted action, `Close` included, has run. In the
log `file.reset()` stands behind the post. Every callback that has not run holds
a reference to `ending`, the callback of a `Close` holds none to `closing`, and
when a callback runs the use counts go down by the references it holds. A run
whose arguments can be parsed can always be continued up to `file.reset()`. -/
theorem ending_posted_once (actions : action_list) (stats : ActionStatistics)
    (ticks : List Tick) :
    (ExecuteActions.run actions stats ticks).log.countP ReplayEvent.isPostedEnding ≤ 1 ∧
    (ReplayEvent.postedEnding ∈ (ExecuteActions.run actions stats ticks).log →
      (ExecuteActions.run actions stats ticks).ending = false ∧
      (ExecuteActions.run actions stats ticks).callbacks = [] ∧
      ∀ i a c n, ReplayEvent.submitted i a c n ∈ (ExecuteActions.run actions stats ticks).log →
        ReplayEvent.completed i ∈ (ExecuteActions.run actions stats ticks).log) ∧
    (∀ pre post, (ExecuteActions.run actions stats ticks).log =
        pre ++ ReplayEvent.released :: post → ReplayEvent.postedEnding ∈ pre) ∧
    ((ExecuteActions.run actions stats ticks).worker = Worker.done →
      (ExecuteActions.run actions stats ticks).log.countP ReplayEvent.isPostedEnding = 1 ∧
      (ExecuteActions.run actions stats ticks).log.countP ReplayEvent.isReleased = 1) ∧
    (∀ cb ∈ (ExecuteActions.run actions stats ticks).callbacks,
      cb.ending = true ∧ (cb.action = "Close" → cb.closing = false) ∧
      ∀ rspstr d,
        (cb.run rspstr d (ExecuteActions.run actions stats ticks)).endingCount + 1 =
          (ExecuteActions.run actions stats ticks).endingCount ∧
        (cb.run rspstr d (ExecuteActions.run actions stats ticks)).closingCount +
            (if cb.closing = true then 1 else 0) =
          (ExecuteActions.run actions stats ticks).closingCount) ∧
    (Parses actions →
      ∃ more, (ExecuteActions.run actions stats (ticks ++ more)).worker = Worker.done) := by
  have hE := InvE_run actions stats ticks
  refine ⟨?_, ?_, hE.order, ?_, ?_, run_completes actions stats ticks⟩
  · rw [hE.posted]; split <;> omega
  · intro hm
    have hpos := countP_posted_of_mem _ hm
    rw [hE.posted] at hpos
    by_cases hc : (ExecuteActions.run actions stats ticks).ending = false ∧
        (ExecuteActions.run actions stats ticks).callbacks = []
    · refine ⟨hc.1, hc.2, ?_⟩
      intro i a c n hs
      rcases hE.answered i a c n hs with h1 | ⟨cb, hcb, _⟩
      · exact h1
      · rw [hc.2] at hcb; cases hcb
    · rw [if_neg hc] at hpos; omega
  · intro hw
    have h1 := hE.sem
    have h2 := hE.posted
    have h3 := hE.once
    rw [hw] at h1 h3
    simp only [Worker.isDone, if_true] at h1 h3
    refine ⟨?_, h3⟩
    rw [h2] at h1 ⊢
    split at h1
    · simp_all
    · omega
  · intro cb hcb
    refine ⟨hE.captured cb hcb, hE.closeCb cb hcb, ?_⟩
    intro rspstr d
    have h := counts_Callback_run cb rspstr d _ hcb
    rw [hE.captured cb hcb] at h
    exact h

/-- Witness of C24: the run of an `Open`, a `Read`, an unknown action and a
`Close` up to `file.reset()`. -/
theorem ending_posted_once_witness :
    ((ExecuteActions.run
        [Sample.openAt 0, Sample.readAt 2, Sample.fsyncAt 2, Sample.closeAt 3]
        ActionStatistics.empty
        [Tick.worker, Tick.callback 0 "x" 1, Tick.worker, Tick.worker, Tick.worker,
          Tick.worker, Tick.worker, Tick.callback 1 "x" 1, Tick.worker, Tick.worker,
          Tick.worker, Tick.callback 2 "x" 0, Tick.worker]).log.countP
          ReplayEvent.isPostedEnding = 1 ∧
      (ExecuteActions.run
        [Sample.openAt 0, Sample.readAt 2, Sample.fsyncAt 2, Sample.closeAt 3]
        ActionStatistics.empty
        [Tick.worker, Tick.callback 0 "x" 1, Tick.worker, Tick.worker, Tick.worker,
          Tick.worker, Tick.worker, Tick.callback 1 "x" 1, Tick.worker, Tick.worker,
          Tick.worker, Tick.callback 2 "x" 0, Tick.worker]).log.countP
          ReplayEvent.isReleased = 1) ∧
      (ExecuteActions.run
        [Sample.openAt 0, Sample.readAt 2, Sample.fsyncAt 2, Sample.closeAt 3]
        ActionStatistics.empty
        [Tick.worker, Tick.callback 0 "x" 1, Tick.worker, Tick.worker, Tick.worker,
          Tick.worker, Tick.worker, Tick.callback 1 "x" 1, Tick.worker, Tick.worker,
          Tick.worker, Tick.callback 2 "x" 0, Tick.worker]).log =
        [ReplayEvent.submitted 0 "Open" (Call.Open "srv://h/a" 0 0 10) 0,
          ReplayEvent.completed 0,
          ReplayEvent.submitted 1 "Read" (Call.Read 0 (List.replicate 16 'A') 10) 0,
          ReplayEvent.warning "Cannot replyt Fsync action.",
          ReplayEvent.completed 1, ReplayEvent.postedClosing,
          ReplayEvent.submitted 2 "Close" (Call.Close 10) 0,
          ReplayEvent.completed 2, ReplayEvent.postedEnding, ReplayEvent.released] :=
  ⟨(ending_posted_once
      [Sample.openAt 0, Sample.readAt 2, Sample.fsyncAt 2, Sample.closeAt 3]
      ActionStatistics.empty
      [Tick.worker, Tick.callback 0 "x" 1, Tick.worker, Tick.worker, Tick.worker,
        Tick.worker, Tick.worker, Tick.callback 1 "x" 1, Tick.worker, Tick.worker,
        Tick.worker, Tick.callback 2 "x" 0, Tick.worker]).2.2.2.1 rfl, rfl⟩

theorem Execute_unknown (a : ActionExecutor)
    (hu : a.action ∉ ["Open", "Close", "Stat", "Read", "PgRead", "Write", "PgWrite", "Sync",
      "Truncate", "VectorRead", "VectorWrite"]) : a.Execute = .ok none := by
  simp only [List.mem_cons, List.mem_singleton, List.not_mem_nil, or_false, not_or] at hu
  obtain ⟨h1, h2, h3, h4, h5, h6, h7, h8, h9, h10, h11⟩ := hu
  unfold ActionExecutor.Execute
  simp only [h1, h2, h3, h4, h5, h6, h7, h8, h9, h10, h11, if_false]
  rfl

/-- **C25.** For an action whose name is none of the eleven kinds, `Execute`
submits nothing, writes the warning `Cannot replyt … action.` and returns: the
callbacks, the statistics of the replayed durations, the two semaphores and the
pointers of the worker are as before, and so are the use counts of `ending` and
of `closing`. The worker goes on with the next action. -/
theorem unknown_action_is_skipped (a : ActionExecutor) (k : Nat) (rest : action_list)
    (s : Replay)
    (hu : a.action ∉ ["Open", "Close", "Stat", "Read", "PgRead", "Write", "PgWrite", "Sync",
      "Truncate", "VectorRead", "VectorWrite"])
    (hw : s.worker = Worker.loop ((k, a) :: rest)) :
    a.Execute = .ok none ∧
      ExecuteActions.step s Tick.worker =
        { s with worker := Worker.loop rest,
                 log := s.log ++
                   [ReplayEvent.warning ("Cannot replyt " ++ a.action ++ " action.")] } ∧
      (ExecuteActions.step s Tick.worker).callbacks = s.callbacks ∧
      (ExecuteActions.step s Tick.worker).stats = s.stats ∧
      (ExecuteActions.step s Tick.worker).endingCount = s.endingCount ∧
      (ExecuteActions.step s Tick.worker).closingCount = s.closingCount ∧
      (ExecuteActions.step s Tick.worker).endsem = s.endsem ∧
      (ExecuteActions.step s Tick.worker).closesem = s.closesem := by
  have hx := Execute_unknown a hu
  have hstep : ExecuteActions.step s Tick.worker =
      { s with worker := Worker.loop rest,
               log := s.log ++
                 [ReplayEvent.warning ("Cannot replyt " ++ a.action ++ " action.")] } := by
    simp only [ExecuteActions.step, hw, ActionExecutor.Execute.start, hx]
  refine ⟨hx, hstep, ?_, ?_, ?_, ?_, ?_, ?_⟩ <;> rw [hstep] <;> rfl

/-- Witness of C25: an `Fsync` between a pending `Read` and a `Close`. -/
theorem unknown_action_is_skipped_witness :
    ExecuteActions.step
        (ExecuteActions.run [Sample.readAt 2, Sample.fsyncAt 2, Sample.closeAt 3]
          ActionStatistics.empty [Tick.worker]) Tick.worker =
      { ExecuteActions.run [Sample.readAt 2, Sample.fsyncAt 2, Sample.closeAt 3]
          ActionStatistics.empty [Tick.worker] with
        worker := Worker.loop [Sample.closeAt 3],
        log := (ExecuteActions.run [Sample.readAt 2, Sample.fsyncAt 2, Sample.closeAt 3]
          ActionStatistics.empty [Tick.worker]).log ++
            [ReplayEvent.warning ("Cannot replyt " ++ "Fsync" ++ " action.")] } :=
  (unknown_action_is_skipped ⟨1, "Fsync", "10", "ok", 2, 2⟩ 2 [Sample.closeAt 3]
    (ExecuteActions.run [Sample.readAt 2, Sample.fsyncAt 2, Sample.closeAt 3]
      ActionStatistics.empty [Tick.worker]) (by decide) rfl).2.1

end XrdCl
